import Mathlib

/-!
Verification development for the `trace_analyzer` repository (Rust).

This file gives a shallow embedding of the decode + index-building core of
the repository (`src/parse.rs`, `src/core/line.rs`, `src/core/abs_time.rs`,
`src/types/frame.rs`, `src/types/log.rs`, `src/types/errors.rs`,
`src/types/absolute_time.rs`) and proves properties about that embedding.

Modelling choices, stated once here:

* Rust `f64` values that appear in the trace text (the per-line timestamp)
  are modelled exactly as decimal numbers `num / 10^e` (structure `Dec`),
  since every numeric literal in a trace line is a finite decimal.  The
  comparison `partial_cmp(..).unwrap_or(Equal)` on two such values is exact
  rational comparison (NaN never arises from decimal literals).  Rounding
  `(x * 1000.0).round()` is round-half-away-from-zero, as in Rust.
* `chrono::NaiveDateTime` is modelled as a count of milliseconds since
  1970-01-01 00:00:00 plus a leap-second flag (chrono represents a parsed
  `%S = 60` as the preceding second with a fractional part past one
  second).  Sub-millisecond digits of a parsed fraction are dropped;
  every observation the program makes of such a value is at millisecond
  grain (whole-millisecond duration additions, a millisecond-truncating
  formatter), so the truncation is invisible.  Calendar conversion uses
  the standard civil-calendar algorithms, which agree with chrono's
  proleptic Gregorian calendar.
* The frame arena (`slotmap::SlotMap`) is modelled as a `List Frame`; a
  `FrameKey` is the insertion index.  Within a single load no removal ever
  happens, so slotmap hands out exactly the indices `0, 1, 2, ...` and
  `get` is list indexing.  The null (default) key of a slotmap never
  resolves, hence optional key fields are modelled as `Option Nat` with
  `none` for the default key.
* `HashMap` iteration order is unobservable in the repository: the
  `(id, channel) -> key` map is only read through single-key lookups or
  drained into a vector that is immediately sorted by a total order, and
  the `key -> position` map only through single-key lookups.  The maps are
  modelled as association lists with insert-overwrite semantics.
* `slice::sort_by` is a stable sort; every comparator passed to it in this
  repository is a lawful total preorder (built from `Ord` chains), for
  which every stable sort produces the same output sequence.  It is
  modelled as a stable insertion sort.
* The external `dbc_editor::DatabaseDBC` capability is modelled as a
  structure of lookup functions (resolve message key by numeric id,
  message by key, node by key), which is exactly the surface the decode
  core consumes.  The in-place signal time-series accumulation
  (`signal.raws.push(..)`) mutates only the bound database object, never
  the frames or the index vectors, and no property below depends on it,
  so it is not carried in the state.
-/

namespace TraceAnalyzer

/-! ## Ordering primitives

`cmpI` is Rust's `Ord::cmp` on integers, `cmpListNat` the lexicographic
comparison underlying `str::cmp` (byte order on UTF-8 equals code-point
order, modelled on `Char.toNat` lists). -/

def cmpI (a b : Int) : Ordering :=
  if a < b then .lt else if a = b then .eq else .gt

def cmpN (a b : Nat) : Ordering :=
  if a < b then .lt else if a = b then .eq else .gt

def cmpListNat : List Nat → List Nat → Ordering
  | [], [] => .eq
  | [], _ :: _ => .lt
  | _ :: _, [] => .gt
  | a :: as', b :: bs' =>
    match cmpN a b with
    | .eq => cmpListNat as' bs'
    | o => o

/-- Rust `str::cmp` (lexicographic byte order). -/
def cmpStr (a b : String) : Ordering :=
  cmpListNat (a.data.map Char.toNat) (b.data.map Char.toNat)

/-! ## Exact decimal numbers (model of parsed `f64` trace literals) -/

/-- A finite decimal `num / 10^e`.  Every numeric token of a trace line
denotes such a number. -/
structure Dec where
  num : Int
  e : Nat
deriving DecidableEq, Repr

instance : Inhabited Dec := ⟨⟨0, 0⟩⟩

namespace Dec

/-- The rational value of a decimal. -/
def toRat (d : Dec) : ℚ := (d.num : ℚ) / (10 : ℚ) ^ d.e

/-- Comparison of two decimals as real numbers (cross multiplication with
the positive denominators `10^e`).  This is `f64::partial_cmp ... |>.unwrap_or(Equal)`
for values that arise from finite decimal literals. -/
def cmp (a b : Dec) : Ordering :=
  cmpI (a.num * (10 : Int) ^ b.e) (b.num * (10 : Int) ^ a.e)

/-- Multiplication by 1000 (`x * 1000.0`): exact on decimals. -/
def mul1000 (d : Dec) : Dec := ⟨d.num * 1000, d.e⟩

/-- Rust `f64::round`: round half away from zero, as an integer. -/
def round (d : Dec) : Int :=
  let den : Nat := 10 ^ d.e
  let mag : Nat := (2 * d.num.natAbs + den) / (2 * den)
  if d.num < 0 then -(mag : Int) else (mag : Int)

end Dec

/-- Saturating cast `as u32` of Rust (float-to-int casts saturate). -/
def satU32 (z : Int) : Nat :=
  if z < 0 then 0 else min z.toNat (2 ^ 32 - 1)

/-- Saturating cast `as i64` of Rust. -/
def satI64 (z : Int) : Int :=
  max (-(2 ^ 63)) (min z (2 ^ 63 - 1))

/-! ## ASCII tokenization (`str::split_ascii_whitespace`) -/

def isAsciiWs (c : Char) : Bool :=
  c = ' ' || c = '\t' || c = '\n' || c = '\r' || c = '\x0c'

/-- Accumulating tokenizer over characters: splits on runs of ASCII
whitespace, yielding the non-empty tokens in order. -/
def tokAux : List Char → List Char → List (List Char)
  | [], acc => if acc.isEmpty then [] else [acc.reverse]
  | c :: cs, acc =>
    if isAsciiWs c then
      if acc.isEmpty then tokAux cs [] else acc.reverse :: tokAux cs []
    else
      tokAux cs (c :: acc)

/-- Rust `str::split_ascii_whitespace`, collected to a list. -/
def splitAsciiWs (s : String) : List String :=
  (tokAux s.data []).map String.mk

/-- Number of whitespace-separated tokens of a string. -/
def countTokens (s : String) : Nat := (splitAsciiWs s).length

/-- Rust `line.trim_end_matches(['\n', '\r'])`. -/
def trimEndNewline (s : String) : String :=
  String.mk (((s.data.reverse).dropWhile (fun c => c = '\n' || c = '\r')).reverse)

/-- Joining payload tokens with single spaces, as the decoder's
`data_buf` push loop does (`if i != 0 push ' '`). -/
def joinSp : List (List Char) → List Char
  | [] => []
  | [t] => t
  | t :: rest => t ++ ' ' :: joinSp rest

def joinTokens (toks : List String) : String :=
  String.mk (joinSp (toks.map String.data))

/-! ## Numeric token parsing

`parseDigits r cs` reads a non-empty all-digit token in radix `r`
(`10` or `16`); `parseUIntRadix` adds the sign handling of Rust's
`from_str_radix` for unsigned targets (optional `+`; a `-` only admits
value zero) and the overflow bound of the target type. -/

def digitVal (radix : Nat) (c : Char) : Option Nat :=
  let v : Nat :=
    if '0' ≤ c ∧ c ≤ '9' then c.toNat - '0'.toNat
    else if 'a' ≤ c ∧ c ≤ 'f' then c.toNat - 'a'.toNat + 10
    else if 'A' ≤ c ∧ c ≤ 'F' then c.toNat - 'A'.toNat + 10
    else radix
  if v < radix then some v else none

def parseDigitsAux (radix : Nat) : List Char → Nat → Option Nat
  | [], acc => some acc
  | c :: cs, acc =>
    match digitVal radix c with
    | some v => parseDigitsAux radix cs (acc * radix + v)
    | none => none

def parseDigits (radix : Nat) : List Char → Option Nat
  | [] => none
  | cs => parseDigitsAux radix cs 0

/-- Rust `uN::from_str_radix` / `uN::from_str` (its `FromStr` is radix 10):
optional sign, non-empty digits, overflow rejected. -/
def parseUIntRadix (radix bound : Nat) (cs : List Char) : Option Nat :=
  let core : List Char → Option Nat := fun ds =>
    (parseDigits radix ds).bind (fun v => if v ≤ bound then some v else none)
  match cs with
  | [] => core []
  | c :: ds =>
    if c = '+' then core ds
    else if c = '-' then none
    else core (c :: ds)

def parseU8 (s : String) : Option Nat := parseUIntRadix 10 255 s.data

def parseU16 (s : String) : Option Nat := parseUIntRadix 10 65535 s.data

/-- Digit span helper for the float grammar. -/
def spanDigits (cs : List Char) : List Char × List Char :=
  cs.span (fun c => '0' ≤ c ∧ c ≤ '9')

def digitsToNat (ds : List Char) : Nat :=
  ds.foldl (fun acc c => acc * 10 + (c.toNat - '0'.toNat)) 0

/-- Rust `f64::from_str` restricted to finite decimal notation
`[+-]? digits [. digits] [eE [+-]? digits]` with at least one mantissa
digit.  (The `inf`/`NaN` spellings never occur in trace timestamps and
are not modelled.)  The result is the exact decimal value. -/
def parseF64 (s : String) : Option Dec :=
  let body : List Char → Option Dec := fun cs =>
    let (ip, rest) := spanDigits cs
    let (fp, rest') :=
      match rest with
      | '.' :: r => spanDigits r
      | _ => ([], rest)
    if ip.isEmpty ∧ fp.isEmpty then none
    else
      let mant : Nat := digitsToNat (ip ++ fp)
      let mkDec : Int → Dec := fun ex =>
        if 0 ≤ ex - (fp.length : Int) then
          ⟨(mant : Int) * (10 : Int) ^ (ex - (fp.length : Int)).toNat, 0⟩
        else
          ⟨(mant : Int), ((fp.length : Int) - ex).toNat⟩
      match rest' with
      | [] => some (mkDec 0)
      | 'e' :: r =>
        match r with
        | '+' :: r' => (parseDigits 10 r').map (fun ex => mkDec (ex : Int))
        | '-' :: r' => (parseDigits 10 r').map (fun ex => mkDec (-(ex : Int)))
        | r' => (parseDigits 10 r').map (fun ex => mkDec (ex : Int))
      | 'E' :: r =>
        match r with
        | '+' :: r' => (parseDigits 10 r').map (fun ex => mkDec (ex : Int))
        | '-' :: r' => (parseDigits 10 r').map (fun ex => mkDec (-(ex : Int)))
        | r' => (parseDigits 10 r').map (fun ex => mkDec (ex : Int))
      | _ => none
  let negBody : List Char → Option Dec := fun cs =>
    (body cs).map (fun d => ⟨-d.num, d.e⟩)
  match s.data with
  | '+' :: cs => body cs
  | '-' :: cs => negBody cs
  | cs => body cs

/-! ## Calendar arithmetic (model of `chrono`)

A `NaiveDateTime` is a count of milliseconds since 1970-01-01 00:00:00.
`civilFromDays` / `daysFromCivil` are the standard proleptic-Gregorian
conversions chrono implements. -/

/-- `chrono::NaiveDateTime` at millisecond grain: `ms` is the count of
milliseconds since 1970-01-01 00:00:00 of the instant with chrono's
stored `(secs, frac mod 1s)` fields; `leap` marks a leap-second value
(chrono `frac >= 1_000_000_000`, displayed second = stored second + 1).
Sub-millisecond digits of a parsed fraction are dropped: every value the
program observes (duration additions in whole milliseconds, the
millisecond-truncating formatter, the leap escape comparisons against
integral-millisecond deltas) is invariant under that truncation. -/
structure NaiveDT where
  ms : Int
  leap : Bool := false
deriving DecidableEq, Repr

/-- chrono `NaiveDateTime + TimeDelta` (`checked_add_signed`) for an
integral-millisecond delta: a non-leap value shifts plainly; a
leap-second value stays inside the inserted second, escapes forward
consuming only the remainder of the inserted second, or escapes backward
counting the inserted second as real time — chrono's asymmetric rule. -/
def NaiveDT.addMs (dt : NaiveDT) (rhs : Int) : NaiveDT :=
  if dt.leap then
    let f : Int := dt.ms.emod 1000
    if 1000 - f ≤ rhs then ⟨dt.ms + rhs, false⟩
    else if rhs < -f then ⟨dt.ms + 1000 + rhs, false⟩
    else ⟨dt.ms + rhs, true⟩
  else ⟨dt.ms + rhs, false⟩

instance : HAdd NaiveDT Int NaiveDT := ⟨NaiveDT.addMs⟩

def civilFromDays (z0 : Int) : Int × Nat × Nat :=
  let z : Int := z0 + 719468
  let era : Int := z.fdiv 146097
  let doe : Nat := (z - era * 146097).toNat
  let yoe : Nat := (doe - doe / 1460 + doe / 36524 - doe / 146096) / 365
  let y : Int := (yoe : Int) + era * 400
  let doy : Nat := doe - (365 * yoe + yoe / 4 - yoe / 100)
  let mp : Nat := (5 * doy + 2) / 153
  let d : Nat := doy - (153 * mp + 2) / 5 + 1
  let m : Nat := if mp < 10 then mp + 3 else mp - 9
  (if m ≤ 2 then y + 1 else y, m, d)

def daysFromCivil (y0 : Int) (m d : Nat) : Int :=
  let y : Int := if m ≤ 2 then y0 - 1 else y0
  let era : Int := y.fdiv 400
  let yoe : Nat := (y - era * 400).toNat
  let mp : Nat := if 2 < m then m - 3 else m + 9
  let doy : Nat := (153 * mp + 2) / 5 + d - 1
  let doe : Nat := yoe * 365 + yoe / 4 - yoe / 100 + doy
  era * 146097 + (doe : Int) - 719468

/-- Day of week with 0 = Sunday (1970-01-01 was a Thursday). -/
def sundayIdxOfDays (z : Int) : Nat := ((z + 4).emod 7).toNat

def isLeapYear (y : Int) : Bool :=
  (y.emod 4 = 0 && y.emod 100 ≠ 0) || y.emod 400 = 0

def daysInMonth (y : Int) (m : Nat) : Nat :=
  if m = 2 then (if isLeapYear y then 29 else 28)
  else if m = 4 ∨ m = 6 ∨ m = 9 ∨ m = 11 then 30
  else 31

/-! ## Decimal digit rendering -/

def natToCharsAux : Nat → Nat → List Char → List Char
  | 0, _, acc => acc
  | _ + 1, 0, acc => acc
  | fuel + 1, n, acc => natToCharsAux fuel (n / 10) (Char.ofNat ('0'.toNat + n % 10) :: acc)

/-- Decimal digits of a natural number (Rust `u32::to_string` and friends). -/
def natToChars (n : Nat) : List Char :=
  if n = 0 then ['0'] else natToCharsAux (n + 1) n []

/-- Rust `i32::to_string` (used for the year field). -/
def intToChars (z : Int) : List Char :=
  if z < 0 then '-' :: natToChars z.natAbs else natToChars z.natAbs

/-- The repository's `push_2`: exactly two digits, `(v / 10) % 10` then `v % 10`. -/
def push2 (v : Nat) : List Char :=
  [Char.ofNat ('0'.toNat + (v / 10) % 10), Char.ofNat ('0'.toNat + v % 10)]

/-- The repository's `push_3`. -/
def push3 (v : Nat) : List Char :=
  [Char.ofNat ('0'.toNat + (v / 100) % 10),
   Char.ofNat ('0'.toNat + (v / 10) % 10),
   Char.ofNat ('0'.toNat + v % 10)]

/-- `format!("{:02}", v)`: zero-padded to minimum width 2, never truncated. -/
def fmtMin2 (v : Nat) : List Char :=
  if v < 10 then '0' :: natToChars v else natToChars v

/-- `format!("{:03}", v)`: zero-padded to minimum width 3, never truncated. -/
def fmtMin3 (v : Nat) : List Char :=
  if v < 10 then '0' :: '0' :: natToChars v
  else if v < 100 then '0' :: natToChars v
  else natToChars v

/-! ## The two absolute-time formatters of `src/core/line.rs` -/

/-- `seconds_to_hms_string`: synthesized absolute time on the fixed
placeholder date 2025-01-01, from the raw timestamp converted to
h/m/s/ms.  `(seconds * 1000.0).round() as u32` saturates at 0 below. -/
def seconds_to_hms_string (seconds : Dec) : String :=
  let total_millis : Nat := satU32 (Dec.round (Dec.mul1000 seconds))
  let hours : Nat := total_millis / 3600000
  let minutes : Nat := (total_millis % 3600000) / 60000
  let secs : Nat := (total_millis % 60000) / 1000
  let millis : Nat := total_millis % 1000
  String.mk ("2025-01-01 ".data ++ fmtMin2 hours ++ ':' :: fmtMin2 minutes
    ++ ':' :: fmtMin2 secs ++ '.' :: fmtMin3 millis)

/-- `format_datetime_ymdhms_millis`: `YYYY-MM-DD HH:MM:SS.mmm` via
`push_2`/`push_3` over chrono's accessors.  On a leap-second value
`second()` yields the enclosing stored second and
`timestamp_subsec_millis()` yields `1000 + ms`, which `push_3` truncates
to its last three digits, so the output equals the output at the plain
`dt.ms` instant and the leap flag does not influence it. -/
def format_datetime_ymdhms_millis (dt : NaiveDT) : String :=
  let days : Int := Int.fdiv dt.ms 86400000
  let msod : Nat := (Int.emod dt.ms 86400000).toNat
  let c := civilFromDays days
  let year : Int := c.1
  let month : Nat := c.2.1
  let day : Nat := c.2.2
  let hour : Nat := msod / 3600000
  let minute : Nat := (msod % 3600000) / 60000
  let second : Nat := (msod % 60000) / 1000
  let millis : Nat := msod % 1000
  String.mk (intToChars year ++ '-' :: push2 month ++ '-' :: push2 day
    ++ ' ' :: push2 hour ++ ':' :: push2 minute ++ ':' :: push2 second
    ++ '.' :: push3 millis)

/-! ## Time-header detector (`src/core/abs_time.rs`)

`from_line` splits the line on ASCII whitespace, requires the first token
to be the literal `date`, re-joins the remaining tokens with single
spaces and hands the result to
`NaiveDateTime::parse_from_str(.., "%a %b %d %I:%M:%S%.3f %P %Y")`.

The scanner below follows chrono's parser item by item: a space in the
format is a `Space` item matching zero or more (Unicode) whitespace
characters; numeric items skip leading whitespace themselves and then
read one up to `width` ASCII digits (the signed `%Y` reads unboundedly
many digits after an explicit sign); `%a`/`%b` match exactly three
characters case-insensitively against the abbreviations; `%P` matches
exactly two characters case-insensitively; `%.3f` is optional and, after
a literal dot, reads one or more digits, the first nine significant;
literal `:` items match exactly; trailing input fails the parse.
`Parsed` resolution then checks `%I` in `1..=12`, minute `<= 59`, second
`<= 60` (60 becoming a leap second), the civil date including the year
range of `NaiveDate` and the weekday. -/

def asciiLower (c : Char) : Char :=
  if 'A' ≤ c ∧ c ≤ 'Z' then Char.ofNat (c.toNat + 32) else c

/-- Rust `char::is_whitespace` (the Unicode `White_Space` property), the
character class of chrono's `Space` items and numeric-field trimming. -/
def isUniWs (c : Char) : Bool :=
  (0x9 ≤ c.toNat && c.toNat ≤ 0xD) || c.toNat = 0x20 || c.toNat = 0x85 ||
  c.toNat = 0xA0 || c.toNat = 0x1680 || (0x2000 ≤ c.toNat && c.toNat ≤ 0x200A) ||
  c.toNat = 0x2028 || c.toNat = 0x2029 || c.toNat = 0x202F || c.toNat = 0x205F ||
  c.toNat = 0x3000

def isAsciiDigit (c : Char) : Bool := '0' ≤ c && c ≤ '9'

/-- The digit loop of chrono `scan::number`: consume up to `max` leading
ASCII digits, returning the value, the number of digits consumed and the
rest.  (`i64` overflow, possible only in the unbounded signed case, is
checked by the caller.) -/
def numScan (max : Nat) : List Char → Nat → Nat → Nat × Nat × List Char
  | [], acc, taken => (acc, taken, [])
  | c :: cs, acc, taken =>
    if taken < max then
      if isAsciiDigit c then numScan max cs (acc * 10 + (c.toNat - '0'.toNat)) (taken + 1)
      else (acc, taken, c :: cs)
    else (acc, taken, c :: cs)

/-- chrono `scan::number(s, 1, max)`: at least one digit. -/
def scanDigitsMin1 (max : Nat) (cs : List Char) : Option (Nat × List Char) :=
  let r := numScan max cs 0 0
  if r.2.1 = 0 then none else some (r.1, r.2.2)

/-- An unsigned numeric item of width `max`: chrono trims leading
whitespace before scanning the digits. -/
def scanNumU (max : Nat) (cs : List Char) : Option (Nat × List Char) :=
  scanDigitsMin1 max (cs.dropWhile isUniWs)

/-- The signed numeric item `%Y`: after an explicit sign chrono reads
unboundedly many digits failing on `i64` overflow, without one at most
four. -/
def scanYear (cs : List Char) : Option (Int × List Char) :=
  let cs1 := cs.dropWhile isUniWs
  match cs1 with
  | '-' :: r =>
    (scanDigitsMin1 r.length r).bind fun v =>
      if v.1 ≤ 9223372036854775807 then some (-(v.1 : Int), v.2) else none
  | '+' :: r =>
    (scanDigitsMin1 r.length r).bind fun v =>
      if v.1 ≤ 9223372036854775807 then some ((v.1 : Int), v.2) else none
  | _ => (scanNumU 4 cs1).map fun v => ((v.1 : Int), v.2)

/-- chrono `scan::short_weekday`: exactly the three-letter abbreviation,
case-insensitive, with 0 = Sunday. -/
def wk3 (a b c : Char) : Option Nat :=
  if asciiLower a = 's' ∧ asciiLower b = 'u' ∧ asciiLower c = 'n' then some 0
  else if asciiLower a = 'm' ∧ asciiLower b = 'o' ∧ asciiLower c = 'n' then some 1
  else if asciiLower a = 't' ∧ asciiLower b = 'u' ∧ asciiLower c = 'e' then some 2
  else if asciiLower a = 'w' ∧ asciiLower b = 'e' ∧ asciiLower c = 'd' then some 3
  else if asciiLower a = 't' ∧ asciiLower b = 'h' ∧ asciiLower c = 'u' then some 4
  else if asciiLower a = 'f' ∧ asciiLower b = 'r' ∧ asciiLower c = 'i' then some 5
  else if asciiLower a = 's' ∧ asciiLower b = 'a' ∧ asciiLower c = 't' then some 6
  else none

/-- chrono `scan::short_month0` shifted to 1-based months: exactly the
three-letter abbreviation, case-insensitive. -/
def month3 (a b c : Char) : Option Nat :=
  if asciiLower a = 'j' ∧ asciiLower b = 'a' ∧ asciiLower c = 'n' then some 1
  else if asciiLower a = 'f' ∧ asciiLower b = 'e' ∧ asciiLower c = 'b' then some 2
  else if asciiLower a = 'm' ∧ asciiLower b = 'a' ∧ asciiLower c = 'r' then some 3
  else if asciiLower a = 'a' ∧ asciiLower b = 'p' ∧ asciiLower c = 'r' then some 4
  else if asciiLower a = 'm' ∧ asciiLower b = 'a' ∧ asciiLower c = 'y' then some 5
  else if asciiLower a = 'j' ∧ asciiLower b = 'u' ∧ asciiLower c = 'n' then some 6
  else if asciiLower a = 'j' ∧ asciiLower b = 'u' ∧ asciiLower c = 'l' then some 7
  else if asciiLower a = 'a' ∧ asciiLower b = 'u' ∧ asciiLower c = 'g' then some 8
  else if asciiLower a = 's' ∧ asciiLower b = 'e' ∧ asciiLower c = 'p' then some 9
  else if asciiLower a = 'o' ∧ asciiLower b = 'c' ∧ asciiLower c = 't' then some 10
  else if asciiLower a = 'n' ∧ asciiLower b = 'o' ∧ asciiLower c = 'v' then some 11
  else if asciiLower a = 'd' ∧ asciiLower b = 'e' ∧ asciiLower c = 'c' then some 12
  else none

def scanWeekday (cs : List Char) : Option (Nat × List Char) :=
  match cs with
  | a :: b :: c :: rest => (wk3 a b c).map (fun w => (w, rest))
  | _ => none

def scanMonth (cs : List Char) : Option (Nat × List Char) :=
  match cs with
  | a :: b :: c :: rest => (month3 a b c).map (fun m => (m, rest))
  | _ => none

/-- chrono `LowerAmPm`: exactly two characters, case-insensitive;
`true` = pm. -/
def scanAmPm (cs : List Char) : Option (Bool × List Char) :=
  match cs with
  | a :: b :: rest =>
    if asciiLower a = 'a' ∧ asciiLower b = 'm' then some (false, rest)
    else if asciiLower a = 'p' ∧ asciiLower b = 'm' then some (true, rest)
    else none
  | _ => none

/-- chrono `scan::nanosecond` behind the optional dot of `%.3f`: one or
more digits, the first nine significant, the rest skipped.  Returns
nanoseconds. -/
def scanNanoOpt (cs : List Char) : Option (Nat × List Char) :=
  match cs with
  | '.' :: r =>
    let t := numScan 9 r 0 0
    if t.2.1 = 0 then none
    else some (t.1 * 10 ^ (9 - t.2.1), t.2.2.dropWhile isAsciiDigit)
  | _ => some (0, cs)

/-- `Parsed` resolution (`to_naive_date` + `to_naive_time`): range checks
on every field, the civil-date check including the `NaiveDate` year range
and the weekday, 12-hour clock resolution, and the leap-second encoding
of a second of 60. -/
def mkNaiveDT (w mon day h12 minute sec nano : Nat) (pm : Bool) (year : Int) :
    Option NaiveDT :=
  if h12 < 1 ∨ 12 < h12 then none
  else if 59 < minute then none
  else if 60 < sec then none
  else if day < 1 ∨ 31 < day then none
  else if year < -262144 ∨ 262143 < year then none
  else if daysInMonth year mon < day then none
  else
    let days : Int := daysFromCivil year mon day
    if sundayIdxOfDays days ≠ w then none
    else
      let hour24 : Nat := h12 % 12 + (if pm then 12 else 0)
      let leap : Bool := sec = 60
      let sec1 : Nat := if leap then 59 else sec
      some ⟨days * 86400000
              + ((hour24 * 3600000 + minute * 60000 + sec1 * 1000 + nano / 1000000 : Nat) : Int),
            leap⟩

/-- `NaiveDateTime::parse_from_str` with the fixed format
`"%a %b %d %I:%M:%S%.3f %P %Y"`, item by item. -/
def parseChronoHeader (cs0 : List Char) : Option NaiveDT :=
  (scanWeekday cs0).bind fun pw =>
  (scanMonth (pw.2.dropWhile isUniWs)).bind fun pmo =>
  (scanNumU 2 pmo.2).bind fun pd =>
  (scanNumU 2 pd.2).bind fun ph =>
  (match ph.2 with | ':' :: r => some r | _ => none).bind fun r1 =>
  (scanNumU 2 r1).bind fun pmi =>
  (match pmi.2 with | ':' :: r => some r | _ => none).bind fun r2 =>
  (scanNumU 2 r2).bind fun ps =>
  (scanNanoOpt ps.2).bind fun pn =>
  (scanAmPm (pn.2.dropWhile isUniWs)).bind fun pa =>
  (scanYear pa.2).bind fun py =>
  if py.2 = [] then mkNaiveDT pw.1 pmo.1 pd.1 ph.1 pmi.1 ps.1 pn.1 pa.1 py.1
  else none

/-- `AbsoluteTime` of `src/types/absolute_time.rs`: raw matched text plus
the parsed value. -/
structure AbsoluteTime where
  text : String := ""
  value : Option NaiveDT := none
deriving DecidableEq, Repr

/-- `abs_time::from_line`: split on ASCII whitespace, first token the
literal `date`, remainder re-joined with single spaces and parsed against
the fixed chrono format. -/
def abs_time_from_line (line : String) : Option AbsoluteTime :=
  match splitAsciiWs line with
  | [] => none
  | first :: rest =>
    if first ≠ "date" then none
    else
      let date_str : String := joinTokens rest
      match parseChronoHeader date_str.data with
      | some dt => some { text := date_str, value := some dt }
      | none => none

/-! ## Data model (`src/types/frame.rs`, `src/types/log.rs`)

Keys into the external database are slotmap keys whose default (null)
value never resolves; they are modelled as `Option Nat` with `none` for
the null key. -/

inductive FrameType
  | Can
  | Eth
  | ErrorFrame
deriving DecidableEq, Repr

inductive Direction
  | Rx
  | Tx
deriving DecidableEq, Repr

inductive ChannelType
  | Can
  | Ethernet
deriving DecidableEq, Repr

/-- The slice of `dbc_editor`'s message record the decode core reads. -/
structure MessageDBC where
  name : String
  comment : String
  signals : List Nat
  sender_nodes : List Nat
deriving DecidableEq, Repr

structure NodeDBC where
  name : String
deriving DecidableEq, Repr

/-- The opaque `DatabaseDBC` capability, reduced to the lookups the core
consumes.  `get_message_by_key` / `get_node_by_key` on the null key
(`none`) never resolve, as for a slotmap's default key. -/
structure DatabaseDBC where
  name : String := ""
  msg_key_by_id : Nat → Option Nat
  msg_by_key : Nat → Option MessageDBC
  node_by_key : Nat → Option NodeDBC

def DatabaseDBC.get_msg_key_by_id (db : DatabaseDBC) (id : Nat) : Option Nat :=
  db.msg_key_by_id id

def DatabaseDBC.get_message_by_key (db : DatabaseDBC) (k : Option Nat) : Option MessageDBC :=
  k.bind db.msg_by_key

def DatabaseDBC.get_node_by_key (db : DatabaseDBC) (k : Option Nat) : Option NodeDBC :=
  k.bind db.node_by_key

structure ChannelInfo where
  number : Nat := 0
  tipo : ChannelType := .Can
  database : Option DatabaseDBC := none

/-- One decoded bus event (`src/types/frame.rs`). -/
structure Frame where
  absolute_time : String := ""
  timestamp : Dec := ⟨0, 0⟩
  channel : Nat := 0
  ftype : FrameType := .Can
  direction : Direction := .Rx
  msg_key : Option Nat := none
  id : Nat := 0
  id_hex : String := ""
  byte_length : Nat := 0
  tx_node_key : Option Nat := none
  sig_keys : List Nat := []
  data : String := ""
deriving DecidableEq, Repr

def Frame.default : Frame := {}

/-- The Trace Store (`src/types/log.rs`).  The frame arena is a list;
a `FrameKey` is the insertion index (slotmap hands out exactly these
within one load, see the header comment). -/
structure Log where
  channel_map : Nat → Option ChannelInfo
  absolute_time : AbsoluteTime := {}
  frames : List Frame := []
  frame_by_file_order : List Nat := []
  frame_by_timestamp : List Nat := []
  frame_by_channel : List Nat := []
  frame_by_direction : List Nat := []
  frame_by_can_msg_name : List Nat := []
  frame_by_can_msg_id : List Nat := []
  frame_by_can_dlc : List Nat := []
  frame_by_can_protocol : List Nat := []
  frame_by_can_sender_node : List Nat := []
  frame_by_can_data : List Nat := []
  frame_by_can_comment : List Nat := []
  id_chn_by_timestamp : List Nat := []
  id_chn_by_channel : List Nat := []
  id_chn_by_direction : List Nat := []
  id_chn_by_can_msg_name : List Nat := []
  id_chn_by_can_msg_id : List Nat := []
  id_chn_by_can_dlc : List Nat := []
  id_chn_by_can_protocol : List Nat := []
  id_chn_by_can_sender_node : List Nat := []
  id_chn_by_can_data : List Nat := []
  id_chn_by_can_comment : List Nat := []

/-- `Log::clear_frames`: clears the arena and every index vector;
`channel_map` and `absolute_time` are untouched. -/
def Log.clear_frames (log : Log) : Log :=
  { log with
    frames := []
    frame_by_file_order := []
    frame_by_timestamp := []
    frame_by_channel := []
    frame_by_direction := []
    frame_by_can_msg_name := []
    frame_by_can_msg_id := []
    frame_by_can_dlc := []
    frame_by_can_protocol := []
    frame_by_can_sender_node := []
    frame_by_can_data := []
    frame_by_can_comment := []
    id_chn_by_timestamp := []
    id_chn_by_channel := []
    id_chn_by_direction := []
    id_chn_by_can_msg_name := []
    id_chn_by_can_msg_id := []
    id_chn_by_can_dlc := []
    id_chn_by_can_protocol := []
    id_chn_by_can_sender_node := []
    id_chn_by_can_data := []
    id_chn_by_can_comment := [] }

def Log.get_database_by_channel (log : Log) (ch : Nat) : Option DatabaseDBC :=
  (log.channel_map ch).bind (·.database)

/-! ## Identifier decoding (`src/core/line.rs`) -/

def U32_MAX : Nat := 2 ^ 32 - 1

/-- The normalization step of `parse_id_u32`: strip trailing `x`/`X`
marker characters, then one `0x`/`0X` prefix. -/
def stripIdToken (id_token : String) : List Char :=
  let s1 : List Char := ((id_token.data.reverse).dropWhile (fun c => c = 'x' || c = 'X')).reverse
  match s1 with
  | '0' :: 'x' :: r => r
  | '0' :: 'X' :: r => r
  | r => r

/-- `parse_id_u32`: normalize the token, parse as hex, retry as decimal. -/
def parse_id_u32 (id_token : String) : Option Nat :=
  match parseUIntRadix 16 U32_MAX (stripIdToken id_token) with
  | some v => some v
  | none => parseUIntRadix 10 U32_MAX (stripIdToken id_token)

def CAN_STD_MAX_ID : Nat := 0x7FF

def CAN_EFF_FLAG : Nat := 0x80000000

/-- `resolve_msg_key_for_id`: direct lookup first; on failure retry with
the extended-frame flag bit set, but only for identifiers above the
11-bit standard range. -/
def resolve_msg_key_for_id (dbc : DatabaseDBC) (id : Nat) : Option Nat :=
  match dbc.get_msg_key_by_id id with
  | some k => some k
  | none =>
    if CAN_STD_MAX_ID < id then dbc.get_msg_key_by_id (Nat.lor id CAN_EFF_FLAG)
    else none

/-! ## The line decoder (`LineParser::parse` in `src/core/line.rs`)

The reusable `data_buf` / `payload_buf` buffers are a performance
artifact: the decoded payload string is assembled exactly as the push
loop does (tokens joined by single spaces).  The signal time-series
accumulation mutates only the bound database (see header comment). -/

/-- `log.frames.insert(frame)` followed by pushing the new key onto the
file-order index. -/
def insertFrame (f : Frame) (log : Log) : Log :=
  { log with
    frames := log.frames ++ [f]
    frame_by_file_order := log.frame_by_file_order ++ [log.frames.length] }

/-- The scan-forward-to-data-marker loop: skips tokens until a literal
`d`/`D`; returns the following token (if any) and the tokens after it. -/
def findDataMarker : List String → Option (Option String × List String)
  | [] => none
  | t :: ts => if t = "d" ∨ t = "D" then some (ts.head?, ts.tail) else findDataMarker ts

/-- The payload loop: consume exactly `n` tokens, each a base-16 byte;
any missing or non-hex token aborts with no result. -/
def readPayload : Nat → List String → Option (List String)
  | 0, _ => some []
  | _ + 1, [] => none
  | n + 1, t :: ts =>
    match parseUIntRadix 16 255 t.data with
    | none => none
    | some _ => (readPayload n ts).map (t :: ·)

/-- The absolute-time string of one decoded frame: start-time arithmetic
when a header was seen (`start + Duration::milliseconds(round(ts*1000))`),
synthesized duration otherwise. -/
def frameAbsTime (startValue : Option NaiveDT) (timestamp : Dec) : String :=
  match startValue with
  | some start_time =>
    format_datetime_ymdhms_millis (start_time + satI64 (Dec.round (Dec.mul1000 timestamp)))
  | none => seconds_to_hms_string timestamp

/-- Database resolution of the identifier: message reference, first
listed sender node, and the signal reference list. -/
def resolveRefs (db : Option DatabaseDBC) (id : Nat) (frame : Frame) : Frame :=
  match db with
  | none => frame
  | some dbc =>
    match resolve_msg_key_for_id dbc id with
    | none => frame
    | some msg_key =>
      match dbc.get_message_by_key (some msg_key) with
      | none => frame
      | some msg =>
        { frame with
          msg_key := some msg_key
          tx_node_key := msg.sender_nodes.head?
          sig_keys := msg.signals }

/-- Payload consumption onwards (the loop over `byte_length` tokens,
then absolute time, then database resolution, then arena insertion).
A short or non-hex payload aborts with no frame at all. -/
def canPayloadStage (frame3 : Frame) (payloadToks : List String) (id channel : Nat)
    (log : Log) : Log :=
  match readPayload frame3.byte_length payloadToks with
  | none => log
  | some payload =>
    let frame4 : Frame := { frame3 with data := joinTokens payload }
    let frame5 : Frame :=
      { frame4 with absolute_time := frameAbsTime log.absolute_time.value frame4.timestamp }
    insertFrame (resolveRefs (log.get_database_by_channel channel) id frame5) log

/-- Data-marker scan and byte-length parse; a missing marker or a bad
length token yields an undecoded ErrorFrame. -/
def canMarkerStage (frame2 : Frame) (id channel : Nat) (toks4 : List String) (log : Log) : Log :=
  let scanned := findDataMarker toks4
  let after_d : Option String := scanned.bind (·.1)
  let payloadToks : List String := (scanned.map (·.2)).getD []
  match after_d.bind (fun s => parseU16 s) with
  | none => insertFrame { frame2 with ftype := FrameType.ErrorFrame } log
  | some byte_length =>
    canPayloadStage { frame2 with byte_length := byte_length } payloadToks id channel log

/-- Direction token: the two exact literals, anything else (or a missing
token) becomes an ErrorFrame with no further fields parsed. -/
def canDirStage (frame1 : Frame) (id channel : Nat) (toks3 : List String) (log : Log) : Log :=
  match toks3 with
  | [] => insertFrame { frame1 with ftype := FrameType.ErrorFrame } log
  | dir_tok :: toks4 =>
    if dir_tok ≠ "Tx" ∧ dir_tok ≠ "Rx" then
      insertFrame { frame1 with ftype := FrameType.ErrorFrame } log
    else
      canMarkerStage
        { frame1 with direction := if dir_tok = "Tx" then Direction.Tx else Direction.Rx }
        id channel toks4 log

/-- Identifier token: a missing token becomes an ErrorFrame, an
unparseable one drops the line with no frame. -/
def canIdStage (frame0 : Frame) (channel : Nat) (toks2 : List String) (log : Log) : Log :=
  match toks2 with
  | [] => insertFrame { frame0 with ftype := FrameType.ErrorFrame } log
  | id_tok :: toks3 =>
    match parse_id_u32 id_tok with
    | none => log
    | some id => canDirStage { frame0 with id := id, id_hex := id_tok } id channel toks3 log

/-- `LineParser::parse` on the whitespace-split tokens of one line.  The
stages above are the successive sections of the Rust function body. -/
def parseTokens (toks : List String) (log : Log) : Log :=
  match toks with
  | [] => log
  | ts_tok :: toks1 =>
  match parseF64 ts_tok with
  | none => log
  | some timestamp =>
  match toks1 with
  | [] => log
  | ch_tok :: toks2 =>
  match parseU8 ch_tok with
  | none => log
  | some channel =>
  match log.channel_map channel with
  | none => log
  | some ch_info =>
  let ftype : FrameType :=
    match ch_info.tipo with
    | ChannelType.Can => FrameType.Can
    | ChannelType.Ethernet => FrameType.Eth
  let frame0 : Frame :=
    { Frame.default with timestamp := timestamp, channel := channel, ftype := ftype }
  if ftype = FrameType.Can then canIdStage frame0 channel toks2 log else log

/-- One line through the decoder. -/
def parseLine (line : String) (log : Log) : Log :=
  parseTokens (splitAsciiWs line) log

/-! ## Index building (the sorting section of `from_asc_file`) -/

def USIZE_MAX : Nat := 2 ^ 64 - 1

/-- The `order_index` HashMap: `(idx, key)` pairs inserted in order, so a
lookup returns the index of the last occurrence of the key. -/
def orderIndexLookup (base : List Nat) (k : Nat) : Option Nat :=
  ((base.enum.reverse).find? (fun p => p.2 = k)).map (·.1)

/-- `key_position`: `order_index.get(key).copied().unwrap_or(usize::MAX)`. -/
def key_position (base : List Nat) (k : Nat) : Nat :=
  (orderIndexLookup base k).getD USIZE_MAX

/-- `fallback_cmp`: compare original file-order positions. -/
def fallback_cmp (base : List Nat) (a b : Nat) : Ordering :=
  cmpN (key_position base a) (key_position base b)

/-- The shared comparator shape of every sort closure: primary criterion
on the two frames when both keys resolve in the arena, file-order
fallback on ties and on missing frames. -/
def keyCmp (frames : List Frame) (base : List Nat) (prim : Frame → Frame → Ordering)
    (a b : Nat) : Ordering :=
  match frames.get? a, frames.get? b with
  | some fa, some fb => (prim fa fb).then (fallback_cmp base a b)
  | _, _ => fallback_cmp base a b

/-- Stable insertion step.  `slice::sort_by` is a stable sort and every
comparator used here is a total preorder, for which all stable sorts
agree; insertion sort is the executable model. -/
def ordInsert (le : Nat → Nat → Bool) (a : Nat) : List Nat → List Nat
  | [] => [a]
  | b :: l => if le a b then a :: b :: l else b :: ordInsert le a l

def sortKeys (cmp : Nat → Nat → Ordering) (l : List Nat) : List Nat :=
  l.foldr (fun a acc => ordInsert (fun x y => (cmp x y).isLE) a acc) []

/-- `sort_by_timestamp`'s primary key (`cmp_f64` on the timestamps). -/
def primTimestamp : Frame → Frame → Ordering :=
  fun fa fb => Dec.cmp fa.timestamp fb.timestamp

/-- `sort_by_channel`: channel, then timestamp. -/
def primChannel : Frame → Frame → Ordering :=
  fun fa fb => (cmpN fa.channel fb.channel).then (Dec.cmp fa.timestamp fb.timestamp)

def dirRank : Direction → Nat
  | .Rx => 0
  | .Tx => 1

/-- `sort_by_direction`: Rx before Tx, then timestamp. -/
def primDirection : Frame → Frame → Ordering :=
  fun fa fb => (cmpN (dirRank fa.direction) (dirRank fb.direction)).then
    (Dec.cmp fa.timestamp fb.timestamp)

/-- The resolved message name of a frame, `""` when the channel, the
database binding, or the message lookup is missing (`unwrap_or("")`). -/
def msg_name_of (chmap : Nat → Option ChannelInfo) (f : Frame) : String :=
  ((((chmap f.channel).bind (·.database)).bind
    (fun db => db.get_message_by_key f.msg_key)).map (·.name)).getD ""

def msg_comment_of (chmap : Nat → Option ChannelInfo) (f : Frame) : String :=
  ((((chmap f.channel).bind (·.database)).bind
    (fun db => db.get_message_by_key f.msg_key)).map (·.comment)).getD ""

def node_name_of (chmap : Nat → Option ChannelInfo) (f : Frame) : String :=
  ((((chmap f.channel).bind (·.database)).bind
    (fun db => db.get_node_by_key f.tx_node_key)).map (·.name)).getD ""

def primMsgName (chmap : Nat → Option ChannelInfo) : Frame → Frame → Ordering :=
  fun fa fb => cmpStr (msg_name_of chmap fa) (msg_name_of chmap fb)

def primMsgId : Frame → Frame → Ordering :=
  fun fa fb => cmpN fa.id fb.id

def primDlc : Frame → Frame → Ordering :=
  fun fa fb => cmpN fa.byte_length fb.byte_length

def protocol_rank (f : Frame) : Nat :=
  if f.byte_length ≤ 8 then 0 else 1

/-- `sort_by_can_protocol`: protocol class, then byte length. -/
def primProtocol : Frame → Frame → Ordering :=
  fun fa fb => (cmpN (protocol_rank fa) (protocol_rank fb)).then
    (cmpN fa.byte_length fb.byte_length)

def primSenderNode (chmap : Nat → Option ChannelInfo) : Frame → Frame → Ordering :=
  fun fa fb => cmpStr (node_name_of chmap fa) (node_name_of chmap fb)

def primData : Frame → Frame → Ordering :=
  fun fa fb => cmpStr fa.data fb.data

def primComment (chmap : Nat → Option ChannelInfo) : Frame → Frame → Ordering :=
  fun fa fb => cmpStr (msg_comment_of chmap fa) (msg_comment_of chmap fb)

/-- Insert-or-overwrite into the `(id, channel) -> key` map. -/
def upsertPair : List ((Nat × Nat) × Nat) → (Nat × Nat) → Nat → List ((Nat × Nat) × Nat)
  | [], p, v => [(p, v)]
  | (q, w) :: rest, p, v =>
    if q = p then (p, v) :: rest else (q, w) :: upsertPair rest p v

/-- The `last_by_id_channel` HashMap after the filling loop: for every
`Can`-typed frame in file order, insert (overwriting) its key under
`(id, channel)`. -/
def lastByIdChannel (frames : List Frame) (base : List Nat) : List ((Nat × Nat) × Nat) :=
  base.foldl
    (fun m k =>
      match frames.get? k with
      | some f => if f.ftype = FrameType.Can then upsertPair m (f.id, f.channel) k else m
      | none => m)
    []

/-- The sorting section of `from_asc_file`: derive every index vector
from the file-order key list. -/
def buildIndexes (log : Log) : Log :=
  let base_keys := log.frame_by_file_order
  let frames := log.frames
  let chmap := log.channel_map
  let sortWith : (Frame → Frame → Ordering) → List Nat → List Nat :=
    fun prim v => sortKeys (keyCmp frames base_keys prim) v
  let id_chn_keys : List Nat :=
    sortKeys (fallback_cmp base_keys) ((lastByIdChannel frames base_keys).map (·.2))
  let can_keys : List Nat :=
    base_keys.filter
      (fun k => match frames.get? k with
        | some f => f.ftype = FrameType.Can
        | none => false)
  { log with
    frame_by_timestamp := sortWith primTimestamp base_keys
    id_chn_by_timestamp := sortWith primTimestamp id_chn_keys
    frame_by_channel := sortWith primChannel base_keys
    id_chn_by_channel := sortWith primChannel id_chn_keys
    frame_by_direction := sortWith primDirection base_keys
    id_chn_by_direction := sortWith primDirection id_chn_keys
    frame_by_can_msg_name := sortWith (primMsgName chmap) can_keys
    id_chn_by_can_msg_name := sortWith (primMsgName chmap) id_chn_keys
    frame_by_can_msg_id := sortWith primMsgId can_keys
    id_chn_by_can_msg_id := sortWith primMsgId id_chn_keys
    frame_by_can_dlc := sortWith primDlc can_keys
    id_chn_by_can_dlc := sortWith primDlc id_chn_keys
    frame_by_can_protocol := sortWith primProtocol can_keys
    id_chn_by_can_protocol := sortWith primProtocol id_chn_keys
    frame_by_can_sender_node := sortWith (primSenderNode chmap) can_keys
    id_chn_by_can_sender_node := sortWith (primSenderNode chmap) id_chn_keys
    frame_by_can_data := sortWith primData can_keys
    id_chn_by_can_data := sortWith primData id_chn_keys
    frame_by_can_comment := sortWith (primComment chmap) can_keys
    id_chn_by_can_comment := sortWith (primComment chmap) id_chn_keys }

/-! ## Loader (`from_asc_file`, `src/parse.rs` + `src/types/errors.rs`) -/

/-- Error taxonomy of `AscParseError`.  The wrapped `io::Error` payloads
carry no information the loader branches on and are dropped. -/
inductive AscParseError
  | InvalidExtension (path : String)
  | OpenFile (path : String)
  | Read (path : String)
deriving DecidableEq, Repr

/-- One `read_line` outcome while streaming the file: a raw line (with
its terminator still attached, as `BufRead::read_line` delivers it), or
an I/O failure. -/
inductive ReadEvent
  | line (raw : String)
  | ioError
deriving DecidableEq, Repr

/-- The streaming loop of `from_asc_file`: feed each line to the time
header detector (only until the first match) and otherwise to the line
decoder; stop with a `Read` error at an I/O failure. -/
def processLines (path : String) : List ReadEvent → Bool → Log → Log × Option AscParseError
  | [], _, log => (log, none)
  | ReadEvent.ioError :: _, _, log => (log, some (AscParseError.Read path))
  | ReadEvent.line raw :: rest, found, log =>
    let trimmed := trimEndNewline raw
    match (if found then none else abs_time_from_line trimmed) with
    | some time => processLines path rest true { log with absolute_time := time }
    | none => processLines path rest found (parseLine trimmed log)

/-- `from_asc_file`.  The file system is abstracted into the argument
`file`: `none` when the file cannot be opened, otherwise the sequence of
read outcomes.  Returns the final `Log` state (the Rust function mutates
its `&mut Log` argument in place, also on the error paths) together with
the error, if any. -/
def from_asc_file (path : String) (file : Option (List ReadEvent)) (log0 : Log) :
    Log × Option AscParseError :=
  let log := Log.clear_frames log0
  if ¬ (".asc".data.isSuffixOf path.data) then
    (log, some (AscParseError.InvalidExtension path))
  else
    match file with
    | none => (log, some (AscParseError.OpenFile path))
    | some events =>
      match processLines path events false log with
      | (log1, some e) => (log1, some e)
      | (log1, none) => (buildIndexes log1, none)


/-! ## Lawfulness of the comparators

Every comparator handed to `sort_by` in the repository is a total
preorder assembled from `Ord`-style chains; the lemmas below make that
precise so that sortedness and permutation facts can be derived. -/

/-- A comparator that is a total preorder: antisymmetric swap behaviour,
left congruence under `eq`, and transitivity of `isLE`. -/
structure IsLawfulCmp {α : Type _} (c : α → α → Ordering) : Prop where
  swap_eq : ∀ a b, c a b = (c b a).swap
  eq_sub : ∀ a b z, c a b = .eq → c b z = c a z
  le_trans : ∀ a b z, (c a b).isLE → (c b z).isLE → (c a z).isLE

theorem isLE_lt : Ordering.lt.isLE = true := rfl

theorem isLE_eq : Ordering.eq.isLE = true := rfl

theorem isLE_gt : Ordering.gt.isLE = false := rfl

theorem then_lt (o : Ordering) : Ordering.lt.then o = .lt := rfl

theorem then_eq (o : Ordering) : Ordering.eq.then o = o := rfl

theorem then_gt (o : Ordering) : Ordering.gt.then o = .gt := rfl

theorem cmpN_lt_iff (a b : Nat) : cmpN a b = .lt ↔ a < b := by
  unfold cmpN
  split_ifs with h1 h2
  · simp [h1]
  · simp [h2]
  · simp; omega

theorem cmpN_eq_iff (a b : Nat) : cmpN a b = .eq ↔ a = b := by
  unfold cmpN
  split_ifs with h1 h2
  · simp; omega
  · simp [h2]
  · simp; omega

theorem cmpN_gt_iff (a b : Nat) : cmpN a b = .gt ↔ b < a := by
  unfold cmpN
  split_ifs with h1 h2
  · simp; omega
  · simp [h2]
  · simp; omega

theorem cmpN_isLE_iff (a b : Nat) : (cmpN a b).isLE = true ↔ a ≤ b := by
  unfold cmpN
  split_ifs with h1 h2
  · simp [isLE_lt]; omega
  · simp [isLE_eq]; omega
  · simp [isLE_gt]; omega

theorem cmpN_swap (a b : Nat) : cmpN a b = (cmpN b a).swap := by
  unfold cmpN
  split_ifs <;> simp [Ordering.swap] <;> omega

theorem cmpN_lawful : IsLawfulCmp cmpN := by
  refine ⟨cmpN_swap, ?_, ?_⟩
  · intro a b z h
    rw [(cmpN_eq_iff a b).mp h]
  · intro a b z h1 h2
    rw [cmpN_isLE_iff] at h1 h2 ⊢
    omega

theorem cmpI_lt_iff (a b : Int) : cmpI a b = .lt ↔ a < b := by
  unfold cmpI
  split_ifs with h1 h2
  · simp [h1]
  · simp [h2]
  · simp; omega

theorem cmpI_eq_iff (a b : Int) : cmpI a b = .eq ↔ a = b := by
  unfold cmpI
  split_ifs with h1 h2
  · simp; omega
  · simp [h2]
  · simp; omega

theorem cmpI_isLE_iff (a b : Int) : (cmpI a b).isLE = true ↔ a ≤ b := by
  unfold cmpI
  split_ifs with h1 h2
  · simp [isLE_lt]; omega
  · simp [isLE_eq]; omega
  · simp [isLE_gt]; omega

theorem cmpI_swap (a b : Int) : cmpI a b = (cmpI b a).swap := by
  unfold cmpI
  split_ifs <;> simp [Ordering.swap] <;> omega

theorem cmpListNat_eq_iff (l m : List Nat) : cmpListNat l m = .eq ↔ l = m := by
  induction l generalizing m with
  | nil => cases m <;> simp [cmpListNat]
  | cons a as ih =>
    cases m with
    | nil => simp [cmpListNat]
    | cons b bs =>
      rcases h : cmpN a b with _ | _ | _
      · simp only [cmpListNat, h]
        simp only [reduceCtorEq, false_iff, ne_eq]
        intro he
        injection he with h1 h2
        subst h1
        rw [(cmpN_eq_iff a a).mpr rfl] at h
        cases h
      · have hab : a = b := (cmpN_eq_iff a b).mp h
        subst hab
        simp only [cmpListNat, h]
        simp [ih]
      · simp only [cmpListNat, h]
        simp only [reduceCtorEq, false_iff, ne_eq]
        intro he
        injection he with h1 h2
        subst h1
        rw [(cmpN_eq_iff a a).mpr rfl] at h
        cases h

theorem cmpListNat_swap (l m : List Nat) : cmpListNat l m = (cmpListNat m l).swap := by
  induction l generalizing m with
  | nil => cases m <;> simp [cmpListNat, Ordering.swap]
  | cons a as ih =>
    cases m with
    | nil => simp [cmpListNat, Ordering.swap]
    | cons b bs =>
      simp only [cmpListNat]
      rw [cmpN_swap a b]
      rcases cmpN b a with _ | _ | _ <;> simp [Ordering.swap, ih]

theorem cmpListNat_le_trans (l m k : List Nat) :
    (cmpListNat l m).isLE → (cmpListNat m k).isLE → (cmpListNat l k).isLE := by
  induction l generalizing m k with
  | nil => cases k <;> simp [cmpListNat, isLE_lt, isLE_eq]
  | cons a as ih =>
    cases m with
    | nil => simp [cmpListNat, isLE_gt]
    | cons b bs =>
      cases k with
      | nil => simp [cmpListNat, isLE_gt]
      | cons c cs =>
        simp only [cmpListNat]
        rcases h1 : cmpN a b with _ | _ | _ <;> rcases h2 : cmpN b c with _ | _ | _ <;>
            simp only [isLE_lt, isLE_eq, isLE_gt]
        · rw [cmpN_lt_iff] at h1 h2
          rw [(cmpN_lt_iff a c).mpr (by omega)]
          simp [isLE_lt]
        · rw [cmpN_lt_iff] at h1; rw [cmpN_eq_iff] at h2
          rw [(cmpN_lt_iff a c).mpr (by omega)]
          simp [isLE_lt]
        · simp
        · rw [cmpN_eq_iff] at h1; rw [cmpN_lt_iff] at h2
          rw [(cmpN_lt_iff a c).mpr (by omega)]
          simp [isLE_lt]
        · rw [cmpN_eq_iff] at h1 h2
          rw [(cmpN_eq_iff a c).mpr (by omega)]
          exact ih bs cs
        · simp
        · simp
        · simp
        · simp

theorem cmpListNat_lawful : IsLawfulCmp cmpListNat := by
  refine ⟨cmpListNat_swap, ?_, cmpListNat_le_trans⟩
  intro a b z h
  rw [(cmpListNat_eq_iff a b).mp h]

theorem cmpStr_lawful : IsLawfulCmp cmpStr := by
  refine ⟨?_, ?_, ?_⟩
  · intro a b; exact cmpListNat_swap _ _
  · intro a b z h
    unfold cmpStr at *
    rw [(cmpListNat_eq_iff _ _).mp h]
  · intro a b z; exact cmpListNat_le_trans _ _ _

/-- Comparator precomposition with a key extraction preserves
lawfulness. -/
theorem IsLawfulCmp.comap {α β : Type _} {c : β → β → Ordering} (hc : IsLawfulCmp c)
    (f : α → β) : IsLawfulCmp (fun a b => c (f a) (f b)) :=
  ⟨fun a b => hc.swap_eq _ _, fun a b z => hc.eq_sub _ _ _,
    fun a b z => hc.le_trans _ _ _⟩

theorem Ordering.swap_then (o₁ o₂ : Ordering) :
    (o₁.then o₂).swap = (o₁.swap).then (o₂.swap) := by
  cases o₁ <;> cases o₂ <;> rfl

/-- Right congruence under `eq`, derived from swap and left congruence. -/
theorem IsLawfulCmp.eq_congr_right {α : Type _} {c : α → α → Ordering}
    (hc : IsLawfulCmp c) {a b : α} (h : c a b = .eq) (z : α) : c z a = c z b := by
  rw [hc.swap_eq z a, ← hc.eq_sub a b z h, ← hc.swap_eq z b]

/-- Strict `lt` transitivity, derived from the lawfulness axioms. -/
theorem IsLawfulCmp.lt_trans {α : Type _} {c : α → α → Ordering} (hc : IsLawfulCmp c)
    {a b z : α} (h1 : c a b = .lt) (h2 : c b z = .lt) : c a z = .lt := by
  have hle : (c a z).isLE :=
    hc.le_trans a b z (by simp [h1, isLE_lt]) (by simp [h2, isLE_lt])
  rcases h : c a z with _ | _ | _
  · rfl
  · exfalso
    have hcong := hc.eq_sub a z b h
    rw [h1] at hcong
    have hs := hc.swap_eq z b
    rw [h2] at hs
    simp [Ordering.swap] at hs
    rw [hs] at hcong
    cases hcong
  · rw [h] at hle
    simp [isLE_gt] at hle

/-- Lexicographic chaining (`Ordering::then`) preserves lawfulness. -/
theorem IsLawfulCmp.then_chain {α : Type _} {c₁ c₂ : α → α → Ordering}
    (h1 : IsLawfulCmp c₁) (h2 : IsLawfulCmp c₂) :
    IsLawfulCmp (fun a b => (c₁ a b).then (c₂ a b)) := by
  refine ⟨?_, ?_, ?_⟩
  · intro a b
    rw [h1.swap_eq a b, h2.swap_eq a b, ← Ordering.swap_then]
  · intro a b z h
    have he1 : c₁ a b = .eq := by
      rcases hc : c₁ a b with _ | _ | _ <;> simp_all [Ordering.then]
    have he2 : c₂ a b = .eq := by
      rw [he1, then_eq] at h
      exact h
    show (c₁ b z).then (c₂ b z) = (c₁ a z).then (c₂ a z)
    rw [h1.eq_sub a b z he1, h2.eq_sub a b z he2]
  · intro a b z hab hbz
    simp only at hab hbz ⊢
    rcases hc1 : c₁ a b with _ | _ | _ <;> rcases hc2 : c₁ b z with _ | _ | _
    · rw [h1.lt_trans hc1 hc2, then_lt]; exact isLE_lt ▸ rfl
    · have : c₁ a z = .lt := by rw [h1.eq_congr_right hc2 a] at hc1; exact hc1
      rw [this, then_lt]; exact isLE_lt ▸ rfl
    · rw [hc2, then_gt] at hbz; simp [isLE_gt] at hbz
    · have : c₁ a z = .lt := by rw [← h1.eq_sub a b z hc1, hc2]
      rw [this, then_lt]; exact isLE_lt ▸ rfl
    · have he : c₁ a z = .eq := by rw [← h1.eq_sub a b z hc1, hc2]
      rw [hc1, then_eq] at hab
      rw [hc2, then_eq] at hbz
      rw [he, then_eq]
      exact h2.le_trans a b z hab hbz
    · rw [hc2, then_gt] at hbz; simp [isLE_gt] at hbz
    · rw [hc1, then_gt] at hab; simp [isLE_gt] at hab
    · rw [hc1, then_gt] at hab; simp [isLE_gt] at hab
    · rw [hc1, then_gt] at hab; simp [isLE_gt] at hab

theorem pow10_pos (e : Nat) : (0 : Int) < (10 : Int) ^ e := by positivity

theorem cmpI_mul_right_pos (x y k : Int) (hk : 0 < k) : cmpI (x * k) (y * k) = cmpI x y := by
  unfold cmpI
  have h1 : x * k < y * k ↔ x < y := mul_lt_mul_right hk
  have h2 : x * k = y * k ↔ x = y :=
    ⟨fun h => mul_right_cancel₀ (ne_of_gt hk) h, fun h => by rw [h]⟩
  simp only [h1, h2]

theorem Dec.cmp_lawful : IsLawfulCmp Dec.cmp := by
  refine ⟨?_, ?_, ?_⟩
  · intro a b
    unfold Dec.cmp
    exact cmpI_swap _ _
  · intro a b z h
    unfold Dec.cmp at *
    have hieq : a.num * (10 : Int) ^ b.e = b.num * (10 : Int) ^ a.e := (cmpI_eq_iff _ _).mp h
    have hb := pow10_pos b.e
    have hazc : cmpI (a.num * (10:Int) ^ z.e) (z.num * (10:Int) ^ a.e)
        = cmpI (a.num * (10:Int) ^ z.e * (10:Int) ^ b.e) (z.num * (10:Int) ^ a.e * (10:Int) ^ b.e) :=
      (cmpI_mul_right_pos _ _ _ hb).symm
    have ha := pow10_pos a.e
    have hbzc : cmpI (b.num * (10:Int) ^ z.e) (z.num * (10:Int) ^ b.e)
        = cmpI (b.num * (10:Int) ^ z.e * (10:Int) ^ a.e) (z.num * (10:Int) ^ b.e * (10:Int) ^ a.e) :=
      (cmpI_mul_right_pos _ _ _ ha).symm
    rw [hbzc, hazc]
    congr 1
    · linear_combination ((10:Int) ^ z.e) * hieq.symm
    · ring
  · intro a b z hab hbz
    unfold Dec.cmp at *
    rw [cmpI_isLE_iff] at hab hbz ⊢
    have hb := pow10_pos b.e
    have ha := pow10_pos a.e
    have hz := pow10_pos z.e
    have s1 : a.num * (10:Int) ^ b.e * (10:Int) ^ z.e ≤ b.num * (10:Int) ^ a.e * (10:Int) ^ z.e :=
      mul_le_mul_of_nonneg_right hab (le_of_lt hz)
    have s2 : b.num * (10:Int) ^ z.e * (10:Int) ^ a.e ≤ z.num * (10:Int) ^ b.e * (10:Int) ^ a.e :=
      mul_le_mul_of_nonneg_right hbz (le_of_lt ha)
    have key : a.num * (10:Int) ^ z.e * (10:Int) ^ b.e ≤ z.num * (10:Int) ^ a.e * (10:Int) ^ b.e := by
      calc a.num * (10:Int) ^ z.e * (10:Int) ^ b.e
          = a.num * (10:Int) ^ b.e * (10:Int) ^ z.e := by ring
        _ ≤ b.num * (10:Int) ^ a.e * (10:Int) ^ z.e := s1
        _ = b.num * (10:Int) ^ z.e * (10:Int) ^ a.e := by ring
        _ ≤ z.num * (10:Int) ^ b.e * (10:Int) ^ a.e := s2
        _ = z.num * (10:Int) ^ a.e * (10:Int) ^ b.e := by ring
    exact le_of_mul_le_mul_right key hb

/-! ## Sorting lemmas -/

theorem ordInsert_perm (le : Nat → Nat → Bool) (a : Nat) (l : List Nat) :
    (ordInsert le a l).Perm (a :: l) := by
  induction l with
  | nil => simp [ordInsert]
  | cons b bs ih =>
    unfold ordInsert
    split_ifs
    · exact List.Perm.refl _
    · exact (List.Perm.cons b ih).trans (List.Perm.swap a b bs)

theorem sortKeys_perm (cmp : Nat → Nat → Ordering) (l : List Nat) :
    (sortKeys cmp l).Perm l := by
  induction l with
  | nil => simp [sortKeys]
  | cons a as ih =>
    have : sortKeys cmp (a :: as) = ordInsert (fun x y => (cmp x y).isLE) a (sortKeys cmp as) := rfl
    rw [this]
    exact (ordInsert_perm _ a _).trans (List.Perm.cons a ih)

theorem mem_ordInsert (le : Nat → Nat → Bool) (a x : Nat) (l : List Nat) :
    x ∈ ordInsert le a l ↔ x = a ∨ x ∈ l := by
  have := (ordInsert_perm le a l).mem_iff (a := x)
  simpa using this

theorem mem_sortKeys (cmp : Nat → Nat → Ordering) (x : Nat) (l : List Nat) :
    x ∈ sortKeys cmp l ↔ x ∈ l :=
  (sortKeys_perm cmp l).mem_iff

theorem sortKeys_nodup (cmp : Nat → Nat → Ordering) (l : List Nat) (h : l.Nodup) :
    (sortKeys cmp l).Nodup :=
  (sortKeys_perm cmp l).nodup_iff.mpr h

theorem pairwise_ordInsert (le : Nat → Nat → Bool) (a : Nat) (l : List Nat)
    (hl : l.Pairwise (fun x y => le x y = true))
    (htot : ∀ x ∈ a :: l, ∀ y ∈ a :: l, le x y = true ∨ le y x = true)
    (htr : ∀ x ∈ a :: l, ∀ y ∈ a :: l, ∀ z ∈ a :: l,
      le x y = true → le y z = true → le x z = true) :
    (ordInsert le a l).Pairwise (fun x y => le x y = true) := by
  induction l with
  | nil => simp [ordInsert]
  | cons b bs ih =>
    rw [List.pairwise_cons] at hl
    unfold ordInsert
    split_ifs with hab
    · rw [List.pairwise_cons]
      refine ⟨?_, List.pairwise_cons.mpr hl⟩
      intro x hx
      rw [List.mem_cons] at hx
      rcases hx with heq | hx
      · rw [heq]; exact hab
      · refine htr a ?_ b ?_ x ?_ hab (hl.1 x hx) <;> simp only [List.mem_cons] <;> tauto
    · rw [List.pairwise_cons]
      constructor
      · intro x hx
        rw [mem_ordInsert] at hx
        rcases hx with heq | hx
        · rw [heq]
          rcases htot a (by simp) b (by simp) with h | h
          · exact absurd h hab
          · exact h
        · exact hl.1 x hx
      · refine ih hl.2 ?_ ?_
        · intro x hx y hy
          rw [List.mem_cons] at hx hy
          refine htot x ?_ y ?_ <;> simp only [List.mem_cons] <;> tauto
        · intro x hx y hy z hz
          rw [List.mem_cons] at hx hy hz
          refine htr x ?_ y ?_ z ?_ <;> simp only [List.mem_cons] <;> tauto

theorem sortKeys_pairwise (cmp : Nat → Nat → Ordering) (l : List Nat)
    (htot : ∀ x ∈ l, ∀ y ∈ l, (cmp x y).isLE = true ∨ (cmp y x).isLE = true)
    (htr : ∀ x ∈ l, ∀ y ∈ l, ∀ z ∈ l,
      (cmp x y).isLE = true → (cmp y z).isLE = true → (cmp x z).isLE = true) :
    (sortKeys cmp l).Pairwise (fun x y => (cmp x y).isLE = true) := by
  induction l with
  | nil => simp [sortKeys]
  | cons a as ih =>
    have hrw : sortKeys cmp (a :: as)
        = ordInsert (fun x y => (cmp x y).isLE) a (sortKeys cmp as) := rfl
    rw [hrw]
    have hmem : ∀ x, x ∈ a :: sortKeys cmp as → x ∈ a :: as := by
      intro x hx
      rw [List.mem_cons] at hx ⊢
      rcases hx with rfl | hx
      · exact Or.inl rfl
      · exact Or.inr ((mem_sortKeys cmp x as).mp hx)
    exact pairwise_ordInsert _ a (sortKeys cmp as)
      (ih (fun x hx y hy => htot x (by simp [hx]) y (by simp [hy]))
        (fun x hx y hy z hz => htr x (by simp [hx]) y (by simp [hy]) z (by simp [hz])))
      (fun x hx y hy => htot x (hmem x hx) y (hmem y hy))
      (fun x hx y hy z hz => htr x (hmem x hx) y (hmem y hy) z (hmem z hz))

/-! ## Comparator facts for `keyCmp` and `fallback_cmp` -/

theorem isLE_or_swap_isLE (o : Ordering) : o.isLE = true ∨ o.swap.isLE = true := by
  cases o <;> simp [Ordering.swap, isLE_lt, isLE_eq, isLE_gt]

theorem fallback_cmp_lawful (base : List Nat) : IsLawfulCmp (fallback_cmp base) := by
  have := cmpN_lawful.comap (key_position base)
  exact this

/-- The comparator on `(key, frame)` pairs that `keyCmp` computes when
both keys resolve. -/
def pairCmp (base : List Nat) (prim : Frame → Frame → Ordering) :
    (Nat × Frame) → (Nat × Frame) → Ordering :=
  fun p q => (prim p.2 q.2).then (fallback_cmp base p.1 q.1)

theorem pairCmp_lawful (base : List Nat) {prim : Frame → Frame → Ordering}
    (hp : IsLawfulCmp prim) : IsLawfulCmp (pairCmp base prim) := by
  have h1 : IsLawfulCmp (fun p q : Nat × Frame => prim p.2 q.2) := hp.comap Prod.snd
  have h2 : IsLawfulCmp (fun p q : Nat × Frame => fallback_cmp base p.1 q.1) :=
    (fallback_cmp_lawful base).comap Prod.fst
  exact h1.then_chain h2

theorem keyCmp_eq_pairCmp {frames : List Frame} {base : List Nat}
    {prim : Frame → Frame → Ordering} {a b : Nat} {fa fb : Frame}
    (ha : frames.get? a = some fa) (hb : frames.get? b = some fb) :
    keyCmp frames base prim a b = pairCmp base prim (a, fa) (b, fb) := by
  unfold keyCmp pairCmp
  rw [ha, hb]

theorem keyCmp_swap (frames : List Frame) (base : List Nat)
    {prim : Frame → Frame → Ordering} (hp : IsLawfulCmp prim) (a b : Nat) :
    keyCmp frames base prim a b = (keyCmp frames base prim b a).swap := by
  unfold keyCmp
  rcases ha : frames.get? a with _ | fa <;> rcases hb : frames.get? b with _ | fb <;>
    simp only
  · exact (fallback_cmp_lawful base).swap_eq a b
  · exact (fallback_cmp_lawful base).swap_eq a b
  · exact (fallback_cmp_lawful base).swap_eq a b
  · rw [hp.swap_eq fa fb, (fallback_cmp_lawful base).swap_eq a b, ← Ordering.swap_then]

theorem keyCmp_total (frames : List Frame) (base : List Nat)
    {prim : Frame → Frame → Ordering} (hp : IsLawfulCmp prim) (a b : Nat) :
    (keyCmp frames base prim a b).isLE = true ∨ (keyCmp frames base prim b a).isLE = true := by
  rw [keyCmp_swap frames base hp b a]
  exact isLE_or_swap_isLE _

theorem keyCmp_le_trans {frames : List Frame} {base : List Nat}
    {prim : Frame → Frame → Ordering} (hp : IsLawfulCmp prim) {a b c : Nat}
    {fa fb fc : Frame}
    (ha : frames.get? a = some fa) (hb : frames.get? b = some fb)
    (hc : frames.get? c = some fc) :
    (keyCmp frames base prim a b).isLE = true → (keyCmp frames base prim b c).isLE = true →
      (keyCmp frames base prim a c).isLE = true := by
  rw [keyCmp_eq_pairCmp ha hb, keyCmp_eq_pairCmp hb hc, keyCmp_eq_pairCmp ha hc]
  exact (pairCmp_lawful base hp).le_trans _ _ _

/-! ## `key_position` over the file-order key list `0, 1, ..., n-1` -/

theorem orderIndexLookup_range (n k : Nat) :
    orderIndexLookup (List.range n) k = if k < n then some k else none := by
  induction n with
  | zero => simp [orderIndexLookup]
  | succ m ih =>
    unfold orderIndexLookup at ih ⊢
    rw [List.range_succ, List.enum_append, List.reverse_append, List.find?_append]
    have hsing : (List.enumFrom (List.range m).length [m]).reverse = [(m, m)] := by
      simp [List.enumFrom]
    rw [hsing]
    by_cases hk : k = m
    · subst hk
      have h1 : List.find? (fun p => decide (p.2 = k)) [(k, k)] = some (k, k) := by simp
      rw [h1]
      simp
    · have hmk : m ≠ k := fun h => hk h.symm
      have h1 : List.find? (fun p => decide (p.2 = k)) [(m, m)] = none := by simp [hmk]
      rw [h1, Option.none_or, ih]
      by_cases hlt : k < m
      · simp [hlt, Nat.lt_succ_of_lt hlt]
      · have h2 : ¬ k < m + 1 := by omega
        simp [hlt, h2]

theorem key_position_range_lt {n k : Nat} (h : k < n) :
    key_position (List.range n) k = k := by
  unfold key_position
  rw [orderIndexLookup_range]
  simp [h]

theorem key_position_range_inj {n a b : Nat} (ha : a < n) (hb : b < n)
    (h : key_position (List.range n) a = key_position (List.range n) b) : a = b := by
  rwa [key_position_range_lt ha, key_position_range_lt hb] at h

/-- On a `range` base, `fallback_cmp` among in-range keys is plain
numeric comparison of the keys. -/
theorem fallback_cmp_range {n a b : Nat} (ha : a < n) (hb : b < n) :
    fallback_cmp (List.range n) a b = cmpN a b := by
  unfold fallback_cmp
  rw [key_position_range_lt ha, key_position_range_lt hb]

/-! ## Tokenizer and payload lemmas -/

theorem String.mk_data (s : String) : String.mk s.data = s := by cases s; rfl

theorem digitVal_not_ws {radix : Nat} {c : Char} {v : Nat}
    (h : digitVal radix c = some v) : isAsciiWs c = false := by
  by_contra hws
  have hws' : isAsciiWs c = true := by
    revert hws
    cases isAsciiWs c <;> simp
  have hcases := by simpa [isAsciiWs] using hws'
  have hnone : digitVal radix c = none := by
    rcases hcases with ((((rfl | rfl) | rfl) | rfl) | rfl) <;> simp [digitVal]
  rw [hnone] at h
  cases h

theorem parseDigits_chars {radix : Nat} {cs : List Char} {v : Nat}
    (h : parseDigits radix cs = some v) :
    cs ≠ [] ∧ ∀ c ∈ cs, isAsciiWs c = false := by
  constructor
  · intro he
    subst he
    simp [parseDigits] at h
  · have aux : ∀ ds acc w, parseDigitsAux radix ds acc = some w →
        ∀ c ∈ ds, isAsciiWs c = false := by
      intro ds
      induction ds with
      | nil => intro acc w _ c hc; cases hc
      | cons d ds' ih =>
        intro acc w hw c hc
        unfold parseDigitsAux at hw
        rcases hdv : digitVal radix d with _ | dv
        · rw [hdv] at hw; cases hw
        · rw [hdv] at hw
          rcases hc with _ | hc
          · exact digitVal_not_ws hdv
          · exact ih _ _ hw c (by assumption)
    intro c hc
    cases cs with
    | nil => cases hc
    | cons d ds =>
      unfold parseDigits at h
      exact aux _ _ _ h c hc

theorem parseUIntRadix_chars {radix bound : Nat} {cs : List Char} {v : Nat}
    (h : parseUIntRadix radix bound cs = some v) :
    cs ≠ [] ∧ ∀ c ∈ cs, isAsciiWs c = false := by
  unfold parseUIntRadix at h
  rcases cs with _ | ⟨c0, ds⟩
  · simp [parseDigits] at h
  · simp only at h
    refine ⟨by simp, ?_⟩
    by_cases hplus : c0 = '+'
    · rw [if_pos hplus] at h
      subst hplus
      rcases hpd : parseDigits radix ds with _ | w
      · rw [hpd] at h
        cases h
      · intro c hc
        rcases hc with _ | hc
        · decide
        · exact (parseDigits_chars hpd).2 c (by assumption)
    · rw [if_neg hplus] at h
      by_cases hminus : c0 = '-'
      · rw [if_pos hminus] at h
        cases h
      · rw [if_neg hminus] at h
        rcases hpd : parseDigits radix (c0 :: ds) with _ | w
        · rw [hpd] at h
          cases h
        · exact fun c hc => (parseDigits_chars hpd).2 c hc

theorem readPayload_length {n : Nat} {ts payload : List String}
    (h : readPayload n ts = some payload) : payload.length = n := by
  induction n generalizing ts payload with
  | zero => unfold readPayload at h; cases h; rfl
  | succ m ih =>
    rcases ts with _ | ⟨t, ts'⟩
    · unfold readPayload at h; cases h
    · unfold readPayload at h
      rcases hx : parseUIntRadix 16 255 t.data with _ | v
      · rw [hx] at h; cases h
      · rw [hx] at h
        rcases hr : readPayload m ts' with _ | p'
        · rw [hr] at h; cases h
        · rw [hr] at h
          simp only [Option.map_some] at h
          cases h
          simp [ih hr]

theorem readPayload_short {n : Nat} {ts : List String}
    (h : ts.length < n) : readPayload n ts = none := by
  induction n generalizing ts with
  | zero => omega
  | succ m ih =>
    rcases ts with _ | ⟨t, ts'⟩
    · rfl
    · unfold readPayload
      rcases hx : parseUIntRadix 16 255 t.data with _ | v
    
      · rfl
      · rw [ih (by simpa using h)]
        rfl

theorem readPayload_tokens {n : Nat} {ts payload : List String}
    (h : readPayload n ts = some payload) :
    ∀ t ∈ payload, t.data ≠ [] ∧ ∀ c ∈ t.data, isAsciiWs c = false := by
  induction n generalizing ts payload with
  | zero => unfold readPayload at h; cases h; intro t ht; cases ht
  | succ m ih =>
    rcases ts with _ | ⟨t0, ts'⟩
    · unfold readPayload at h; cases h
    · unfold readPayload at h
      rcases hx : parseUIntRadix 16 255 t0.data with _ | v
      · rw [hx] at h; cases h
      · rw [hx] at h
        rcases hr : readPayload m ts' with _ | p'
        · rw [hr] at h; cases h
        · rw [hr] at h
          simp only [Option.map_some] at h
          cases h
          intro t ht
          rcases ht with _ | ht
          · exact parseUIntRadix_chars hx
          · exact ih hr t (by assumption)

theorem tokAux_nonws_append (t l acc : List Char) (h : ∀ c ∈ t, isAsciiWs c = false) :
    tokAux (t ++ l) acc = tokAux l (t.reverse ++ acc) := by
  induction t generalizing acc with
  | nil => simp
  | cons c t' ih =>
    have hc : isAsciiWs c = false := h c (by simp)
    have hr : (c :: t').reverse ++ acc = t'.reverse ++ (c :: acc) := by simp
    rw [hr, ← ih (c :: acc) (fun d hd => h d (by simp [hd]))]
    show tokAux (c :: (t' ++ l)) acc = tokAux (t' ++ l) (c :: acc)
    conv_lhs => unfold tokAux
    rw [hc]
    simp

theorem tokAux_join (toks : List (List Char))
    (h : ∀ t ∈ toks, t ≠ [] ∧ ∀ c ∈ t, isAsciiWs c = false) :
    tokAux (joinSp toks) [] = toks := by
  induction toks with
  | nil => rfl
  | cons t rest ih =>
    rcases rest with _ | ⟨t', rest'⟩
    · have h1 := tokAux_nonws_append t [] [] (h t (by simp)).2
      rw [List.append_nil] at h1
      show tokAux t [] = [t]
      rw [h1]
      unfold tokAux
      rw [if_neg ?_]
      · simp
      · simp [List.isEmpty_iff]
        exact (h t (by simp)).1
    · have h1 := tokAux_nonws_append t (' ' :: joinSp (t' :: rest')) [] (h t (by simp)).2
      show tokAux (t ++ ' ' :: joinSp (t' :: rest')) [] = t :: t' :: rest'
      rw [h1]
      unfold tokAux
      rw [show isAsciiWs ' ' = true from rfl]
      simp only [if_true]
      rw [if_neg ?_]
      · simp only [List.append_nil, List.reverse_reverse]
        rw [ih (fun u hu => h u (by simp [hu]))]
      · simp [List.isEmpty_iff]
        exact (h t (by simp)).1

theorem countTokens_joinTokens (toks : List String)
    (h : ∀ t ∈ toks, t.data ≠ [] ∧ ∀ c ∈ t.data, isAsciiWs c = false) :
    countTokens (joinTokens toks) = toks.length := by
  unfold countTokens splitAsciiWs joinTokens
  have hdata : (String.mk (joinSp (toks.map String.data))).data = joinSp (toks.map String.data) := rfl
  rw [hdata, tokAux_join (toks.map String.data) ?_]
  · simp
  · intro t ht
    rcases List.mem_map.mp ht with ⟨u, hu, rfl⟩
    exact h u hu

/-! ## Decoder stage lemmas -/

/-- Database resolution only fills the reference fields. -/
theorem resolveRefs_preserve (db : Option DatabaseDBC) (id : Nat) (f : Frame) :
    (resolveRefs db id f).absolute_time = f.absolute_time ∧
    (resolveRefs db id f).timestamp = f.timestamp ∧
    (resolveRefs db id f).channel = f.channel ∧
    (resolveRefs db id f).ftype = f.ftype ∧
    (resolveRefs db id f).direction = f.direction ∧
    (resolveRefs db id f).id = f.id ∧
    (resolveRefs db id f).id_hex = f.id_hex ∧
    (resolveRefs db id f).byte_length = f.byte_length ∧
    (resolveRefs db id f).data = f.data := by
  unfold resolveRefs
  rcases db with _ | dbc
  · simp
  · rcases hmk : resolve_msg_key_for_id dbc id with _ | mk
    · simp [hmk]
    · rcases hmsg : dbc.get_message_by_key (some mk) with _ | msg <;> simp [hmk, hmsg]

/-- The two possible effects of one decoded line on the Trace Store: no
change at all, or the insertion of exactly one frame that is either an
undecoded ErrorFrame or a fully decoded Can frame (with coherent payload
text and absolute time). -/
def GoodInsert (log res : Log) : Prop :=
  res = log ∨ ∃ f, res = insertFrame f log ∧
    (f.ftype = FrameType.ErrorFrame ∨
      (f.ftype = FrameType.Can ∧ countTokens f.data = f.byte_length ∧
        f.absolute_time = frameAbsTime log.absolute_time.value f.timestamp))

theorem resolveRefs_ftype (db : Option DatabaseDBC) (id : Nat) (f : Frame) :
    (resolveRefs db id f).ftype = f.ftype := (resolveRefs_preserve db id f).2.2.2.1

theorem resolveRefs_timestamp (db : Option DatabaseDBC) (id : Nat) (f : Frame) :
    (resolveRefs db id f).timestamp = f.timestamp := (resolveRefs_preserve db id f).2.1

theorem resolveRefs_absolute_time (db : Option DatabaseDBC) (id : Nat) (f : Frame) :
    (resolveRefs db id f).absolute_time = f.absolute_time := (resolveRefs_preserve db id f).1

theorem resolveRefs_byte_length (db : Option DatabaseDBC) (id : Nat) (f : Frame) :
    (resolveRefs db id f).byte_length = f.byte_length :=
  (resolveRefs_preserve db id f).2.2.2.2.2.2.2.1

theorem resolveRefs_data (db : Option DatabaseDBC) (id : Nat) (f : Frame) :
    (resolveRefs db id f).data = f.data := (resolveRefs_preserve db id f).2.2.2.2.2.2.2.2

theorem canPayloadStage_good (frame3 : Frame) (payloadToks : List String)
    (id channel : Nat) (log : Log) (hty : frame3.ftype = FrameType.Can) :
    GoodInsert log (canPayloadStage frame3 payloadToks id channel log) := by
  unfold canPayloadStage
  rcases hr : readPayload frame3.byte_length payloadToks with _ | payload
  · exact Or.inl rfl
  · right
    refine ⟨_, rfl, Or.inr ⟨?_, ?_, ?_⟩⟩
    · simp [resolveRefs_ftype, hty]
    · simp only [resolveRefs_data, resolveRefs_byte_length]
      show countTokens (joinTokens payload) = frame3.byte_length
      rw [countTokens_joinTokens payload (readPayload_tokens hr), readPayload_length hr]
    · simp [resolveRefs_absolute_time, resolveRefs_timestamp]

theorem canMarkerStage_good (frame2 : Frame) (id channel : Nat) (toks4 : List String)
    (log : Log) (hty : frame2.ftype = FrameType.Can) :
    GoodInsert log (canMarkerStage frame2 id channel toks4 log) := by
  unfold canMarkerStage
  simp only []
  rcases h : (((findDataMarker toks4).bind (fun x => x.1)).bind (fun s => parseU16 s)) with _ | L
  · exact Or.inr ⟨_, rfl, Or.inl rfl⟩
  · exact canPayloadStage_good _ _ _ _ _ hty

theorem canDirStage_good (frame1 : Frame) (id channel : Nat) (toks3 : List String)
    (log : Log) (hty : frame1.ftype = FrameType.Can) :
    GoodInsert log (canDirStage frame1 id channel toks3 log) := by
  rcases toks3 with _ | ⟨dir_tok, toks4⟩
  · exact Or.inr ⟨_, rfl, Or.inl rfl⟩
  · unfold canDirStage
    dsimp only
    split_ifs
    · exact Or.inr ⟨_, rfl, Or.inl rfl⟩
    · exact canMarkerStage_good _ _ _ _ _ hty
    · exact canMarkerStage_good _ _ _ _ _ hty

theorem canIdStage_good (frame0 : Frame) (channel : Nat) (toks2 : List String)
    (log : Log) (hty : frame0.ftype = FrameType.Can) :
    GoodInsert log (canIdStage frame0 channel toks2 log) := by
  rcases toks2 with _ | ⟨id_tok, toks3⟩
  · exact Or.inr ⟨_, rfl, Or.inl rfl⟩
  · unfold canIdStage
    dsimp only
    rcases parse_id_u32 id_tok with _ | id
    · exact Or.inl rfl
    · exact canDirStage_good _ _ _ _ _ hty

theorem parseTokens_good (toks : List String) (log : Log) :
    GoodInsert log (parseTokens toks log) := by
  rcases toks with _ | ⟨ts_tok, toks1⟩
  · exact Or.inl rfl
  · unfold parseTokens
    dsimp only
    rcases parseF64 ts_tok with _ | timestamp
    · exact Or.inl rfl
    · rcases toks1 with _ | ⟨ch_tok, toks2⟩
      · exact Or.inl rfl
      · dsimp only
        rcases parseU8 ch_tok with _ | channel
        · exact Or.inl rfl
        · dsimp only
          rcases log.channel_map channel with _ | ch_info
          · exact Or.inl rfl
          · dsimp only
            rcases ch_info.tipo with _ | _
            · dsimp only
              rw [if_pos rfl]
              exact canIdStage_good _ _ _ _ rfl
            · dsimp only
              rw [if_neg (by simp)]
              exact Or.inl rfl

theorem parseLine_good (line : String) (log : Log) :
    GoodInsert log (parseLine line log) :=
  parseTokens_good _ _

/-! ## Invariants carried through a load -/

/-- The file-order index is exactly the insertion indices `0 .. n-1`. -/
def ArenaInv (log : Log) : Prop :=
  log.frame_by_file_order = List.range log.frames.length

theorem GoodInsert.arena {log res : Log} (h : GoodInsert log res) (ha : ArenaInv log) :
    ArenaInv res := by
  rcases h with rfl | ⟨f, rfl, _⟩
  · exact ha
  · unfold ArenaInv insertFrame at *
    simp only [List.length_append, List.length_cons, List.length_nil]
    rw [ha, ← List.range_succ]

theorem GoodInsert.channel_map {log res : Log} (h : GoodInsert log res) :
    res.channel_map = log.channel_map := by
  rcases h with rfl | ⟨f, rfl, _⟩ <;> rfl

theorem GoodInsert.absolute_time {log res : Log} (h : GoodInsert log res) :
    res.absolute_time = log.absolute_time := by
  rcases h with rfl | ⟨f, rfl, _⟩ <;> rfl

theorem GoodInsert.no_eth {log res : Log} (h : GoodInsert log res)
    (hl : ∀ f ∈ log.frames, f.ftype ≠ FrameType.Eth) :
    ∀ f ∈ res.frames, f.ftype ≠ FrameType.Eth := by
  rcases h with rfl | ⟨f, rfl, hf⟩
  · exact hl
  · intro g hg
    unfold insertFrame at hg
    simp only [List.mem_append, List.mem_cons] at hg
    rcases hg with hg | hg
    · exact hl g hg
    · rcases hg with rfl | hg
      · rcases hf with hf | hf
        · rw [hf]; intro hcon; cases hcon
        · rw [hf.1]; intro hcon; cases hcon
      · cases hg

theorem processLines_channel_map (path : String) (evs : List ReadEvent) (found : Bool)
    (log : Log) : (processLines path evs found log).1.channel_map = log.channel_map := by
  induction evs generalizing found log with
  | nil => rfl
  | cons ev rest ih =>
    rcases ev with raw | _
    · unfold processLines
      dsimp only
      rcases (if found = true then none else abs_time_from_line (trimEndNewline raw)) with _ | time
      · rw [ih]
        exact (parseLine_good _ _).channel_map
      · rw [ih]
    · rfl

theorem processLines_arena (path : String) (evs : List ReadEvent) (found : Bool)
    (log : Log) (ha : ArenaInv log) : ArenaInv (processLines path evs found log).1 := by
  induction evs generalizing found log with
  | nil => exact ha
  | cons ev rest ih =>
    rcases ev with raw | _
    · unfold processLines
      dsimp only
      rcases (if found = true then none else abs_time_from_line (trimEndNewline raw)) with _ | time
      · exact ih _ _ ((parseLine_good _ _).arena ha)
      · exact ih _ _ ha
    · exact ha

theorem processLines_no_eth (path : String) (evs : List ReadEvent) (found : Bool)
    (log : Log) (hl : ∀ f ∈ log.frames, f.ftype ≠ FrameType.Eth) :
    ∀ f ∈ (processLines path evs found log).1.frames, f.ftype ≠ FrameType.Eth := by
  induction evs generalizing found log with
  | nil => exact hl
  | cons ev rest ih =>
    rcases ev with raw | _
    · unfold processLines
      dsimp only
      rcases (if found = true then none else abs_time_from_line (trimEndNewline raw)) with _ | time
      · exact ih _ _ ((parseLine_good _ _).no_eth hl)
      · exact ih _ _ hl
    · exact hl

/-- Step equation for one successfully read line. -/
theorem processLines_cons_line (path raw : String) (rest : List ReadEvent) (found : Bool)
    (log : Log) :
    processLines path (ReadEvent.line raw :: rest) found log
      = match (if found = true then none else abs_time_from_line (trimEndNewline raw)) with
        | some time => processLines path rest true { log with absolute_time := time }
        | none => processLines path rest found (parseLine (trimEndNewline raw) log) := rfl

/-- The streaming loop fails exactly when an I/O failure occurs in the
event stream, and then with the `Read` error. -/
theorem processLines_error_iff (path : String) (evs : List ReadEvent) (found : Bool)
    (log : Log) :
    (processLines path evs found log).2
      = if ReadEvent.ioError ∈ evs then some (AscParseError.Read path) else none := by
  induction evs generalizing found log with
  | nil => rfl
  | cons ev rest ih =>
    rcases ev with raw | _
    · rw [processLines_cons_line]
      rcases (if found = true then none else abs_time_from_line (trimEndNewline raw)) with _ | time
      · rw [ih]
        simp
      · rw [ih]
        simp
    · simp [processLines]

/-- Stopping state at the first I/O failure: everything ingested from the
error-free prefix remains. -/
theorem processLines_stop (path : String) (good rest : List ReadEvent) (found : Bool)
    (log : Log) (hgood : ReadEvent.ioError ∉ good) :
    processLines path (good ++ ReadEvent.ioError :: rest) found log
      = ((processLines path good found log).1, some (AscParseError.Read path)) := by
  induction good generalizing found log with
  | nil => rfl
  | cons ev evs ih =>
    rcases ev with raw | _
    · have hgood' : ReadEvent.ioError ∉ evs := by
        intro h
        exact hgood (by simp [h])
      show processLines path (ReadEvent.line raw :: (evs ++ ReadEvent.ioError :: rest)) found log = _
      rw [processLines_cons_line, processLines_cons_line]
      rcases (if found = true then none else abs_time_from_line (trimEndNewline raw)) with _ | time
      · dsimp only
        exact ih _ _ hgood'
      · dsimp only
        exact ih _ _ hgood'
    · exact absurd (by simp) hgood

/-- No frame of the store uses the start-time formatting path while the
store's absolute time is unset. -/
def SynthOK (log : Log) : Prop :=
  ∀ f ∈ log.frames, f.ftype = FrameType.Can →
    f.absolute_time = seconds_to_hms_string f.timestamp

theorem GoodInsert.synth {log res : Log} (h : GoodInsert log res)
    (hnone : log.absolute_time.value = none) (hs : SynthOK log) : SynthOK res := by
  rcases h with rfl | ⟨f, rfl, hf⟩
  · exact hs
  · intro g hg hgty
    unfold insertFrame at hg
    simp only [List.mem_append, List.mem_cons] at hg
    rcases hg with hg | hg
    · exact hs g hg hgty
    · rcases hg with rfl | hg
      · rcases hf with hf | hf
        · rw [hf] at hgty; cases hgty
        · rw [hf.2.2, hnone]
          rfl
      · cases hg

/-- A load over a stream with no recognizable date header leaves the
stored absolute time untouched and, when it was unset, decodes every Can
frame through the synthesized-duration path. -/
theorem processLines_no_header (path : String) (evs : List ReadEvent) (found : Bool)
    (log : Log)
    (hnohdr : ∀ raw, ReadEvent.line raw ∈ evs →
      abs_time_from_line (trimEndNewline raw) = none) :
    (processLines path evs found log).1.absolute_time = log.absolute_time ∧
    (log.absolute_time.value = none → SynthOK log → SynthOK (processLines path evs found log).1) := by
  induction evs generalizing found log with
  | nil => exact ⟨rfl, fun _ hs => hs⟩
  | cons ev rest ih =>
    rcases ev with raw | _
    · unfold processLines
      dsimp only
      have hthis : abs_time_from_line (trimEndNewline raw) = none :=
        hnohdr raw (by simp)
      have hcond : (if found = true then none else abs_time_from_line (trimEndNewline raw))
          = (none : Option AbsoluteTime) := by
        rw [hthis]
        split <;> rfl
      rw [hcond]
      have hrest : ∀ raw', ReadEvent.line raw' ∈ rest →
          abs_time_from_line (trimEndNewline raw') = none :=
        fun raw' h => hnohdr raw' (by simp [h])
      have hg := parseLine_good (trimEndNewline raw) log
      refine ⟨?_, ?_⟩
      · rw [(ih _ _ hrest).1, hg.absolute_time]
      · intro hnone hs
        refine (ih _ _ hrest).2 ?_ (hg.synth hnone hs)
        rw [hg.absolute_time, hnone]
    · exact ⟨rfl, fun _ hs => hs⟩

/-! ## Index-builder projections -/

/-- The sorted `id_chn` key list (one key per `(id, channel)` pair). -/
def idChnKeys (log : Log) : List Nat :=
  sortKeys (fallback_cmp log.frame_by_file_order)
    ((lastByIdChannel log.frames log.frame_by_file_order).map (·.2))

/-- The Can-typed subsequence of the file-order keys. -/
def canKeys (log : Log) : List Nat :=
  log.frame_by_file_order.filter
    (fun k => match log.frames.get? k with
      | some f => f.ftype = FrameType.Can
      | none => false)

theorem buildIndexes_frames (log : Log) : (buildIndexes log).frames = log.frames := rfl

theorem buildIndexes_file_order (log : Log) :
    (buildIndexes log).frame_by_file_order = log.frame_by_file_order := rfl

theorem buildIndexes_channel_map (log : Log) :
    (buildIndexes log).channel_map = log.channel_map := rfl

theorem buildIndexes_absolute_time (log : Log) :
    (buildIndexes log).absolute_time = log.absolute_time := rfl

theorem buildIndexes_by_timestamp (log : Log) :
    (buildIndexes log).frame_by_timestamp
      = sortKeys (keyCmp log.frames log.frame_by_file_order primTimestamp)
          log.frame_by_file_order := rfl

theorem buildIndexes_by_channel (log : Log) :
    (buildIndexes log).frame_by_channel
      = sortKeys (keyCmp log.frames log.frame_by_file_order primChannel)
          log.frame_by_file_order := rfl

theorem buildIndexes_by_direction (log : Log) :
    (buildIndexes log).frame_by_direction
      = sortKeys (keyCmp log.frames log.frame_by_file_order primDirection)
          log.frame_by_file_order := rfl

theorem buildIndexes_by_can_msg_name (log : Log) :
    (buildIndexes log).frame_by_can_msg_name
      = sortKeys (keyCmp log.frames log.frame_by_file_order (primMsgName log.channel_map))
          (canKeys log) := rfl

theorem buildIndexes_by_can_msg_id (log : Log) :
    (buildIndexes log).frame_by_can_msg_id
      = sortKeys (keyCmp log.frames log.frame_by_file_order primMsgId) (canKeys log) := rfl

theorem buildIndexes_by_can_dlc (log : Log) :
    (buildIndexes log).frame_by_can_dlc
      = sortKeys (keyCmp log.frames log.frame_by_file_order primDlc) (canKeys log) := rfl

theorem buildIndexes_by_can_protocol (log : Log) :
    (buildIndexes log).frame_by_can_protocol
      = sortKeys (keyCmp log.frames log.frame_by_file_order primProtocol) (canKeys log) := rfl

theorem buildIndexes_by_can_sender_node (log : Log) :
    (buildIndexes log).frame_by_can_sender_node
      = sortKeys (keyCmp log.frames log.frame_by_file_order (primSenderNode log.channel_map))
          (canKeys log) := rfl

theorem buildIndexes_by_can_data (log : Log) :
    (buildIndexes log).frame_by_can_data
      = sortKeys (keyCmp log.frames log.frame_by_file_order primData) (canKeys log) := rfl

theorem buildIndexes_by_can_comment (log : Log) :
    (buildIndexes log).frame_by_can_comment
      = sortKeys (keyCmp log.frames log.frame_by_file_order (primComment log.channel_map))
          (canKeys log) := rfl

theorem buildIndexes_id_chn_by_timestamp (log : Log) :
    (buildIndexes log).id_chn_by_timestamp
      = sortKeys (keyCmp log.frames log.frame_by_file_order primTimestamp) (idChnKeys log) := rfl

theorem buildIndexes_id_chn_by_channel (log : Log) :
    (buildIndexes log).id_chn_by_channel
      = sortKeys (keyCmp log.frames log.frame_by_file_order primChannel) (idChnKeys log) := rfl

theorem buildIndexes_id_chn_by_direction (log : Log) :
    (buildIndexes log).id_chn_by_direction
      = sortKeys (keyCmp log.frames log.frame_by_file_order primDirection) (idChnKeys log) := rfl

theorem buildIndexes_id_chn_by_can_msg_name (log : Log) :
    (buildIndexes log).id_chn_by_can_msg_name
      = sortKeys (keyCmp log.frames log.frame_by_file_order (primMsgName log.channel_map))
          (idChnKeys log) := rfl

theorem buildIndexes_id_chn_by_can_msg_id (log : Log) :
    (buildIndexes log).id_chn_by_can_msg_id
      = sortKeys (keyCmp log.frames log.frame_by_file_order primMsgId) (idChnKeys log) := rfl

theorem buildIndexes_id_chn_by_can_dlc (log : Log) :
    (buildIndexes log).id_chn_by_can_dlc
      = sortKeys (keyCmp log.frames log.frame_by_file_order primDlc) (idChnKeys log) := rfl

theorem buildIndexes_id_chn_by_can_protocol (log : Log) :
    (buildIndexes log).id_chn_by_can_protocol
      = sortKeys (keyCmp log.frames log.frame_by_file_order primProtocol) (idChnKeys log) := rfl

theorem buildIndexes_id_chn_by_can_sender_node (log : Log) :
    (buildIndexes log).id_chn_by_can_sender_node
      = sortKeys (keyCmp log.frames log.frame_by_file_order (primSenderNode log.channel_map))
          (idChnKeys log) := rfl

theorem buildIndexes_id_chn_by_can_data (log : Log) :
    (buildIndexes log).id_chn_by_can_data
      = sortKeys (keyCmp log.frames log.frame_by_file_order primData) (idChnKeys log) := rfl

theorem buildIndexes_id_chn_by_can_comment (log : Log) :
    (buildIndexes log).id_chn_by_can_comment
      = sortKeys (keyCmp log.frames log.frame_by_file_order (primComment log.channel_map))
          (idChnKeys log) := rfl

/-! ## Loader decomposition -/

theorem clear_frames_arena (log : Log) : ArenaInv (Log.clear_frames log) := by
  unfold ArenaInv Log.clear_frames
  simp

theorem clear_frames_channel_map (log : Log) :
    (Log.clear_frames log).channel_map = log.channel_map := rfl

theorem clear_frames_absolute_time (log : Log) :
    (Log.clear_frames log).absolute_time = log.absolute_time := rfl

theorem clear_frames_frames (log : Log) : (Log.clear_frames log).frames = [] := rfl

theorem from_asc_file_ok (path : String) (evs : List ReadEvent) (log0 : Log)
    (h1 : (".asc".data.isSuffixOf path.data) = true) (h2 : ReadEvent.ioError ∉ evs) :
    from_asc_file path (some evs) log0
      = (buildIndexes (processLines path evs false (Log.clear_frames log0)).1, none) := by
  unfold from_asc_file
  rw [if_neg (by simp [h1])]
  dsimp only
  rcases hp : processLines path evs false (Log.clear_frames log0) with ⟨log1, err⟩
  have herr : err = none := by
    have := processLines_error_iff path evs false (Log.clear_frames log0)
    rw [hp] at this
    simpa [h2] using this
  subst herr
  rfl

theorem from_asc_file_bad_ext (path : String) (file : Option (List ReadEvent)) (log0 : Log)
    (h1 : (".asc".data.isSuffixOf path.data) = false) :
    from_asc_file path file log0
      = (Log.clear_frames log0, some (AscParseError.InvalidExtension path)) := by
  unfold from_asc_file
  rw [if_pos (by simp [h1])]

theorem from_asc_file_open_fail (path : String) (log0 : Log)
    (h1 : (".asc".data.isSuffixOf path.data) = true) :
    from_asc_file path none log0
      = (Log.clear_frames log0, some (AscParseError.OpenFile path)) := by
  unfold from_asc_file
  rw [if_neg (by simp [h1])]

theorem from_asc_file_read_fail (path : String) (good rest : List ReadEvent) (log0 : Log)
    (h1 : (".asc".data.isSuffixOf path.data) = true) (hgood : ReadEvent.ioError ∉ good) :
    from_asc_file path (some (good ++ ReadEvent.ioError :: rest)) log0
      = ((processLines path good false (Log.clear_frames log0)).1,
          some (AscParseError.Read path)) := by
  unfold from_asc_file
  rw [if_neg (by simp [h1])]
  dsimp only
  rw [processLines_stop path good rest false (Log.clear_frames log0) hgood]

/-! ## Characterization of the latest-per-id-channel map -/

/-- `k` is the last file-order occurrence of the `(identifier, channel)`
pair `p` among Can-typed frames. -/
def IsLastCanOcc (frames : List Frame) (p : Nat × Nat) (k : Nat) : Prop :=
  (∃ f, frames.get? k = some f ∧ f.ftype = FrameType.Can ∧ (f.id, f.channel) = p) ∧
  ∀ k' f', k < k' → frames.get? k' = some f' → f'.ftype = FrameType.Can →
    (f'.id, f'.channel) ≠ p

/-- Bounded variant for the fold induction. -/
def LastInPrefix (frames : List Frame) (m : Nat) (p : Nat × Nat) (k : Nat) : Prop :=
  k < m ∧ (∃ f, frames.get? k = some f ∧ f.ftype = FrameType.Can ∧ (f.id, f.channel) = p) ∧
  ∀ k' f', k < k' → k' < m → frames.get? k' = some f' → f'.ftype = FrameType.Can →
    (f'.id, f'.channel) ≠ p

def KeysNodup (m : List ((Nat × Nat) × Nat)) : Prop := (m.map (·.1)).Nodup

theorem upsertPair_keys_sub {m : List ((Nat × Nat) × Nat)} {p : Nat × Nat} {v : Nat} :
    ∀ q, q ∈ (upsertPair m p v).map (·.1) → q = p ∨ q ∈ m.map (·.1) := by
  induction m with
  | nil => intro q hq; simp [upsertPair] at hq; exact Or.inl hq
  | cons e rest ih =>
    rcases e with ⟨r, s⟩
    intro q hq
    unfold upsertPair at hq
    split_ifs at hq with hr
    · simp only [List.map_cons, List.mem_cons] at hq
      rcases hq with rfl | hq
      · exact Or.inl rfl
      · simp only [List.map_cons, List.mem_cons]
        tauto
    · simp only [List.map_cons, List.mem_cons] at hq
      rcases hq with rfl | hq
      · simp
      · rcases ih q hq with h | h
        · exact Or.inl h
        · simp only [List.map_cons, List.mem_cons]
          tauto

theorem upsertPair_keys_nodup {m : List ((Nat × Nat) × Nat)} {p : Nat × Nat} {v : Nat}
    (h : KeysNodup m) : KeysNodup (upsertPair m p v) := by
  induction m with
  | nil => simp [upsertPair, KeysNodup]
  | cons e rest ih =>
    rcases e with ⟨r, s⟩
    unfold KeysNodup at h ⊢
    simp only [List.map_cons, List.nodup_cons] at h
    unfold upsertPair
    split_ifs with hr
    · subst hr
      simp only [List.map_cons, List.nodup_cons]
      exact h
    · simp only [List.map_cons, List.nodup_cons]
      constructor
      · intro hmem
        rcases upsertPair_keys_sub r hmem with h1 | h1
        · exact hr h1
        · exact h.1 h1
      · exact ih h.2

theorem mem_upsertPair_self (m : List ((Nat × Nat) × Nat)) (p : Nat × Nat) (v : Nat) :
    (p, v) ∈ upsertPair m p v := by
  induction m with
  | nil => simp [upsertPair]
  | cons e rest ih =>
    rcases e with ⟨r, s⟩
    unfold upsertPair
    split_ifs with hr
    · simp
    · simp only [List.mem_cons]
      exact Or.inr ih

theorem mem_upsertPair_iff {m : List ((Nat × Nat) × Nat)} {p q : Nat × Nat} {v w : Nat}
    (hn : KeysNodup m) :
    (q, w) ∈ upsertPair m p v ↔ (q = p ∧ w = v) ∨ ((q, w) ∈ m ∧ q ≠ p) := by
  induction m with
  | nil =>
    simp only [upsertPair, List.mem_cons, List.not_mem_nil, or_false, false_and, or_false]
    constructor
    · intro h
      exact ⟨congrArg (fun x => x.1) h, congrArg (fun x => x.2) h⟩
    · rintro ⟨rfl, rfl⟩
      rfl
  | cons e rest ih =>
    rcases e with ⟨r, s⟩
    unfold KeysNodup at hn
    simp only [List.map_cons, List.nodup_cons] at hn
    unfold upsertPair
    split_ifs with hr
    · subst hr
      simp only [List.mem_cons]
      constructor
      · intro h
        rcases h with h | h
        · exact Or.inl ⟨congrArg (fun x => x.1) h, congrArg (fun x => x.2) h⟩
        · refine Or.inr ⟨Or.inr h, ?_⟩
          intro hq
          apply hn.1
          rw [← hq]
          simpa using List.mem_map_of_mem (f := (·.1)) h
      · rintro (⟨rfl, rfl⟩ | ⟨h, hq⟩)
        · exact Or.inl rfl
        · rcases h with h | h
          · exact absurd (congrArg (fun x => x.1) h) hq
          · exact Or.inr h
    · simp only [List.mem_cons]
      rw [ih hn.2]
      constructor
      · rintro (h | h)
        · refine Or.inr ⟨Or.inl h, ?_⟩
          intro hc
          exact hr ((congrArg (fun x => x.1) h).symm.trans hc)
        · rcases h with ⟨hq, hw⟩ | ⟨hm, hq⟩
          · exact Or.inl ⟨hq, hw⟩
          · exact Or.inr ⟨Or.inr hm, hq⟩
      · rintro (⟨hq, hw⟩ | ⟨hm, hq⟩)
        · exact Or.inr (Or.inl ⟨hq, hw⟩)
        · rcases hm with hm | hm
          · exact Or.inl hm
          · exact Or.inr (Or.inr ⟨hm, hq⟩)

theorem lastByIdChannel_step (frames : List Frame) (m : Nat) :
    lastByIdChannel frames (List.range (m + 1))
      = (match frames.get? m with
         | some f =>
           if f.ftype = FrameType.Can
             then upsertPair (lastByIdChannel frames (List.range m)) (f.id, f.channel) m
             else lastByIdChannel frames (List.range m)
         | none => lastByIdChannel frames (List.range m)) := by
  unfold lastByIdChannel
  rw [List.range_succ, List.foldl_append]
  rfl

theorem lastByIdChannel_nodup (frames : List Frame) (m : Nat) :
    KeysNodup (lastByIdChannel frames (List.range m)) := by
  induction m with
  | zero => simp [lastByIdChannel, KeysNodup]
  | succ n ih =>
    rw [lastByIdChannel_step]
    rcases frames.get? n with _ | f
    · exact ih
    · dsimp only
      split_ifs
      · exact upsertPair_keys_nodup ih
      · exact ih

theorem lastByIdChannel_range_iff (frames : List Frame) (m : Nat) (p : Nat × Nat) (k : Nat) :
    (p, k) ∈ lastByIdChannel frames (List.range m) ↔ LastInPrefix frames m p k := by
  induction m with
  | zero =>
    simp only [List.range_zero, lastByIdChannel, List.foldl_nil, List.not_mem_nil, false_iff]
    intro h
    exact absurd h.1 (by omega)
  | succ n ih =>
    rw [lastByIdChannel_step]
    rcases hf : frames.get? n with _ | f
    · dsimp only
      rw [ih]
      constructor
      · intro h
        have hk1 := h.1
        refine ⟨by omega, h.2.1, ?_⟩
        intro k' f' hk hk' hget hty
        by_cases hkn : k' = n
        · subst hkn
          rw [hget] at hf
          cases hf
        · exact h.2.2 k' f' hk (by omega) hget hty
      · intro h
        have hklt : k < n := by
          rcases Nat.lt_succ_iff_lt_or_eq.mp h.1 with hlt | heq
          · exact hlt
          · exfalso
            rcases h.2.1 with ⟨f, hget, _⟩
            rw [heq, hf] at hget
            cases hget
        exact ⟨hklt, h.2.1, fun k' f' hk hk' hget hty =>
          h.2.2 k' f' hk (by omega) hget hty⟩
    · dsimp only
      by_cases hty : f.ftype = FrameType.Can
      · rw [if_pos hty, mem_upsertPair_iff (lastByIdChannel_nodup frames n), ih]
        constructor
        · rintro (⟨rfl, rfl⟩ | ⟨hlast, hne⟩)
          · refine ⟨by omega, ⟨f, hf, hty, rfl⟩, ?_⟩
            intro k' f' hk hk' _ _
            omega
          · have hk1 := hlast.1
            refine ⟨by omega, hlast.2.1, ?_⟩
            intro k' f' hk hk' hget hty'
            by_cases hkn : k' = n
            · subst hkn
              rw [hget] at hf
              cases hf
              intro hc
              exact hne (hc ▸ rfl)
            · exact hlast.2.2 k' f' hk (by omega) hget hty'
        · intro h
          by_cases hkn : k = n
          · subst hkn
            left
            refine ⟨?_, rfl⟩
            rcases h.2.1 with ⟨g, hget, _, hpair⟩
            rw [hf] at hget
            cases hget
            exact hpair.symm
          · right
            have hk1 := h.1
            have hklt : k < n := by omega
            have hne : p ≠ (f.id, f.channel) := by
              intro hc
              exact h.2.2 n f (by omega) (by omega) hf hty hc.symm
            refine ⟨⟨hklt, h.2.1, ?_⟩, hne⟩
            exact fun k' f' hk hk' hget hty' => h.2.2 k' f' hk (by omega) hget hty'
      · rw [if_neg hty]
        rw [ih]
        constructor
        · intro h
          have hk1 := h.1
          refine ⟨by omega, h.2.1, ?_⟩
          intro k' f' hk hk' hget hty'
          by_cases hkn : k' = n
          · subst hkn
            rw [hget] at hf
            cases hf
            exact absurd hty' hty
          · exact h.2.2 k' f' hk (by omega) hget hty'
        · intro h
          have hklt : k < n := by
            rcases Nat.lt_succ_iff_lt_or_eq.mp h.1 with hlt | heq
            · exact hlt
            · exfalso
              rcases h.2.1 with ⟨g, hget, hgty, _⟩
              rw [heq, hf] at hget
              cases hget
              exact hty hgty
          exact ⟨hklt, h.2.1, fun k' f' hk hk' hget hty' =>
            h.2.2 k' f' hk (by omega) hget hty'⟩

theorem LastInPrefix_length_iff (frames : List Frame) (p : Nat × Nat) (k : Nat) :
    LastInPrefix frames frames.length p k ↔ IsLastCanOcc frames p k := by
  constructor
  · intro h
    refine ⟨h.2.1, ?_⟩
    intro k' f' hk hget hty
    by_cases hk' : k' < frames.length
    · exact h.2.2 k' f' hk hk' hget hty
    · exfalso
      rw [List.get?_eq_none.mpr (by omega)] at hget
      cases hget
  · intro h
    rcases h.1 with ⟨f, hget, hty, hpair⟩
    have hk : k < frames.length := by
      by_contra hge
      rw [List.get?_eq_none.mpr (by omega)] at hget
      cases hget
    exact ⟨hk, ⟨f, hget, hty, hpair⟩, fun k' f' hkk hk' hget' hty' =>
      h.2 k' f' hkk hget' hty'⟩

theorem IsLastCanOcc_unique (frames : List Frame) (p : Nat × Nat) (k₁ k₂ : Nat)
    (h1 : IsLastCanOcc frames p k₁) (h2 : IsLastCanOcc frames p k₂) : k₁ = k₂ := by
  by_contra hne
  rcases Nat.lt_or_ge k₁ k₂ with hlt | hge
  · rcases h2.1 with ⟨f, hget, hty, hpair⟩
    exact h1.2 k₂ f hlt hget hty hpair
  · have hlt : k₂ < k₁ := by omega
    rcases h1.1 with ⟨f, hget, hty, hpair⟩
    exact h2.2 k₁ f hlt hget hty hpair

theorem lastByIdChannel_exists_iff (frames : List Frame) (m : Nat) (p : Nat × Nat) :
    (∃ k, (p, k) ∈ lastByIdChannel frames (List.range m)) ↔
    (∃ k f, k < m ∧ frames.get? k = some f ∧ f.ftype = FrameType.Can
      ∧ (f.id, f.channel) = p) := by
  induction m with
  | zero =>
    simp [lastByIdChannel]
  | succ n ih =>
    rw [lastByIdChannel_step]
    rcases hf : frames.get? n with _ | f
    · dsimp only
      rw [ih]
      constructor
      · rintro ⟨k, g, hk, hget, hty, hpair⟩
        exact ⟨k, g, by omega, hget, hty, hpair⟩
      · rintro ⟨k, g, hk, hget, hty, hpair⟩
        refine ⟨k, g, ?_, hget, hty, hpair⟩
        by_cases hkn : k = n
        · subst hkn
          rw [hget] at hf
          cases hf
        · omega
    · dsimp only
      by_cases hty : f.ftype = FrameType.Can
      · rw [if_pos hty]
        constructor
        · rintro ⟨k, hmem⟩
          rcases (mem_upsertPair_iff (lastByIdChannel_nodup frames n)).mp hmem with
            ⟨rfl, rfl⟩ | ⟨hmem', _⟩
          · exact ⟨k, f, by omega, hf, hty, rfl⟩
          · rcases ih.mp ⟨k, hmem'⟩ with ⟨k', g, hk', hget, hgty, hpair⟩
            exact ⟨k', g, by omega, hget, hgty, hpair⟩
        · rintro ⟨k, g, hk, hget, hgty, hpair⟩
          by_cases hp : p = (f.id, f.channel)
          · subst hp
            exact ⟨n, mem_upsertPair_self _ _ _⟩
          · have hkn : k ≠ n := by
              intro hkn
              subst hkn
              rw [hget] at hf
              cases hf
              exact hp hpair.symm
            have hk2 : k < n := by omega
            rcases ih.mpr ⟨k, g, hk2, hget, hgty, hpair⟩ with ⟨k2, hmem⟩
            exact ⟨k2, (mem_upsertPair_iff (lastByIdChannel_nodup frames n)).mpr
              (Or.inr ⟨hmem, hp⟩)⟩
      · rw [if_neg hty]
        rw [ih]
        constructor
        · rintro ⟨k, g, hk, hget, hgty, hpair⟩
          exact ⟨k, g, by omega, hget, hgty, hpair⟩
        · rintro ⟨k, g, hk, hget, hgty, hpair⟩
          refine ⟨k, g, ?_, hget, hgty, hpair⟩
          by_cases hkn : k = n
          · subst hkn
            rw [hget] at hf
            cases hf
            exact absurd hgty hty
          · omega

/-! ## Lawfulness of the ten primary criteria -/

theorem primTimestamp_lawful : IsLawfulCmp primTimestamp :=
  Dec.cmp_lawful.comap (fun f : Frame => f.timestamp)

theorem primChannel_lawful : IsLawfulCmp primChannel :=
  (cmpN_lawful.comap (fun f : Frame => f.channel)).then_chain
    (Dec.cmp_lawful.comap (fun f : Frame => f.timestamp))

theorem primDirection_lawful : IsLawfulCmp primDirection :=
  (cmpN_lawful.comap (fun f : Frame => dirRank f.direction)).then_chain
    (Dec.cmp_lawful.comap (fun f : Frame => f.timestamp))

theorem primMsgName_lawful (chmap : Nat → Option ChannelInfo) :
    IsLawfulCmp (primMsgName chmap) :=
  cmpStr_lawful.comap (msg_name_of chmap)

theorem primMsgId_lawful : IsLawfulCmp primMsgId :=
  cmpN_lawful.comap (fun f : Frame => f.id)

theorem primDlc_lawful : IsLawfulCmp primDlc :=
  cmpN_lawful.comap (fun f : Frame => f.byte_length)

theorem primProtocol_lawful : IsLawfulCmp primProtocol :=
  (cmpN_lawful.comap protocol_rank).then_chain
    (cmpN_lawful.comap (fun f : Frame => f.byte_length))

theorem primSenderNode_lawful (chmap : Nat → Option ChannelInfo) :
    IsLawfulCmp (primSenderNode chmap) :=
  cmpStr_lawful.comap (node_name_of chmap)

theorem primData_lawful : IsLawfulCmp primData :=
  cmpStr_lawful.comap (fun f : Frame => f.data)

theorem primComment_lawful (chmap : Nat → Option ChannelInfo) :
    IsLawfulCmp (primComment chmap) :=
  cmpStr_lawful.comap (msg_comment_of chmap)

/-! ## Determinism machinery

A frame's `absolute_time` string is the only piece of state that can
differ between two loads of the same file (it depends on the previously
stored header value, which a reload does not clear); nothing the index
builder computes reads it. -/

/-- Blank out the one field the comparators never read. -/
def eraseAbs (f : Frame) : Frame := { f with absolute_time := "" }

/-- All 22 index vectors of the Trace Store, bundled. -/
def Log.indexVectors (log : Log) : List (List Nat) :=
  [log.frame_by_file_order, log.frame_by_timestamp, log.frame_by_channel,
   log.frame_by_direction, log.frame_by_can_msg_name, log.frame_by_can_msg_id,
   log.frame_by_can_dlc, log.frame_by_can_protocol, log.frame_by_can_sender_node,
   log.frame_by_can_data, log.frame_by_can_comment, log.id_chn_by_timestamp,
   log.id_chn_by_channel, log.id_chn_by_direction, log.id_chn_by_can_msg_name,
   log.id_chn_by_can_msg_id, log.id_chn_by_can_dlc, log.id_chn_by_can_protocol,
   log.id_chn_by_can_sender_node, log.id_chn_by_can_data, log.id_chn_by_can_comment,
   log.frame_by_file_order]

/-- Two Trace Stores that agree on everything the index builder and the
decoder control flow can observe. -/
structure LogSim (l1 l2 : Log) : Prop where
  cm : l1.channel_map = l2.channel_map
  fr : l1.frames.map eraseAbs = l2.frames.map eraseAbs
  iv : l1.indexVectors = l2.indexVectors

theorem LogSim.file_order {l1 l2 : Log} (h : LogSim l1 l2) :
    l1.frame_by_file_order = l2.frame_by_file_order := by
  have := h.iv
  unfold Log.indexVectors at this
  injection this

theorem LogSim.frames_length {l1 l2 : Log} (h : LogSim l1 l2) :
    l1.frames.length = l2.frames.length := by
  have := congrArg List.length h.fr
  simpa using this

theorem LogSim.get_erase {l1 l2 : Log} (h : LogSim l1 l2) (k : Nat) :
    (l1.frames.get? k).map eraseAbs = (l2.frames.get? k).map eraseAbs := by
  rw [← List.get?_map, ← List.get?_map, h.fr]

theorem eraseAbs_resolveRefs (db : Option DatabaseDBC) (id : Nat) (f : Frame) :
    eraseAbs (resolveRefs db id f) = resolveRefs db id (eraseAbs f) := by
  unfold resolveRefs
  rcases db with _ | dbc
  · rfl
  · dsimp only
    rcases hmk : resolve_msg_key_for_id dbc id with _ | mk
    · rfl
    · dsimp only
      rcases hmsg : dbc.get_message_by_key (some mk) with _ | msg <;> rfl

/-- None of the ten primary criteria reads `absolute_time`. -/
def PrimEraseInv (prim : Frame → Frame → Ordering) : Prop :=
  ∀ fa fb, prim (eraseAbs fa) (eraseAbs fb) = prim fa fb

theorem primTimestamp_erase : PrimEraseInv primTimestamp := fun _ _ => rfl

theorem primChannel_erase : PrimEraseInv primChannel := fun _ _ => rfl

theorem primDirection_erase : PrimEraseInv primDirection := fun _ _ => rfl

theorem primMsgName_erase (chmap : Nat → Option ChannelInfo) :
    PrimEraseInv (primMsgName chmap) := fun _ _ => rfl

theorem primMsgId_erase : PrimEraseInv primMsgId := fun _ _ => rfl

theorem primDlc_erase : PrimEraseInv primDlc := fun _ _ => rfl

theorem primProtocol_erase : PrimEraseInv primProtocol := fun _ _ => rfl

theorem primSenderNode_erase (chmap : Nat → Option ChannelInfo) :
    PrimEraseInv (primSenderNode chmap) := fun _ _ => rfl

theorem primData_erase : PrimEraseInv primData := fun _ _ => rfl

theorem primComment_erase (chmap : Nat → Option ChannelInfo) :
    PrimEraseInv (primComment chmap) := fun _ _ => rfl

theorem erase_eq_proj {f1 f2 : Frame} (h : eraseAbs f1 = eraseAbs f2) :
    f1.timestamp = f2.timestamp ∧ f1.channel = f2.channel ∧ f1.ftype = f2.ftype ∧
    f1.direction = f2.direction ∧ f1.msg_key = f2.msg_key ∧ f1.id = f2.id ∧
    f1.byte_length = f2.byte_length ∧ f1.tx_node_key = f2.tx_node_key ∧
    f1.data = f2.data := by
  refine ⟨congrArg (·.timestamp) h, congrArg (·.channel) h, congrArg (·.ftype) h,
    congrArg (·.direction) h, congrArg (·.msg_key) h, congrArg (·.id) h,
    congrArg (·.byte_length) h, congrArg (·.tx_node_key) h, congrArg (·.data) h⟩

theorem map_erase_eq_cases {o1 o2 : Option Frame} (h : o1.map eraseAbs = o2.map eraseAbs) :
    (o1 = none ∧ o2 = none) ∨
    ∃ f1 f2, o1 = some f1 ∧ o2 = some f2 ∧ eraseAbs f1 = eraseAbs f2 := by
  rcases o1 with _ | f1 <;> rcases o2 with _ | f2 <;> simp_all

theorem keyCmp_congr {fr1 fr2 : List Frame} {base : List Nat}
    {prim : Frame → Frame → Ordering}
    (hfr : fr1.map eraseAbs = fr2.map eraseAbs) (hprim : PrimEraseInv prim) :
    keyCmp fr1 base prim = keyCmp fr2 base prim := by
  funext a b
  unfold keyCmp
  have h1 : (fr1.get? a).map eraseAbs = (fr2.get? a).map eraseAbs := by
    rw [← List.get?_map, ← List.get?_map, hfr]
  have h2 : (fr1.get? b).map eraseAbs = (fr2.get? b).map eraseAbs := by
    rw [← List.get?_map, ← List.get?_map, hfr]
  rcases map_erase_eq_cases h1 with ⟨ha1, ha2⟩ | ⟨fa1, fa2, ha1, ha2, hea⟩ <;>
    rcases map_erase_eq_cases h2 with ⟨hb1, hb2⟩ | ⟨fb1, fb2, hb1, hb2, heb⟩ <;>
      rw [ha1, ha2, hb1, hb2]
  all_goals try rfl
  dsimp only
  have hpe : prim fa1 fb1 = prim fa2 fb2 := by
    rw [← hprim fa1 fb1, ← hprim fa2 fb2, hea, heb]
  rw [hpe]

theorem lastByIdChannel_congr {fr1 fr2 : List Frame} (base : List Nat)
    (hfr : fr1.map eraseAbs = fr2.map eraseAbs) :
    lastByIdChannel fr1 base = lastByIdChannel fr2 base := by
  unfold lastByIdChannel
  suffices h : ∀ acc, base.foldl
      (fun m k => match fr1.get? k with
        | some f => if f.ftype = FrameType.Can then upsertPair m (f.id, f.channel) k else m
        | none => m) acc
    = base.foldl
      (fun m k => match fr2.get? k with
        | some f => if f.ftype = FrameType.Can then upsertPair m (f.id, f.channel) k else m
        | none => m) acc by
    exact h []
  induction base with
  | nil => intro acc; rfl
  | cons k ks ih =>
    intro acc
    have h1 : (fr1.get? k).map eraseAbs = (fr2.get? k).map eraseAbs := by
      rw [← List.get?_map, ← List.get?_map, hfr]
    simp only [List.foldl_cons]
    rcases map_erase_eq_cases h1 with ⟨ha1, ha2⟩ | ⟨f1, f2, ha1, ha2, hea⟩ <;>
      rw [ha1, ha2]
    · exact ih _
    · dsimp only
      have hp := erase_eq_proj hea
      rw [hp.2.2.1, hp.2.2.2.2.2.1, hp.2.1]
      exact ih _

theorem canKeys_congr {l1 l2 : Log} (h : LogSim l1 l2) : canKeys l1 = canKeys l2 := by
  unfold canKeys
  rw [h.file_order]
  apply List.filter_congr
  intro k _
  have h1 : (l1.frames.get? k).map eraseAbs = (l2.frames.get? k).map eraseAbs := h.get_erase k
  rcases map_erase_eq_cases h1 with ⟨ha1, ha2⟩ | ⟨f1, f2, ha1, ha2, hea⟩ <;> rw [ha1, ha2]
  all_goals try rfl
  have hp := erase_eq_proj hea
  dsimp only
  rw [hp.2.2.1]

theorem idChnKeys_congr {l1 l2 : Log} (h : LogSim l1 l2) : idChnKeys l1 = idChnKeys l2 := by
  unfold idChnKeys
  rw [h.file_order, lastByIdChannel_congr _ h.fr]

theorem buildIndexes_sim {l1 l2 : Log} (h : LogSim l1 l2) :
    LogSim (buildIndexes l1) (buildIndexes l2) := by
  have hbase := h.file_order
  have hck := canKeys_congr h
  have hik := idChnKeys_congr h
  have hcm := h.cm
  refine ⟨?_, ?_, ?_⟩
  · rw [buildIndexes_channel_map, buildIndexes_channel_map, hcm]
  · rw [buildIndexes_frames, buildIndexes_frames]
    exact h.fr
  · unfold Log.indexVectors
    rw [buildIndexes_file_order, buildIndexes_file_order,
      buildIndexes_by_timestamp, buildIndexes_by_timestamp,
      buildIndexes_by_channel, buildIndexes_by_channel,
      buildIndexes_by_direction, buildIndexes_by_direction,
      buildIndexes_by_can_msg_name, buildIndexes_by_can_msg_name,
      buildIndexes_by_can_msg_id, buildIndexes_by_can_msg_id,
      buildIndexes_by_can_dlc, buildIndexes_by_can_dlc,
      buildIndexes_by_can_protocol, buildIndexes_by_can_protocol,
      buildIndexes_by_can_sender_node, buildIndexes_by_can_sender_node,
      buildIndexes_by_can_data, buildIndexes_by_can_data,
      buildIndexes_by_can_comment, buildIndexes_by_can_comment,
      buildIndexes_id_chn_by_timestamp, buildIndexes_id_chn_by_timestamp,
      buildIndexes_id_chn_by_channel, buildIndexes_id_chn_by_channel,
      buildIndexes_id_chn_by_direction, buildIndexes_id_chn_by_direction,
      buildIndexes_id_chn_by_can_msg_name, buildIndexes_id_chn_by_can_msg_name,
      buildIndexes_id_chn_by_can_msg_id, buildIndexes_id_chn_by_can_msg_id,
      buildIndexes_id_chn_by_can_dlc, buildIndexes_id_chn_by_can_dlc,
      buildIndexes_id_chn_by_can_protocol, buildIndexes_id_chn_by_can_protocol,
      buildIndexes_id_chn_by_can_sender_node, buildIndexes_id_chn_by_can_sender_node,
      buildIndexes_id_chn_by_can_data, buildIndexes_id_chn_by_can_data,
      buildIndexes_id_chn_by_can_comment, buildIndexes_id_chn_by_can_comment]
    rw [hbase, hck, hik, hcm,
      keyCmp_congr h.fr primTimestamp_erase,
      keyCmp_congr h.fr primChannel_erase,
      keyCmp_congr h.fr primDirection_erase,
      keyCmp_congr h.fr (primMsgName_erase l2.channel_map),
      keyCmp_congr h.fr primMsgId_erase,
      keyCmp_congr h.fr primDlc_erase,
      keyCmp_congr h.fr primProtocol_erase,
      keyCmp_congr h.fr (primSenderNode_erase l2.channel_map),
      keyCmp_congr h.fr primData_erase,
      keyCmp_congr h.fr (primComment_erase l2.channel_map)]

theorem insertFrame_sim {l1 l2 : Log} {f1 f2 : Frame} (h : LogSim l1 l2)
    (hf : eraseAbs f1 = eraseAbs f2) : LogSim (insertFrame f1 l1) (insertFrame f2 l2) := by
  have hiv := h.iv
  unfold Log.indexVectors at hiv
  simp only [List.cons.injEq, and_true] at hiv
  obtain ⟨h0, h1v, h2v, h3v, h4v, h5v, h6v, h7v, h8v, h9v, h10v, h11v,
    h12v, h13v, h14v, h15v, h16v, h17v, h18v, h19v, h20v, h21v⟩ := hiv
  refine ⟨h.cm, ?_, ?_⟩
  · show (l1.frames ++ [f1]).map eraseAbs = (l2.frames ++ [f2]).map eraseAbs
    rw [List.map_append, List.map_append, h.fr]
    simp [hf]
  · unfold Log.indexVectors
    show _ = _
    simp only [insertFrame]
    rw [h0, h.frames_length, h1v, h2v, h3v, h4v, h5v, h6v, h7v, h8v, h9v, h10v,
      h11v, h12v, h13v, h14v, h15v, h16v, h17v, h18v, h19v, h20v]

theorem canPayloadStage_sim (frame3 : Frame) (payloadToks : List String) (id channel : Nat)
    {l1 l2 : Log} (h : LogSim l1 l2) :
    LogSim (canPayloadStage frame3 payloadToks id channel l1)
      (canPayloadStage frame3 payloadToks id channel l2) := by
  unfold canPayloadStage
  rcases readPayload frame3.byte_length payloadToks with _ | payload
  · exact h
  · dsimp only
    have hdb : l1.get_database_by_channel channel = l2.get_database_by_channel channel := by
      unfold Log.get_database_by_channel
      rw [h.cm]
    rw [hdb]
    apply insertFrame_sim h
    rw [eraseAbs_resolveRefs, eraseAbs_resolveRefs]
    congr 1

theorem canMarkerStage_sim (frame2 : Frame) (id channel : Nat) (toks4 : List String)
    {l1 l2 : Log} (h : LogSim l1 l2) :
    LogSim (canMarkerStage frame2 id channel toks4 l1)
      (canMarkerStage frame2 id channel toks4 l2) := by
  unfold canMarkerStage
  simp only []
  rcases (((findDataMarker toks4).bind (fun x => x.1)).bind (fun s => parseU16 s)) with _ | L
  · exact insertFrame_sim h rfl
  · exact canPayloadStage_sim _ _ _ _ h

theorem canDirStage_sim (frame1 : Frame) (id channel : Nat) (toks3 : List String)
    {l1 l2 : Log} (h : LogSim l1 l2) :
    LogSim (canDirStage frame1 id channel toks3 l1)
      (canDirStage frame1 id channel toks3 l2) := by
  rcases toks3 with _ | ⟨dir_tok, toks4⟩
  · exact insertFrame_sim h rfl
  · unfold canDirStage
    dsimp only
    split_ifs
    · exact insertFrame_sim h rfl
    · exact canMarkerStage_sim _ _ _ _ h
    · exact canMarkerStage_sim _ _ _ _ h

theorem canIdStage_sim (frame0 : Frame) (channel : Nat) (toks2 : List String)
    {l1 l2 : Log} (h : LogSim l1 l2) :
    LogSim (canIdStage frame0 channel toks2 l1) (canIdStage frame0 channel toks2 l2) := by
  rcases toks2 with _ | ⟨id_tok, toks3⟩
  · exact insertFrame_sim h rfl
  · unfold canIdStage
    dsimp only
    rcases parse_id_u32 id_tok with _ | id
    · exact h
    · exact canDirStage_sim _ _ _ _ h

theorem parseTokens_sim (toks : List String) {l1 l2 : Log} (h : LogSim l1 l2) :
    LogSim (parseTokens toks l1) (parseTokens toks l2) := by
  rcases toks with _ | ⟨ts_tok, toks1⟩
  · exact h
  · unfold parseTokens
    dsimp only
    rcases parseF64 ts_tok with _ | timestamp
    · exact h
    · rcases toks1 with _ | ⟨ch_tok, toks2⟩
      · exact h
      · dsimp only
        rcases parseU8 ch_tok with _ | channel
        · exact h
        · dsimp only
          rcases hcm1 : l1.channel_map channel with _ | ch_info
          · rw [show l2.channel_map channel = none from h.cm ▸ hcm1]
            exact h
          · rw [show l2.channel_map channel = some ch_info from h.cm ▸ hcm1]
            dsimp only
            rcases ch_info.tipo with _ | _
            · dsimp only
              rw [if_pos rfl]
              exact canIdStage_sim _ _ _ h
            · dsimp only
              rw [if_neg (by simp)]
              exact h

theorem parseLine_sim (line : String) {l1 l2 : Log} (h : LogSim l1 l2) :
    LogSim (parseLine line l1) (parseLine line l2) :=
  parseTokens_sim _ h

theorem processLines_sim (path : String) (evs : List ReadEvent) (found : Bool)
    {l1 l2 : Log} (h : LogSim l1 l2) :
    LogSim (processLines path evs found l1).1 (processLines path evs found l2).1 := by
  induction evs generalizing found l1 l2 with
  | nil => exact h
  | cons ev rest ih =>
    rcases ev with raw | _
    · rw [processLines_cons_line, processLines_cons_line]
      rcases (if found = true then none else abs_time_from_line (trimEndNewline raw)) with _ | time
      · exact ih _ (parseLine_sim _ h)
      · exact ih _ ⟨h.cm, h.fr, h.iv⟩
    · exact h

theorem clear_frames_sim {l1 l2 : Log} (hcm : l1.channel_map = l2.channel_map) :
    LogSim (Log.clear_frames l1) (Log.clear_frames l2) :=
  ⟨hcm, rfl, rfl⟩

theorem from_asc_file_channel_map (path : String) (file : Option (List ReadEvent))
    (log0 : Log) : (from_asc_file path file log0).1.channel_map = log0.channel_map := by
  unfold from_asc_file
  split_ifs with hext
  · rcases file with _ | evs
    · rfl
    · dsimp only
      rcases hp : processLines path evs false (Log.clear_frames log0) with ⟨s, e⟩
      have hchan := processLines_channel_map path evs false (Log.clear_frames log0)
      rw [hp] at hchan
      rcases e with _ | e
      · dsimp only
        rw [buildIndexes_channel_map]
        exact hchan
      · exact hchan
  · rfl

/-- Loading the same abstract file into two stores with the same channel
bindings produces related stores (equal index vectors) and the same
error. -/
theorem from_asc_file_sim (path : String) (file : Option (List ReadEvent))
    {log0 log0' : Log} (hcm : log0.channel_map = log0'.channel_map) :
    LogSim (from_asc_file path file log0).1 (from_asc_file path file log0').1 ∧
    (from_asc_file path file log0).2 = (from_asc_file path file log0').2 := by
  unfold from_asc_file
  split_ifs with hext
  · rcases file with _ | evs
    · exact ⟨clear_frames_sim hcm, rfl⟩
    · dsimp only
      have hsim := processLines_sim path evs false (clear_frames_sim hcm)
      have he1 := processLines_error_iff path evs false (Log.clear_frames log0)
      have he2 := processLines_error_iff path evs false (Log.clear_frames log0')
      rcases hp1 : processLines path evs false (Log.clear_frames log0) with ⟨s1, e1⟩
      rcases hp2 : processLines path evs false (Log.clear_frames log0') with ⟨s2, e2⟩
      rw [hp1] at hsim he1
      rw [hp2] at hsim he2
      dsimp only at hsim he1 he2
      have heq : e1 = e2 := by rw [he1, he2]
      subst heq
      rcases e1 with _ | e
      · exact ⟨buildIndexes_sim hsim, rfl⟩
      · exact ⟨hsim, rfl⟩
  · exact ⟨clear_frames_sim hcm, rfl⟩

/-! ## Sortedness consequences -/

theorem sortKeys_keyCmp_pairwise (frames : List Frame) (base : List Nat)
    {prim : Frame → Frame → Ordering} (hp : IsLawfulCmp prim) (keys : List Nat)
    (hkeys : ∀ k ∈ keys, (frames.get? k).isSome = true) :
    (sortKeys (keyCmp frames base prim) keys).Pairwise
      (fun a b => (keyCmp frames base prim a b).isLE = true) := by
  apply sortKeys_pairwise
  · intro x _ y _
    exact keyCmp_total frames base hp x y
  · intro x hx y hy z hz hxy hyz
    rcases Option.isSome_iff_exists.mp (hkeys x hx) with ⟨fx, hfx⟩
    rcases Option.isSome_iff_exists.mp (hkeys y hy) with ⟨fy, hfy⟩
    rcases Option.isSome_iff_exists.mp (hkeys z hz) with ⟨fz, hfz⟩
    exact keyCmp_le_trans hp hfx hfy hfz hxy hyz

/-- Tie-break discipline: among frames whose primary keys compare equal,
the sorted vector keeps ascending file order (under the `range` base the
file-order position of a key is the key itself). -/
def TieBreakByFileOrder (frames : List Frame) (prim : Frame → Frame → Ordering)
    (v : List Nat) : Prop :=
  v.Pairwise (fun a b => ∀ fa fb, frames.get? a = some fa → frames.get? b = some fb →
    prim fa fb = .eq → a < b)

theorem tieBreak_of_sorted (frames : List Frame) (n : Nat)
    {prim : Frame → Frame → Ordering} (hp : IsLawfulCmp prim) (keys : List Nat)
    (hkeys : ∀ k ∈ keys, (frames.get? k).isSome = true)
    (hlt : ∀ k ∈ keys, k < n) (hnd : keys.Nodup) :
    TieBreakByFileOrder frames prim (sortKeys (keyCmp frames (List.range n) prim) keys) := by
  have hpw := sortKeys_keyCmp_pairwise frames (List.range n) hp keys hkeys
  have hnd' : (sortKeys (keyCmp frames (List.range n) prim) keys).Nodup :=
    sortKeys_nodup _ _ hnd
  have hmem : ∀ k ∈ sortKeys (keyCmp frames (List.range n) prim) keys, k < n := by
    intro k hk
    exact hlt k ((mem_sortKeys _ _ _).mp hk)
  unfold TieBreakByFileOrder
  have hcomb := List.Pairwise.and hpw hnd'
  apply List.Pairwise.imp_of_mem ?_ hcomb
  intro a b ha hb hab fa fb hfa hfb hprim
  have hle := hab.1
  have hne := hab.2
  rw [show keyCmp frames (List.range n) prim a b
      = (prim fa fb).then (fallback_cmp (List.range n) a b) from by
    unfold keyCmp; rw [hfa, hfb]] at hle
  rw [hprim, then_eq] at hle
  rw [fallback_cmp_range (hmem a ha) (hmem b hb), cmpN_isLE_iff] at hle
  omega

/-! ## Inversion of a successful load -/

theorem from_asc_file_ok_inv {path : String} {file : Option (List ReadEvent)} {log0 log' : Log}
    (h : from_asc_file path file log0 = (log', none)) :
    (".asc".data.isSuffixOf path.data) = true ∧
    ∃ evs, file = some evs ∧ ReadEvent.ioError ∉ evs ∧
      log' = buildIndexes (processLines path evs false (Log.clear_frames log0)).1 := by
  rcases hext : (".asc".data.isSuffixOf path.data) with _ | _
  · rw [from_asc_file_bad_ext path file log0 hext] at h
    have h2 := congrArg Prod.snd h
    simp at h2
  · refine ⟨rfl, ?_⟩
    rcases file with _ | evs
    · rw [from_asc_file_open_fail path log0 hext] at h
      have h2 := congrArg Prod.snd h
      simp at h2
    · by_cases hio : ReadEvent.ioError ∈ evs
      · exfalso
        unfold from_asc_file at h
        rw [if_neg (by simp [hext])] at h
        dsimp only at h
        have herr := processLines_error_iff path evs false (Log.clear_frames log0)
        rcases hp : processLines path evs false (Log.clear_frames log0) with ⟨s, e⟩
        rw [hp] at h herr
        dsimp only at herr
        rw [if_pos hio] at herr
        rw [herr] at h
        have h2 := congrArg Prod.snd h
        simp at h2
      · rw [from_asc_file_ok path evs log0 hext hio] at h
        exact ⟨evs, rfl, hio, (congrArg Prod.fst h).symm⟩

/-! ## Line-shape unfolding lemmas -/

theorem parseTokens_can_shape {ts_tok ch_tok : String} {toks2 : List String} {log : Log}
    {d : Dec} {ch : Nat} {info : ChannelInfo}
    (hts : parseF64 ts_tok = some d) (hch : parseU8 ch_tok = some ch)
    (hcm : log.channel_map ch = some info) (htipo : info.tipo = ChannelType.Can) :
    parseTokens (ts_tok :: ch_tok :: toks2) log
      = canIdStage { Frame.default with timestamp := d, channel := ch, ftype := FrameType.Can }
          ch toks2 log := by
  unfold parseTokens
  dsimp only
  rw [hts]
  dsimp only
  rw [hch]
  dsimp only
  rw [hcm]
  dsimp only
  rw [htipo]
  dsimp only
  rw [if_pos rfl]

theorem parseTokens_eth_shape {ts_tok ch_tok : String} {toks2 : List String} {log : Log}
    {d : Dec} {ch : Nat} {info : ChannelInfo}
    (hts : parseF64 ts_tok = some d) (hch : parseU8 ch_tok = some ch)
    (hcm : log.channel_map ch = some info) (htipo : info.tipo = ChannelType.Ethernet) :
    parseTokens (ts_tok :: ch_tok :: toks2) log = log := by
  unfold parseTokens
  dsimp only
  rw [hts]
  dsimp only
  rw [hch]
  dsimp only
  rw [hcm]
  dsimp only
  rw [htipo]
  dsimp only
  rw [if_neg (by simp)]

theorem canIdStage_cons_none {id_tok : String} {toks3 : List String} {frame0 : Frame}
    {ch : Nat} {log : Log} (hid : parse_id_u32 id_tok = none) :
    canIdStage frame0 ch (id_tok :: toks3) log = log := by
  unfold canIdStage
  dsimp only
  rw [hid]

theorem canIdStage_cons_some {id_tok : String} {toks3 : List String} {frame0 : Frame}
    {ch id : Nat} {log : Log} (hid : parse_id_u32 id_tok = some id) :
    canIdStage frame0 ch (id_tok :: toks3) log
      = canDirStage { frame0 with id := id, id_hex := id_tok } id ch toks3 log := by
  unfold canIdStage
  dsimp only
  rw [hid]

theorem canDirStage_bad {dir_tok : String} {toks4 : List String} {frame1 : Frame}
    {id ch : Nat} {log : Log} (h1 : dir_tok ≠ "Tx") (h2 : dir_tok ≠ "Rx") :
    canDirStage frame1 id ch (dir_tok :: toks4) log
      = insertFrame { frame1 with ftype := FrameType.ErrorFrame } log := by
  unfold canDirStage
  dsimp only
  rw [if_pos ⟨h1, h2⟩]

theorem canDirStage_rx {toks4 : List String} {frame1 : Frame} {id ch : Nat} {log : Log} :
    canDirStage frame1 id ch ("Rx" :: toks4) log
      = canMarkerStage { frame1 with direction := Direction.Rx } id ch toks4 log := by
  unfold canDirStage
  dsimp only
  rw [if_neg (by simp)]
  rw [if_neg (by simp)]

theorem canDirStage_tx {toks4 : List String} {frame1 : Frame} {id ch : Nat} {log : Log} :
    canDirStage frame1 id ch ("Tx" :: toks4) log
      = canMarkerStage { frame1 with direction := Direction.Tx } id ch toks4 log := by
  unfold canDirStage
  dsimp only
  rw [if_neg (by simp)]
  rw [if_pos rfl]

theorem findDataMarker_append {mid : List String} {dTok lenTok : String} {rest : List String}
    (hmid : ∀ t ∈ mid, t ≠ "d" ∧ t ≠ "D") (hd : dTok = "d" ∨ dTok = "D") :
    findDataMarker (mid ++ dTok :: lenTok :: rest) = some (some lenTok, rest) := by
  induction mid with
  | nil =>
    show findDataMarker (dTok :: lenTok :: rest) = _
    unfold findDataMarker
    rw [if_pos hd]
    rfl
  | cons t mid' ih =>
    have ht := hmid t (by simp)
    show findDataMarker (t :: (mid' ++ dTok :: lenTok :: rest)) = _
    unfold findDataMarker
    rw [if_neg (by simp [ht.1, ht.2])]
    exact ih (fun u hu => hmid u (by simp [hu]))

theorem canMarkerStage_decode {frame2 : Frame} {id ch : Nat} {log : Log}
    {mid rest : List String} {dTok lenTok : String} {L : Nat}
    (hmid : ∀ t ∈ mid, t ≠ "d" ∧ t ≠ "D") (hd : dTok = "d" ∨ dTok = "D")
    (hlen : parseU16 lenTok = some L) :
    canMarkerStage frame2 id ch (mid ++ dTok :: lenTok :: rest) log
      = canPayloadStage { frame2 with byte_length := L } rest id ch log := by
  unfold canMarkerStage
  rw [findDataMarker_append hmid hd]
  simp only [Option.some_bind, Option.map_some, Option.getD_some]
  rw [hlen]
  rfl

theorem canPayloadStage_short {frame3 : Frame} {payloadToks : List String} {id ch : Nat}
    {log : Log} (h : payloadToks.length < frame3.byte_length) :
    canPayloadStage frame3 payloadToks id ch log = log := by
  unfold canPayloadStage
  rw [readPayload_short h]

theorem insertFrame_ne (f : Frame) (log : Log) : insertFrame f log ≠ log := by
  intro h
  have := congrArg (fun l => l.frames.length) h
  simp [insertFrame] at this

theorem insertFrame_inj {f f' : Frame} {log : Log}
    (h : insertFrame f log = insertFrame f' log) : f = f' := by
  have hfr := congrArg (fun l => l.frames) h
  simp only [insertFrame] at hfr
  have := List.append_cancel_left hfr
  injection this

/-- Every Can frame a line decode inserts carries a coherent payload
string and the absolute time derived from the store's header value. -/
theorem parseTokens_insert_can {toks : List String} {log : Log} {f : Frame}
    (h : parseTokens toks log = insertFrame f log) (hty : f.ftype = FrameType.Can) :
    countTokens f.data = f.byte_length ∧
    f.absolute_time = frameAbsTime log.absolute_time.value f.timestamp := by
  rcases parseTokens_good toks log with heq | ⟨f', heq, hf'⟩
  · rw [h] at heq
    exact absurd heq (insertFrame_ne f log)
  · rw [h] at heq
    have hff' := insertFrame_inj heq
    subst hff'
    rcases hf' with hf' | hf'
    · rw [hty] at hf'
      cases hf'
    · exact ⟨hf'.2.1, hf'.2.2⟩

/-! ## Resolution predicates and remaining bridges -/

/-- The message lookup chain of the name/comment comparators succeeds. -/
def msgResolved (chmap : Nat → Option ChannelInfo) (f : Frame) : Bool :=
  ((((chmap f.channel).bind (·.database)).bind
    (fun db => db.get_message_by_key f.msg_key))).isSome

/-- The sender-node lookup chain of the sender comparator succeeds. -/
def nodeResolved (chmap : Nat → Option ChannelInfo) (f : Frame) : Bool :=
  ((((chmap f.channel).bind (·.database)).bind
    (fun db => db.get_node_by_key f.tx_node_key))).isSome

theorem msg_name_of_unresolved {chmap : Nat → Option ChannelInfo} {f : Frame}
    (h : msgResolved chmap f = false) : msg_name_of chmap f = "" := by
  unfold msgResolved at h
  unfold msg_name_of
  rcases hx : (((chmap f.channel).bind (·.database)).bind
      (fun db => db.get_message_by_key f.msg_key)) with _ | m
  · rfl
  · rw [hx] at h
    simp at h

theorem msg_comment_of_unresolved {chmap : Nat → Option ChannelInfo} {f : Frame}
    (h : msgResolved chmap f = false) : msg_comment_of chmap f = "" := by
  unfold msgResolved at h
  unfold msg_comment_of
  rcases hx : (((chmap f.channel).bind (·.database)).bind
      (fun db => db.get_message_by_key f.msg_key)) with _ | m
  · rfl
  · rw [hx] at h
    simp at h

theorem node_name_of_unresolved {chmap : Nat → Option ChannelInfo} {f : Frame}
    (h : nodeResolved chmap f = false) : node_name_of chmap f = "" := by
  unfold nodeResolved at h
  unfold node_name_of
  rcases hx : (((chmap f.channel).bind (·.database)).bind
      (fun db => db.get_node_by_key f.tx_node_key)) with _ | m
  · rfl
  · rw [hx] at h
    simp at h

theorem cmpStr_nonempty_gt {s : String} (h : s ≠ "") : cmpStr s "" = .gt := by
  unfold cmpStr
  rcases hs : s.data with _ | ⟨c, cs⟩
  · exfalso
    apply h
    cases s with
    | mk d =>
      have hd : d = [] := hs
      rw [hd]
  · rfl

theorem parseTokens_frames_append {toks : List String} {log : Log} {f : Frame}
    (h : (parseTokens toks log).frames = log.frames ++ [f]) :
    parseTokens toks log = insertFrame f log := by
  rcases parseTokens_good toks log with heq | ⟨f', heq, _⟩
  · rw [heq] at h
    exfalso
    have := congrArg List.length h
    simp at this
  · rw [heq] at h ⊢
    have hfr : log.frames ++ [f'] = log.frames ++ [f] := h
    have := List.append_cancel_left hfr
    injection this with h1 _
    rw [h1]

theorem canKeys_frames {log : Log} :
    ∀ k ∈ canKeys log, ∃ f, log.frames.get? k = some f ∧ f.ftype = FrameType.Can := by
  intro k hk
  unfold canKeys at hk
  rcases List.mem_filter.mp hk with ⟨_, hp⟩
  rcases hg : log.frames.get? k with _ | f
  · rw [hg] at hp
    simp at hp
  · rw [hg] at hp
    simp only [decide_eq_true_eq] at hp
    exact ⟨f, rfl, hp⟩

theorem idChnKeys_frames {log : Log} (ha : ArenaInv log) :
    ∀ k ∈ idChnKeys log, ∃ f, log.frames.get? k = some f ∧ f.ftype = FrameType.Can := by
  intro k hk
  unfold idChnKeys at hk
  have hk' := (mem_sortKeys _ _ _).mp hk
  rcases List.mem_map.mp hk' with ⟨⟨p, k'⟩, hpmem, hk2⟩
  dsimp only at hk2
  subst hk2
  rw [ha] at hpmem
  have := (lastByIdChannel_range_iff log.frames log.frames.length p k').mp hpmem
  rcases this.2.1 with ⟨f, hget, hty, _⟩
  exact ⟨f, hget, hty⟩

theorem idChnKeys_pair_mem {log : Log} (ha : ArenaInv log) {k : Nat}
    (hk : k ∈ idChnKeys log) :
    ∃ p, (p, k) ∈ lastByIdChannel log.frames log.frame_by_file_order := by
  unfold idChnKeys at hk
  have hk' := (mem_sortKeys _ _ _).mp hk
  rcases List.mem_map.mp hk' with ⟨⟨p, k'⟩, hpmem, hk2⟩
  dsimp only at hk2
  subst hk2
  exact ⟨p, hpmem⟩

theorem idChnKeys_nodup {log : Log} (ha : ArenaInv log) : (idChnKeys log).Nodup := by
  unfold idChnKeys
  apply sortKeys_nodup
  have hnodup : (lastByIdChannel log.frames log.frame_by_file_order).Nodup := by
    have hkn := lastByIdChannel_nodup log.frames log.frames.length
    rw [← ha] at hkn
    exact List.Nodup.of_map _ hkn
  apply List.Nodup.map_on ?_ hnodup
  intro x hx y hy hxy
  rcases x with ⟨px, kx⟩
  rcases y with ⟨py, ky⟩
  dsimp only at hxy
  subst hxy
  rw [ha] at hx hy
  have hx' := (lastByIdChannel_range_iff log.frames log.frames.length px kx).mp hx
  have hy' := (lastByIdChannel_range_iff log.frames log.frames.length py kx).mp hy
  rcases hx'.2.1 with ⟨f, hget, _, hpair⟩
  rcases hy'.2.1 with ⟨g, hget', _, hpair'⟩
  rw [hget] at hget'
  injection hget' with hfg
  subst hfg
  rw [← hpair, ← hpair']

/-- Projection form of the successful-load inversion. -/
theorem load_ok_inv {path : String} {file : Option (List ReadEvent)} {log0 : Log}
    (hok : (from_asc_file path file log0).2 = none) :
    (".asc".data.isSuffixOf path.data) = true ∧
    ∃ evs, file = some evs ∧ ReadEvent.ioError ∉ evs ∧
      (from_asc_file path file log0).1
        = buildIndexes (processLines path evs false (Log.clear_frames log0)).1 := by
  rcases hres : from_asc_file path file log0 with ⟨log', err⟩
  rw [hres] at hok
  dsimp only at hok
  subst hok
  have := from_asc_file_ok_inv hres
  refine ⟨this.1, ?_⟩
  rcases this.2 with ⟨evs, h1, h2, h3⟩
  exact ⟨evs, h1, h2, h3⟩

/-- Every frame ever stored by a load has Can or ErrorFrame type. -/
theorem from_asc_file_no_eth (path : String) (file : Option (List ReadEvent)) (log0 : Log) :
    ∀ f ∈ (from_asc_file path file log0).1.frames, f.ftype ≠ FrameType.Eth := by
  unfold from_asc_file
  split_ifs with hext
  · rcases file with _ | evs
    · intro f hf
      cases hf
    · dsimp only
      have hne := processLines_no_eth path evs false (Log.clear_frames log0)
        (by intro f hf; cases hf)
      rcases hp : processLines path evs false (Log.clear_frames log0) with ⟨s, e⟩
      rw [hp] at hne
      rcases e with _ | e
      · dsimp only
        rw [buildIndexes_frames]
        exact hne
      · exact hne
  · intro f hf
    cases hf

/-! ## Concrete scenario fixtures

A one-channel configuration: channel 1 is a Can channel bound to a small
database that resolves identifier `0x123` to message `A` (comment `CA`,
one signal, first sender node `NodeA`).  Identifier `0x456` resolves to
nothing. -/

def msgA : MessageDBC :=
  { name := "A", comment := "CA", signals := [7], sender_nodes := [2] }

def dbA : DatabaseDBC :=
  { name := "dbA"
    msg_key_by_id := fun id => if id = 0x123 then some 1 else none
    msg_by_key := fun k => if k = 1 then some msgA else none
    node_by_key := fun k => if k = 2 then some { name := "NodeA" } else none }

def chA : ChannelInfo := { number := 1, tipo := ChannelType.Can, database := some dbA }

def chmapA : Nat → Option ChannelInfo := fun ch => if ch = 1 then some chA else none

/-- A fresh Trace Store bound to the one-channel configuration. -/
def logA : Log := { channel_map := chmapA }

/-- A Trace Store that still holds an absolute-time value from an earlier
load (the epoch, as a previous `date` header would leave it). -/
def logB : Log := { channel_map := chmapA, absolute_time := { text := "", value := some ⟨0, false⟩ } }

/-- Two decodable Can lines: identifier `123` resolves in `dbA`,
identifier `456` does not. -/
def fileA : List ReadEvent :=
  [ReadEvent.line "0.1 1 123 Rx d 1 00", ReadEvent.line "0.2 1 456 Rx d 1 00"]

/-- One decodable Can line and no date header anywhere. -/
def fileB : List ReadEvent := [ReadEvent.line "0.1 1 123 Rx d 1 00"]

/-! ## Claim C6 -/

theorem stripIdToken_snoc (s : String) (c : Char) (hc : c = 'x' ∨ c = 'X') :
    stripIdToken (String.mk (s.data ++ [c])) = stripIdToken s := by
  unfold stripIdToken
  have hdata : (String.mk (s.data ++ [c])).data = s.data ++ [c] := rfl
  rw [hdata]
  have hrev : (s.data ++ [c]).reverse = c :: s.data.reverse := by
    rw [List.reverse_append]
    rfl
  rw [hrev]
  have hp : (decide (c = 'x') || decide (c = 'X')) = true := by
    rcases hc with rfl | rfl <;> decide
  rw [List.dropWhile_cons, if_pos hp]

theorem parse_id_u32_snoc (s : String) (c : Char) (hc : c = 'x' ∨ c = 'X') :
    parse_id_u32 (String.mk (s.data ++ [c])) = parse_id_u32 s := by
  unfold parse_id_u32
  rw [stripIdToken_snoc s c hc]

/-- C6: identifier decoding strips a trailing extended-id marker (`x`/`X`,
case-insensitive), interprets the remainder as hexadecimal and retries as
decimal only when the hex parse fails; a token that parses neither way
drops the line with no frame.  `"17334410x"` decodes to `0x17334410` (the
numeric field never carries the extended flag), and bit 31 is applied only
in the database-resolution fallback, when the direct lookup fails and the
identifier exceeds the 11-bit range `0x7FF`. -/
theorem C6_claim :
    parse_id_u32 "17334410x" = some 0x17334410 ∧
    parse_id_u32 "0x17334410X" = some 0x17334410 ∧
    (∀ s : String, parse_id_u32 (String.mk (s.data ++ ['x'])) = parse_id_u32 s ∧
        parse_id_u32 (String.mk (s.data ++ ['X'])) = parse_id_u32 s) ∧
    (∀ (s : String) (v : Nat), parseUIntRadix 16 U32_MAX (stripIdToken s) = some v →
        parse_id_u32 s = some v) ∧
    (∀ s : String, parseUIntRadix 16 U32_MAX (stripIdToken s) = none →
        parse_id_u32 s = parseUIntRadix 10 U32_MAX (stripIdToken s)) ∧
    (∀ (ts_tok ch_tok id_tok : String) (toks3 : List String) (d : Dec) (ch : Nat)
        (info : ChannelInfo) (log : Log),
        parseF64 ts_tok = some d → parseU8 ch_tok = some ch →
        log.channel_map ch = some info → info.tipo = ChannelType.Can →
        parse_id_u32 id_tok = none →
        parseTokens (ts_tok :: ch_tok :: id_tok :: toks3) log = log) ∧
    (∀ (dbc : DatabaseDBC) (id k : Nat), dbc.get_msg_key_by_id id = some k →
        resolve_msg_key_for_id dbc id = some k) ∧
    (∀ (dbc : DatabaseDBC) (id : Nat), dbc.get_msg_key_by_id id = none →
        id ≤ CAN_STD_MAX_ID → resolve_msg_key_for_id dbc id = none) ∧
    (∀ (dbc : DatabaseDBC) (id : Nat), dbc.get_msg_key_by_id id = none →
        CAN_STD_MAX_ID < id →
        resolve_msg_key_for_id dbc id = dbc.get_msg_key_by_id (Nat.lor id CAN_EFF_FLAG)) := by
  refine ⟨by decide, by decide,
    fun s => ⟨parse_id_u32_snoc s 'x' (Or.inl rfl), parse_id_u32_snoc s 'X' (Or.inr rfl)⟩,
    ?_, ?_, ?_, ?_, ?_, ?_⟩
  · intro s v h
    unfold parse_id_u32
    rw [h]
  · intro s h
    unfold parse_id_u32
    rw [h]
  · intro ts_tok ch_tok id_tok toks3 d ch info log hts hch hcm htipo hid
    rw [parseTokens_can_shape hts hch hcm htipo]
    exact canIdStage_cons_none hid
  · intro dbc id k h
    unfold resolve_msg_key_for_id
    rw [h]
  · intro dbc id h hle
    unfold resolve_msg_key_for_id
    rw [h]
    dsimp only
    rw [if_neg (by omega)]
  · intro dbc id h hlt
    unfold resolve_msg_key_for_id
    rw [h]
    dsimp only
    rw [if_pos hlt]

/-! ## Claim C7 -/

/-- C7: a line whose channel is mapped with the Ethernet (secondary bus)
kind leaves the Trace Store completely unchanged (no frame, no index
entry), and consequently every frame ever stored by a load has type `Can`
or `ErrorFrame`, never `Eth`. -/
theorem C7_claim :
    (∀ (ts_tok ch_tok : String) (toks2 : List String) (log : Log) (d : Dec) (ch : Nat)
        (info : ChannelInfo), parseF64 ts_tok = some d → parseU8 ch_tok = some ch →
        log.channel_map ch = some info → info.tipo = ChannelType.Ethernet →
        parseTokens (ts_tok :: ch_tok :: toks2) log = log) ∧
    (∀ (path : String) (file : Option (List ReadEvent)) (log0 : Log),
        ∀ f ∈ (from_asc_file path file log0).1.frames,
          f.ftype = FrameType.Can ∨ f.ftype = FrameType.ErrorFrame) := by
  constructor
  · intro ts_tok ch_tok toks2 log d ch info hts hch hcm htipo
    exact parseTokens_eth_shape hts hch hcm htipo
  · intro path file log0 f hf
    have hne := from_asc_file_no_eth path file log0 f hf
    cases hty : f.ftype with
    | Can => exact Or.inl rfl
    | Eth => exact absurd hty hne
    | ErrorFrame => exact Or.inr rfl

/-! ## Claim C8 -/

/-- C8: `from_asc_file` fails exactly when the path lacks the `.asc`
extension, the file cannot be opened, or an I/O error occurs while
streaming lines — per-line decode content never influences the error — and
each failure carries its own error constructor; at a mid-stream read
failure the state keeps everything ingested from the error-free prefix. -/
theorem C8_claim :
    (∀ (path : String) (file : Option (List ReadEvent)) (log0 : Log),
        (from_asc_file path file log0).2 = none ↔
          ((".asc".data.isSuffixOf path.data) = true ∧
            ∃ evs, file = some evs ∧ ReadEvent.ioError ∉ evs)) ∧
    (∀ (path : String) (file : Option (List ReadEvent)) (log0 : Log),
        (".asc".data.isSuffixOf path.data) = false →
        from_asc_file path file log0
          = (Log.clear_frames log0, some (AscParseError.InvalidExtension path))) ∧
    (∀ (path : String) (log0 : Log), (".asc".data.isSuffixOf path.data) = true →
        from_asc_file path none log0
          = (Log.clear_frames log0, some (AscParseError.OpenFile path))) ∧
    (∀ (path : String) (good rest : List ReadEvent) (log0 : Log),
        (".asc".data.isSuffixOf path.data) = true → ReadEvent.ioError ∉ good →
        from_asc_file path (some (good ++ ReadEvent.ioError :: rest)) log0
          = ((processLines path good false (Log.clear_frames log0)).1,
              some (AscParseError.Read path))) := by
  refine ⟨?_, fun path file log0 h => from_asc_file_bad_ext path file log0 h,
    fun path log0 h => from_asc_file_open_fail path log0 h,
    fun path good rest log0 h1 h2 => from_asc_file_read_fail path good rest log0 h1 h2⟩
  intro path file log0
  constructor
  · intro hok
    obtain ⟨hext, evs, hfile, hio, _⟩ := load_ok_inv hok
    exact ⟨hext, evs, hfile, hio⟩
  · rintro ⟨hext, evs, rfl, hio⟩
    rw [from_asc_file_ok path evs log0 hext hio]

/-! ## Claim C10 -/

/-- C10: a successfully decoded Can frame's absolute time is synthesized
on the fixed placeholder date directly from the timestamp when no start
time is established (65.5 s giving `2025-01-01 00:01:05.500`), and equals
`start + round(timestamp * 1000)` milliseconds formatted as
`YYYY-MM-DD HH:MM:SS.mmm` when a start time is established. -/
theorem C10_claim :
    (∀ (toks : List String) (log : Log) (f : Frame),
        (parseTokens toks log).frames = log.frames ++ [f] → f.ftype = FrameType.Can →
        log.absolute_time.value = none →
        f.absolute_time = seconds_to_hms_string f.timestamp) ∧
    (∀ (toks : List String) (log : Log) (f : Frame) (start : NaiveDT),
        (parseTokens toks log).frames = log.frames ++ [f] → f.ftype = FrameType.Can →
        log.absolute_time.value = some start →
        f.absolute_time = format_datetime_ymdhms_millis
          (start + satI64 (Dec.round (Dec.mul1000 f.timestamp)))) ∧
    seconds_to_hms_string ⟨655, 1⟩ = "2025-01-01 00:01:05.500" := by
  refine ⟨?_, ?_, by decide⟩
  · intro toks log f happ hty hval
    have h := (parseTokens_insert_can (parseTokens_frames_append happ) hty).2
    rw [h]
    unfold frameAbsTime
    rw [hval]
  · intro toks log f start happ hty hval
    have h := (parseTokens_insert_can (parseTokens_frames_append happ) hty).2
    rw [h]
    unfold frameAbsTime
    rw [hval]

/-! ## Claim C4 -/

/-- C4: a Bus line declaring byte length `L` with fewer than `L` payload
tokens left produces no frame at all (the store is unchanged, unlike the
ErrorFrame cases), and every successfully decoded Can frame carries
exactly `byte_length` whitespace-separated payload tokens. -/
theorem C4_claim (ts_tok ch_tok id_tok dir_tok lenTok : String)
    (mid payload : List String) (d : Dec) (ch id L : Nat) (info : ChannelInfo) (log : Log)
    (hts : parseF64 ts_tok = some d) (hch : parseU8 ch_tok = some ch)
    (hcm : log.channel_map ch = some info) (htipo : info.tipo = ChannelType.Can)
    (hid : parse_id_u32 id_tok = some id)
    (hdir : dir_tok = "Rx" ∨ dir_tok = "Tx")
    (hmid : ∀ t ∈ mid, t ≠ "d" ∧ t ≠ "D")
    (hlen : parseU16 lenTok = some L)
    (hshort : payload.length < L) :
    parseTokens (ts_tok :: ch_tok :: id_tok :: dir_tok :: (mid ++ "d" :: lenTok :: payload)) log
      = log ∧
    (∀ (toks : List String) (lg : Log) (f : Frame),
        (parseTokens toks lg).frames = lg.frames ++ [f] → f.ftype = FrameType.Can →
        countTokens f.data = f.byte_length) := by
  constructor
  · rw [parseTokens_can_shape hts hch hcm htipo, canIdStage_cons_some hid]
    rcases hdir with rfl | rfl
    · rw [canDirStage_rx, canMarkerStage_decode hmid (Or.inl rfl) hlen]
      exact canPayloadStage_short hshort
    · rw [canDirStage_tx, canMarkerStage_decode hmid (Or.inl rfl) hlen]
      exact canPayloadStage_short hshort
  · intro toks lg f happ hty
    exact (parseTokens_insert_can (parseTokens_frames_append happ) hty).1

/-- C4 witness: the scenario line `0.1 1 123 Rx d 2 00` declares two
payload bytes but carries only one, so it decodes to nothing. -/
theorem C4_witness :
    parseF64 "0.1" = some ⟨1, 1⟩ ∧
    parseU8 "1" = some 1 ∧
    logA.channel_map 1 = some chA ∧
    chA.tipo = ChannelType.Can ∧
    parse_id_u32 "123" = some 0x123 ∧
    (("Rx" : String) = "Rx" ∨ ("Rx" : String) = "Tx") ∧
    (∀ t ∈ ([] : List String), t ≠ "d" ∧ t ≠ "D") ∧
    parseU16 "2" = some 2 ∧
    (["00"] : List String).length < 2 ∧
    (parseTokens ("0.1" :: "1" :: "123" :: "Rx" :: ([] ++ "d" :: "2" :: ["00"])) logA = logA ∧
      ∀ (toks : List String) (lg : Log) (f : Frame),
        (parseTokens toks lg).frames = lg.frames ++ [f] → f.ftype = FrameType.Can →
        countTokens f.data = f.byte_length) :=
  ⟨by decide, by decide, rfl, rfl, by decide, Or.inl rfl, by simp, by decide, by decide,
    C4_claim "0.1" "1" "123" "Rx" "2" [] ["00"] ⟨1, 1⟩ 1 0x123 2 chA logA
      (by decide) (by decide) rfl rfl (by decide) (Or.inl rfl) (by simp) (by decide) (by decide)⟩

/-! ## Claim C5 -/

/-- Placement of a key in the index vectors: present in the file-order and
generic orderings, absent from every bus-specific ordering. -/
def errorFramePlacement (L : Log) (k : Nat) : Prop :=
  k ∈ L.frame_by_file_order ∧
  k ∈ L.frame_by_timestamp ∧
  k ∈ L.frame_by_channel ∧
  k ∈ L.frame_by_direction ∧
  k ∉ L.frame_by_can_msg_name ∧
  k ∉ L.frame_by_can_msg_id ∧
  k ∉ L.frame_by_can_dlc ∧
  k ∉ L.frame_by_can_protocol ∧
  k ∉ L.frame_by_can_sender_node ∧
  k ∉ L.frame_by_can_data ∧
  k ∉ L.frame_by_can_comment ∧
  k ∉ L.id_chn_by_timestamp ∧
  k ∉ L.id_chn_by_channel ∧
  k ∉ L.id_chn_by_direction ∧
  k ∉ L.id_chn_by_can_msg_name ∧
  k ∉ L.id_chn_by_can_msg_id ∧
  k ∉ L.id_chn_by_can_dlc ∧
  k ∉ L.id_chn_by_can_protocol ∧
  k ∉ L.id_chn_by_can_sender_node ∧
  k ∉ L.id_chn_by_can_data ∧
  k ∉ L.id_chn_by_can_comment

/-- C5: a Bus line whose direction token is neither `Rx` nor `Tx`
(case-sensitive) inserts a frame flagged `ErrorFrame` with no further
fields parsed (identifier fields only) into the arena and the file-order
index, and after a successful load every ErrorFrame key appears in the
file-order and generic orderings but in no bus-specific ordering. -/
theorem C5_claim (ts_tok ch_tok id_tok dir_tok : String) (toks4 : List String)
    (d : Dec) (ch id : Nat) (info : ChannelInfo) (log : Log)
    (hts : parseF64 ts_tok = some d) (hch : parseU8 ch_tok = some ch)
    (hcm : log.channel_map ch = some info) (htipo : info.tipo = ChannelType.Can)
    (hid : parse_id_u32 id_tok = some id)
    (hdir1 : dir_tok ≠ "Tx") (hdir2 : dir_tok ≠ "Rx") :
    parseTokens (ts_tok :: ch_tok :: id_tok :: dir_tok :: toks4) log
      = insertFrame { Frame.default with
          timestamp := d
          channel := ch
          ftype := FrameType.ErrorFrame
          id := id
          id_hex := id_tok } log ∧
    (∀ (path : String) (file : Option (List ReadEvent)) (log0 : Log) (k : Nat) (f : Frame),
        (from_asc_file path file log0).2 = none →
        (from_asc_file path file log0).1.frames.get? k = some f →
        f.ftype = FrameType.ErrorFrame →
        errorFramePlacement (from_asc_file path file log0).1 k) := by
  constructor
  · rw [parseTokens_can_shape hts hch hcm htipo, canIdStage_cons_some hid,
      canDirStage_bad hdir1 hdir2]
  · intro path file log0 k f hok hget hty
    obtain ⟨hext, evs, hfile, hio, heq⟩ := load_ok_inv hok
    rw [heq] at hget ⊢
    rw [buildIndexes_frames] at hget
    have ha1 : ArenaInv (processLines path evs false (Log.clear_frames log0)).1 :=
      processLines_arena path evs false _ (clear_frames_arena log0)
    have hk : k < (processLines path evs false (Log.clear_frames log0)).1.frames.length := by
      by_contra h
      rw [List.get?_eq_none.mpr (by omega)] at hget
      cases hget
    have hcan : k ∉ canKeys (processLines path evs false (Log.clear_frames log0)).1 := by
      intro hkc
      rcases canKeys_frames k hkc with ⟨g, hg, hgty⟩
      rw [hget] at hg
      injection hg with hg
      rw [← hg, hty] at hgty
      cases hgty
    have hidchn : k ∉ idChnKeys (processLines path evs false (Log.clear_frames log0)).1 := by
      intro hkc
      rcases idChnKeys_frames ha1 k hkc with ⟨g, hg, hgty⟩
      rw [hget] at hg
      injection hg with hg
      rw [← hg, hty] at hgty
      cases hgty
    unfold errorFramePlacement
    simp only [buildIndexes_file_order, buildIndexes_by_timestamp, buildIndexes_by_channel,
      buildIndexes_by_direction, buildIndexes_by_can_msg_name, buildIndexes_by_can_msg_id,
      buildIndexes_by_can_dlc, buildIndexes_by_can_protocol, buildIndexes_by_can_sender_node,
      buildIndexes_by_can_data, buildIndexes_by_can_comment, buildIndexes_id_chn_by_timestamp,
      buildIndexes_id_chn_by_channel, buildIndexes_id_chn_by_direction,
      buildIndexes_id_chn_by_can_msg_name, buildIndexes_id_chn_by_can_msg_id,
      buildIndexes_id_chn_by_can_dlc, buildIndexes_id_chn_by_can_protocol,
      buildIndexes_id_chn_by_can_sender_node, buildIndexes_id_chn_by_can_data,
      buildIndexes_id_chn_by_can_comment]
    refine ⟨?_, ?_, ?_, ?_, ?_, ?_, ?_, ?_, ?_, ?_, ?_, ?_, ?_, ?_, ?_, ?_, ?_, ?_, ?_,
      ?_, ?_⟩ <;>
      first
      | (rw [ha1]; exact List.mem_range.mpr hk)
      | (rw [mem_sortKeys, ha1]; exact List.mem_range.mpr hk)
      | (rw [mem_sortKeys]; exact hcan)
      | (rw [mem_sortKeys]; exact hidchn)

/-- C5 witness: the scenario line `0.1 1 123 Bogus d 1 00`. -/
theorem C5_witness :
    parseF64 "0.1" = some ⟨1, 1⟩ ∧
    parseU8 "1" = some 1 ∧
    logA.channel_map 1 = some chA ∧
    chA.tipo = ChannelType.Can ∧
    parse_id_u32 "123" = some 0x123 ∧
    ("Bogus" : String) ≠ "Tx" ∧
    ("Bogus" : String) ≠ "Rx" ∧
    (parseTokens ("0.1" :: "1" :: "123" :: "Bogus" :: ["d", "1", "00"]) logA
        = insertFrame { Frame.default with
            timestamp := ⟨1, 1⟩
            channel := 1
            ftype := FrameType.ErrorFrame
            id := 0x123
            id_hex := "123" } logA ∧
      ∀ (path : String) (file : Option (List ReadEvent)) (log0 : Log) (k : Nat) (f : Frame),
        (from_asc_file path file log0).2 = none →
        (from_asc_file path file log0).1.frames.get? k = some f →
        f.ftype = FrameType.ErrorFrame →
        errorFramePlacement (from_asc_file path file log0).1 k) :=
  ⟨by decide, by decide, rfl, rfl, by decide, by decide, by decide,
    C5_claim "0.1" "1" "123" "Bogus" ["d", "1", "00"] ⟨1, 1⟩ 1 0x123 chA logA
      (by decide) (by decide) rfl rfl (by decide) (by decide) (by decide)⟩

/-! ## Claim C1 -/

theorem emptyBucketPairwise (frames : List Frame) (base : List Nat) (attr : Frame → String)
    (keys : List Nat) (hkeys : ∀ k ∈ keys, (frames.get? k).isSome = true) :
    (sortKeys (keyCmp frames base (fun fa fb => cmpStr (attr fa) (attr fb))) keys).Pairwise
      (fun a b => ∀ fa fb, frames.get? a = some fa → frames.get? b = some fb →
        attr fb = "" → attr fa = "") := by
  have hpw := sortKeys_keyCmp_pairwise frames base (cmpStr_lawful.comap attr) keys hkeys
  apply List.Pairwise.imp ?_ hpw
  intro a b hle fa fb hfa hfb hfb0
  rw [show keyCmp frames base (fun fa fb => cmpStr (attr fa) (attr fb)) a b
      = (cmpStr (attr fa) (attr fb)).then (fallback_cmp base a b) from by
    unfold keyCmp
    rw [hfa, hfb]] at hle
  rw [hfb0] at hle
  by_contra hne
  rw [cmpStr_nonempty_gt hne, then_gt, isLE_gt] at hle
  cases hle

/-- C1 counterexample: in the loaded two-line trace `fileA` the frame with
the unresolvable identifier `0x456` (key 1) PRECEDES the resolved frame
(key 0) in the vector sorted by message name — the unresolved entry is not
ranked in an inferior bucket after all resolved entries. -/
theorem C1_counterexample :
    (from_asc_file "trace.asc" (some fileA) logA).2 = none ∧
    (from_asc_file "trace.asc" (some fileA) logA).1.frame_by_can_msg_name = [1, 0] ∧
    ((from_asc_file "trace.asc" (some fileA) logA).1.frames.get? 0).map
        (fun f => msgResolved (from_asc_file "trace.asc" (some fileA) logA).1.channel_map f)
      = some true ∧
    ((from_asc_file "trace.asc" (some fileA) logA).1.frames.get? 1).map
        (fun f => msgResolved (from_asc_file "trace.asc" (some fileA) logA).1.channel_map f)
      = some false := by
  decide

/-- C1 (amended): a frame whose message or sender-node reference cannot be
resolved has its sort attribute equal to the empty string (`unwrap_or("")`
in the comparator), and in every index vector sorted by a database-resolved
attribute such frames are therefore ranked BEFORE every resolved entry with
a nonempty attribute, not after: any key preceding an empty-attribute key
in such a vector has an empty attribute itself.  This covers all six such
vectors: the per-frame and the latest-per-id-channel orderings by message
name, sender-node name and message comment. -/
theorem C1_claim (path : String) (file : Option (List ReadEvent)) (log0 : Log)
    (hok : (from_asc_file path file log0).2 = none) :
    (∀ (chmap : Nat → Option ChannelInfo) (f : Frame), msgResolved chmap f = false →
        msg_name_of chmap f = "" ∧ msg_comment_of chmap f = "") ∧
    (∀ (chmap : Nat → Option ChannelInfo) (f : Frame), nodeResolved chmap f = false →
        node_name_of chmap f = "") ∧
    (from_asc_file path file log0).1.frame_by_can_msg_name.Pairwise (fun a b =>
      ∀ fa fb, (from_asc_file path file log0).1.frames.get? a = some fa →
        (from_asc_file path file log0).1.frames.get? b = some fb →
        msg_name_of (from_asc_file path file log0).1.channel_map fb = "" →
        msg_name_of (from_asc_file path file log0).1.channel_map fa = "") ∧
    (from_asc_file path file log0).1.frame_by_can_sender_node.Pairwise (fun a b =>
      ∀ fa fb, (from_asc_file path file log0).1.frames.get? a = some fa →
        (from_asc_file path file log0).1.frames.get? b = some fb →
        node_name_of (from_asc_file path file log0).1.channel_map fb = "" →
        node_name_of (from_asc_file path file log0).1.channel_map fa = "") ∧
    (from_asc_file path file log0).1.frame_by_can_comment.Pairwise (fun a b =>
      ∀ fa fb, (from_asc_file path file log0).1.frames.get? a = some fa →
        (from_asc_file path file log0).1.frames.get? b = some fb →
        msg_comment_of (from_asc_file path file log0).1.channel_map fb = "" →
        msg_comment_of (from_asc_file path file log0).1.channel_map fa = "") ∧
    (from_asc_file path file log0).1.id_chn_by_can_msg_name.Pairwise (fun a b =>
      ∀ fa fb, (from_asc_file path file log0).1.frames.get? a = some fa →
        (from_asc_file path file log0).1.frames.get? b = some fb →
        msg_name_of (from_asc_file path file log0).1.channel_map fb = "" →
        msg_name_of (from_asc_file path file log0).1.channel_map fa = "") ∧
    (from_asc_file path file log0).1.id_chn_by_can_sender_node.Pairwise (fun a b =>
      ∀ fa fb, (from_asc_file path file log0).1.frames.get? a = some fa →
        (from_asc_file path file log0).1.frames.get? b = some fb →
        node_name_of (from_asc_file path file log0).1.channel_map fb = "" →
        node_name_of (from_asc_file path file log0).1.channel_map fa = "") ∧
    (from_asc_file path file log0).1.id_chn_by_can_comment.Pairwise (fun a b =>
      ∀ fa fb, (from_asc_file path file log0).1.frames.get? a = some fa →
        (from_asc_file path file log0).1.frames.get? b = some fb →
        msg_comment_of (from_asc_file path file log0).1.channel_map fb = "" →
        msg_comment_of (from_asc_file path file log0).1.channel_map fa = "") := by
  obtain ⟨hext, evs, hfile, hio, heq⟩ := load_ok_inv hok
  have ha1 : ArenaInv (processLines path evs false (Log.clear_frames log0)).1 :=
    processLines_arena path evs false _ (clear_frames_arena log0)
  refine ⟨fun chmap f h => ⟨msg_name_of_unresolved h, msg_comment_of_unresolved h⟩,
    fun chmap f h => node_name_of_unresolved h, ?_, ?_, ?_, ?_, ?_, ?_⟩
  · rw [heq]
    simp only [buildIndexes_frames, buildIndexes_channel_map, buildIndexes_by_can_msg_name,
      buildIndexes_by_can_sender_node, buildIndexes_by_can_comment]
    refine emptyBucketPairwise _ _ _ _ ?_
    intro k hk
    rcases canKeys_frames k hk with ⟨f, hf, _⟩
    rw [hf]
    rfl
  · rw [heq]
    simp only [buildIndexes_frames, buildIndexes_channel_map, buildIndexes_by_can_msg_name,
      buildIndexes_by_can_sender_node, buildIndexes_by_can_comment]
    refine emptyBucketPairwise _ _ _ _ ?_
    intro k hk
    rcases canKeys_frames k hk with ⟨f, hf, _⟩
    rw [hf]
    rfl
  · rw [heq]
    simp only [buildIndexes_frames, buildIndexes_channel_map, buildIndexes_by_can_msg_name,
      buildIndexes_by_can_sender_node, buildIndexes_by_can_comment]
    refine emptyBucketPairwise _ _ _ _ ?_
    intro k hk
    rcases canKeys_frames k hk with ⟨f, hf, _⟩
    rw [hf]
    rfl
  · rw [heq]
    simp only [buildIndexes_frames, buildIndexes_channel_map,
      buildIndexes_id_chn_by_can_msg_name, buildIndexes_id_chn_by_can_sender_node,
      buildIndexes_id_chn_by_can_comment]
    refine emptyBucketPairwise _ _ _ _ ?_
    intro k hk
    rcases idChnKeys_frames ha1 k hk with ⟨f, hf, _⟩
    rw [hf]
    rfl
  · rw [heq]
    simp only [buildIndexes_frames, buildIndexes_channel_map,
      buildIndexes_id_chn_by_can_msg_name, buildIndexes_id_chn_by_can_sender_node,
      buildIndexes_id_chn_by_can_comment]
    refine emptyBucketPairwise _ _ _ _ ?_
    intro k hk
    rcases idChnKeys_frames ha1 k hk with ⟨f, hf, _⟩
    rw [hf]
    rfl
  · rw [heq]
    simp only [buildIndexes_frames, buildIndexes_channel_map,
      buildIndexes_id_chn_by_can_msg_name, buildIndexes_id_chn_by_can_sender_node,
      buildIndexes_id_chn_by_can_comment]
    refine emptyBucketPairwise _ _ _ _ ?_
    intro k hk
    rcases idChnKeys_frames ha1 k hk with ⟨f, hf, _⟩
    rw [hf]
    rfl

/-- C1 witness: the amended statement at the concrete two-line load. -/
theorem C1_witness :
    (from_asc_file "trace.asc" (some fileA) logA).2 = none ∧
    ((∀ (chmap : Nat → Option ChannelInfo) (f : Frame), msgResolved chmap f = false →
        msg_name_of chmap f = "" ∧ msg_comment_of chmap f = "") ∧
    (∀ (chmap : Nat → Option ChannelInfo) (f : Frame), nodeResolved chmap f = false →
        node_name_of chmap f = "") ∧
    (from_asc_file "trace.asc" (some fileA) logA).1.frame_by_can_msg_name.Pairwise (fun a b =>
      ∀ fa fb, (from_asc_file "trace.asc" (some fileA) logA).1.frames.get? a = some fa →
        (from_asc_file "trace.asc" (some fileA) logA).1.frames.get? b = some fb →
        msg_name_of (from_asc_file "trace.asc" (some fileA) logA).1.channel_map fb = "" →
        msg_name_of (from_asc_file "trace.asc" (some fileA) logA).1.channel_map fa = "") ∧
    (from_asc_file "trace.asc" (some fileA) logA).1.frame_by_can_sender_node.Pairwise
      (fun a b =>
      ∀ fa fb, (from_asc_file "trace.asc" (some fileA) logA).1.frames.get? a = some fa →
        (from_asc_file "trace.asc" (some fileA) logA).1.frames.get? b = some fb →
        node_name_of (from_asc_file "trace.asc" (some fileA) logA).1.channel_map fb = "" →
        node_name_of (from_asc_file "trace.asc" (some fileA) logA).1.channel_map fa = "") ∧
    (from_asc_file "trace.asc" (some fileA) logA).1.frame_by_can_comment.Pairwise (fun a b =>
      ∀ fa fb, (from_asc_file "trace.asc" (some fileA) logA).1.frames.get? a = some fa →
        (from_asc_file "trace.asc" (some fileA) logA).1.frames.get? b = some fb →
        msg_comment_of (from_asc_file "trace.asc" (some fileA) logA).1.channel_map fb = "" →
        msg_comment_of (from_asc_file "trace.asc" (some fileA) logA).1.channel_map fa = "") ∧
    (from_asc_file "trace.asc" (some fileA) logA).1.id_chn_by_can_msg_name.Pairwise (fun a b =>
      ∀ fa fb, (from_asc_file "trace.asc" (some fileA) logA).1.frames.get? a = some fa →
        (from_asc_file "trace.asc" (some fileA) logA).1.frames.get? b = some fb →
        msg_name_of (from_asc_file "trace.asc" (some fileA) logA).1.channel_map fb = "" →
        msg_name_of (from_asc_file "trace.asc" (some fileA) logA).1.channel_map fa = "") ∧
    (from_asc_file "trace.asc" (some fileA) logA).1.id_chn_by_can_sender_node.Pairwise
      (fun a b =>
      ∀ fa fb, (from_asc_file "trace.asc" (some fileA) logA).1.frames.get? a = some fa →
        (from_asc_file "trace.asc" (some fileA) logA).1.frames.get? b = some fb →
        node_name_of (from_asc_file "trace.asc" (some fileA) logA).1.channel_map fb = "" →
        node_name_of (from_asc_file "trace.asc" (some fileA) logA).1.channel_map fa = "") ∧
    (from_asc_file "trace.asc" (some fileA) logA).1.id_chn_by_can_comment.Pairwise (fun a b =>
      ∀ fa fb, (from_asc_file "trace.asc" (some fileA) logA).1.frames.get? a = some fa →
        (from_asc_file "trace.asc" (some fileA) logA).1.frames.get? b = some fb →
        msg_comment_of (from_asc_file "trace.asc" (some fileA) logA).1.channel_map fb = "" →
        msg_comment_of (from_asc_file "trace.asc" (some fileA) logA).1.channel_map fa = "")) :=
  ⟨by decide, C1_claim "trace.asc" (some fileA) logA (by decide)⟩

/-! ## Claim C2 -/

set_option maxRecDepth 4000 in
/-- C2 counterexample: a Trace Store that still holds `some 0` as its
absolute-time value (from an earlier load) is reloaded from a file with no
date header; after the successful load the value is still `some 0`, not
empty, and the decoded frame's absolute time comes from the start-time
path (`1970-01-01 ...`), not from the synthesized-duration path
(`2025-01-01 ...`). -/
theorem C2_counterexample :
    (from_asc_file "trace.asc" (some fileB) logB).2 = none ∧
    (from_asc_file "trace.asc" (some fileB) logB).1.absolute_time.value = some ⟨0, false⟩ ∧
    ((from_asc_file "trace.asc" (some fileB) logB).1.frames.get? 0).map
        (fun f => f.absolute_time) = some "1970-01-01 00:00:00.100" ∧
    seconds_to_hms_string ⟨1, 1⟩ = "2025-01-01 00:00:00.100" := by
  decide

/-- C2 (amended): when the Trace Store's absolute-time value is unset at
the start of the load and no line of the file matches the date header,
after a successful `from_asc_file` the stored absolute-time value is empty
and every decoded Can frame's absolute time went through the
synthesized-duration (fixed placeholder date) formatting path. -/
theorem C2_claim (path : String) (file : Option (List ReadEvent)) (log0 : Log)
    (hok : (from_asc_file path file log0).2 = none)
    (hinit : log0.absolute_time.value = none)
    (hnohdr : ∀ evs, file = some evs → ∀ raw, ReadEvent.line raw ∈ evs →
        abs_time_from_line (trimEndNewline raw) = none) :
    (from_asc_file path file log0).1.absolute_time.value = none ∧
    SynthOK (from_asc_file path file log0).1 := by
  obtain ⟨hext, evs, hfile, hio, heq⟩ := load_ok_inv hok
  have hnh := processLines_no_header path evs false (Log.clear_frames log0) (hnohdr evs hfile)
  have hcv : (Log.clear_frames log0).absolute_time.value = none := by
    rw [clear_frames_absolute_time]
    exact hinit
  have hsynth0 : SynthOK (Log.clear_frames log0) :=
    fun f hf _ => absurd hf (List.not_mem_nil f)
  rw [heq]
  constructor
  · rw [buildIndexes_absolute_time, hnh.1, clear_frames_absolute_time]
    exact hinit
  · exact hnh.2 hcv hsynth0

/-- C2 witness: the amended statement at the concrete header-free load. -/
theorem C2_witness :
    (from_asc_file "trace.asc" (some fileB) logA).2 = none ∧
    logA.absolute_time.value = none ∧
    (∀ evs, (some fileB : Option (List ReadEvent)) = some evs →
        ∀ raw, ReadEvent.line raw ∈ evs → abs_time_from_line (trimEndNewline raw) = none) ∧
    ((from_asc_file "trace.asc" (some fileB) logA).1.absolute_time.value = none ∧
      SynthOK (from_asc_file "trace.asc" (some fileB) logA).1) :=
  ⟨by decide, rfl, by
    intro evs hevs raw hraw
    injection hevs with hevs
    subst hevs
    simp only [fileB, List.mem_singleton] at hraw
    injection hraw with hraw
    subst hraw
    decide,
  C2_claim "trace.asc" (some fileB) logA (by decide) rfl (by
    intro evs hevs raw hraw
    injection hevs with hevs
    subst hevs
    simp only [fileB, List.mem_singleton] at hraw
    injection hraw with hraw
    subst hraw
    decide)⟩

/-! ## Claim C3 -/

/-- Characterization of the latest-per-id-channel key set of a Trace
Store, and the permutation property of its ten id_chn index vectors. -/
def lastPerPairSpec (L : Log) : Prop :=
  (∀ (p : Nat × Nat) (k : Nat),
      ((p, k) ∈ lastByIdChannel L.frames L.frame_by_file_order ↔ IsLastCanOcc L.frames p k)) ∧
  (∀ (p : Nat × Nat) (k₁ k₂ : Nat), IsLastCanOcc L.frames p k₁ → IsLastCanOcc L.frames p k₂ →
      k₁ = k₂) ∧
  (∀ p : Nat × Nat, (∃ k, (p, k) ∈ lastByIdChannel L.frames L.frame_by_file_order) ↔
      (∃ k f, L.frames.get? k = some f ∧ f.ftype = FrameType.Can ∧ (f.id, f.channel) = p)) ∧
  L.id_chn_by_timestamp.Perm ((lastByIdChannel L.frames L.frame_by_file_order).map (·.2)) ∧
  L.id_chn_by_channel.Perm ((lastByIdChannel L.frames L.frame_by_file_order).map (·.2)) ∧
  L.id_chn_by_direction.Perm ((lastByIdChannel L.frames L.frame_by_file_order).map (·.2)) ∧
  L.id_chn_by_can_msg_name.Perm ((lastByIdChannel L.frames L.frame_by_file_order).map (·.2)) ∧
  L.id_chn_by_can_msg_id.Perm ((lastByIdChannel L.frames L.frame_by_file_order).map (·.2)) ∧
  L.id_chn_by_can_dlc.Perm ((lastByIdChannel L.frames L.frame_by_file_order).map (·.2)) ∧
  L.id_chn_by_can_protocol.Perm ((lastByIdChannel L.frames L.frame_by_file_order).map (·.2)) ∧
  L.id_chn_by_can_sender_node.Perm
    ((lastByIdChannel L.frames L.frame_by_file_order).map (·.2)) ∧
  L.id_chn_by_can_data.Perm ((lastByIdChannel L.frames L.frame_by_file_order).map (·.2)) ∧
  L.id_chn_by_can_comment.Perm ((lastByIdChannel L.frames L.frame_by_file_order).map (·.2))

theorem lastPerPairSpec_buildIndexes (lg1 : Log) (ha1 : ArenaInv lg1) :
    lastPerPairSpec (buildIndexes lg1) := by
  unfold lastPerPairSpec
  simp only [buildIndexes_frames, buildIndexes_file_order, buildIndexes_id_chn_by_timestamp,
    buildIndexes_id_chn_by_channel, buildIndexes_id_chn_by_direction,
    buildIndexes_id_chn_by_can_msg_name, buildIndexes_id_chn_by_can_msg_id,
    buildIndexes_id_chn_by_can_dlc, buildIndexes_id_chn_by_can_protocol,
    buildIndexes_id_chn_by_can_sender_node, buildIndexes_id_chn_by_can_data,
    buildIndexes_id_chn_by_can_comment]
  refine ⟨?_, ?_, ?_, ?_, ?_, ?_, ?_, ?_, ?_, ?_, ?_, ?_, ?_⟩
  · intro p k
    rw [ha1]
    exact (lastByIdChannel_range_iff lg1.frames lg1.frames.length p k).trans
      (LastInPrefix_length_iff lg1.frames p k)
  · intro p k₁ k₂ h1 h2
    exact IsLastCanOcc_unique lg1.frames p k₁ k₂ h1 h2
  · intro p
    rw [ha1]
    constructor
    · rintro ⟨k, hk⟩
      have hl := (lastByIdChannel_range_iff lg1.frames lg1.frames.length p k).mp hk
      rcases hl.2.1 with ⟨f, hg, hty, hp⟩
      exact ⟨k, f, hg, hty, hp⟩
    · rintro ⟨k, f, hget, hty, hpair⟩
      have hk : k < lg1.frames.length := by
        by_contra h
        rw [List.get?_eq_none.mpr (by omega)] at hget
        cases hget
      exact (lastByIdChannel_exists_iff lg1.frames lg1.frames.length p).mpr
        ⟨k, f, hk, hget, hty, hpair⟩
  all_goals
    exact (sortKeys_perm _ _).trans (sortKeys_perm _ _)

/-- C3: after a successful load, the latest-per-id-channel map holds, for
each `(identifier, channel)` pair observed among Can frames, exactly one
key — the last file-order occurrence of that pair — and every id_chn index
vector is a permutation of that key set. -/
theorem C3_claim (path : String) (file : Option (List ReadEvent)) (log0 : Log)
    (hok : (from_asc_file path file log0).2 = none) :
    lastPerPairSpec (from_asc_file path file log0).1 := by
  obtain ⟨hext, evs, hfile, hio, heq⟩ := load_ok_inv hok
  rw [heq]
  exact lastPerPairSpec_buildIndexes _
    (processLines_arena path evs false _ (clear_frames_arena log0))

/-- C3 witness: the latest-per-id-channel characterization at the concrete
two-line load. -/
theorem C3_witness :
    (from_asc_file "trace.asc" (some fileA) logA).2 = none ∧
    lastPerPairSpec (from_asc_file "trace.asc" (some fileA) logA).1 :=
  ⟨by decide, C3_claim "trace.asc" (some fileA) logA (by decide)⟩

/-! ## Claim C9 -/

/-- Sorted-vector tie-break discipline over all twenty sorted index
vectors of a Trace Store: keys whose primary sort keys compare equal keep
ascending file order. -/
def allTieBreakSpec (L : Log) : Prop :=
  TieBreakByFileOrder L.frames primTimestamp L.frame_by_timestamp ∧
  TieBreakByFileOrder L.frames primChannel L.frame_by_channel ∧
  TieBreakByFileOrder L.frames primDirection L.frame_by_direction ∧
  TieBreakByFileOrder L.frames (primMsgName L.channel_map) L.frame_by_can_msg_name ∧
  TieBreakByFileOrder L.frames primMsgId L.frame_by_can_msg_id ∧
  TieBreakByFileOrder L.frames primDlc L.frame_by_can_dlc ∧
  TieBreakByFileOrder L.frames primProtocol L.frame_by_can_protocol ∧
  TieBreakByFileOrder L.frames (primSenderNode L.channel_map) L.frame_by_can_sender_node ∧
  TieBreakByFileOrder L.frames primData L.frame_by_can_data ∧
  TieBreakByFileOrder L.frames (primComment L.channel_map) L.frame_by_can_comment ∧
  TieBreakByFileOrder L.frames primTimestamp L.id_chn_by_timestamp ∧
  TieBreakByFileOrder L.frames primChannel L.id_chn_by_channel ∧
  TieBreakByFileOrder L.frames primDirection L.id_chn_by_direction ∧
  TieBreakByFileOrder L.frames (primMsgName L.channel_map) L.id_chn_by_can_msg_name ∧
  TieBreakByFileOrder L.frames primMsgId L.id_chn_by_can_msg_id ∧
  TieBreakByFileOrder L.frames primDlc L.id_chn_by_can_dlc ∧
  TieBreakByFileOrder L.frames primProtocol L.id_chn_by_can_protocol ∧
  TieBreakByFileOrder L.frames (primSenderNode L.channel_map) L.id_chn_by_can_sender_node ∧
  TieBreakByFileOrder L.frames primData L.id_chn_by_can_data ∧
  TieBreakByFileOrder L.frames (primComment L.channel_map) L.id_chn_by_can_comment

set_option maxHeartbeats 1600000 in
theorem allTieBreakSpec_buildIndexes (lg1 : Log) (ha1 : ArenaInv lg1) :
    allTieBreakSpec (buildIndexes lg1) := by
  have hrange_keys : ∀ k ∈ List.range lg1.frames.length,
      (lg1.frames.get? k).isSome = true := by
    intro k hk
    rw [List.mem_range] at hk
    cases hg : lg1.frames.get? k with
    | none =>
      rw [List.get?_eq_none] at hg
      omega
    | some f => rfl
  have hrange_lt : ∀ k ∈ List.range lg1.frames.length, k < lg1.frames.length := by
    intro k hk
    exact List.mem_range.mp hk
  have hcan_keys : ∀ k ∈ canKeys lg1, (lg1.frames.get? k).isSome = true := by
    intro k hk
    rcases canKeys_frames k hk with ⟨f, hf, _⟩
    rw [hf]
    rfl
  have hcan_lt : ∀ k ∈ canKeys lg1, k < lg1.frames.length := by
    intro k hk
    rcases canKeys_frames k hk with ⟨f, hf, _⟩
    by_contra h
    rw [List.get?_eq_none.mpr (by omega)] at hf
    cases hf
  have hbase_nodup : lg1.frame_by_file_order.Nodup := by
    rw [ha1]
    exact List.nodup_range _
  have hcan_nodup : (canKeys lg1).Nodup := by
    unfold canKeys
    exact List.Nodup.filter _ hbase_nodup
  have hid_keys : ∀ k ∈ idChnKeys lg1, (lg1.frames.get? k).isSome = true := by
    intro k hk
    rcases idChnKeys_frames ha1 k hk with ⟨f, hf, _⟩
    rw [hf]
    rfl
  have hid_lt : ∀ k ∈ idChnKeys lg1, k < lg1.frames.length := by
    intro k hk
    rcases idChnKeys_frames ha1 k hk with ⟨f, hf, _⟩
    by_contra h
    rw [List.get?_eq_none.mpr (by omega)] at hf
    cases hf
  have hid_nodup : (idChnKeys lg1).Nodup := idChnKeys_nodup ha1
  unfold allTieBreakSpec
  simp only [buildIndexes_frames, buildIndexes_channel_map, buildIndexes_by_timestamp,
    buildIndexes_by_channel, buildIndexes_by_direction, buildIndexes_by_can_msg_name,
    buildIndexes_by_can_msg_id, buildIndexes_by_can_dlc, buildIndexes_by_can_protocol,
    buildIndexes_by_can_sender_node, buildIndexes_by_can_data, buildIndexes_by_can_comment,
    buildIndexes_id_chn_by_timestamp, buildIndexes_id_chn_by_channel,
    buildIndexes_id_chn_by_direction, buildIndexes_id_chn_by_can_msg_name,
    buildIndexes_id_chn_by_can_msg_id, buildIndexes_id_chn_by_can_dlc,
    buildIndexes_id_chn_by_can_protocol, buildIndexes_id_chn_by_can_sender_node,
    buildIndexes_id_chn_by_can_data, buildIndexes_id_chn_by_can_comment]
  rw [ha1]
  refine ⟨?_, ?_, ?_, ?_, ?_, ?_, ?_, ?_, ?_, ?_, ?_, ?_, ?_, ?_, ?_, ?_, ?_, ?_, ?_, ?_⟩ <;>
    first
    | exact tieBreak_of_sorted _ _ primTimestamp_lawful _ hrange_keys hrange_lt
        (List.nodup_range _)
    | exact tieBreak_of_sorted _ _ primChannel_lawful _ hrange_keys hrange_lt
        (List.nodup_range _)
    | exact tieBreak_of_sorted _ _ primDirection_lawful _ hrange_keys hrange_lt
        (List.nodup_range _)
    | exact tieBreak_of_sorted _ _ (primMsgName_lawful lg1.channel_map) _ hcan_keys hcan_lt
        hcan_nodup
    | exact tieBreak_of_sorted _ _ primMsgId_lawful _ hcan_keys hcan_lt hcan_nodup
    | exact tieBreak_of_sorted _ _ primDlc_lawful _ hcan_keys hcan_lt hcan_nodup
    | exact tieBreak_of_sorted _ _ primProtocol_lawful _ hcan_keys hcan_lt hcan_nodup
    | exact tieBreak_of_sorted _ _ (primSenderNode_lawful lg1.channel_map) _ hcan_keys
        hcan_lt hcan_nodup
    | exact tieBreak_of_sorted _ _ primData_lawful _ hcan_keys hcan_lt hcan_nodup
    | exact tieBreak_of_sorted _ _ (primComment_lawful lg1.channel_map) _ hcan_keys hcan_lt
        hcan_nodup
    | exact tieBreak_of_sorted _ _ primTimestamp_lawful _ hid_keys hid_lt hid_nodup
    | exact tieBreak_of_sorted _ _ primChannel_lawful _ hid_keys hid_lt hid_nodup
    | exact tieBreak_of_sorted _ _ primDirection_lawful _ hid_keys hid_lt hid_nodup
    | exact tieBreak_of_sorted _ _ (primMsgName_lawful lg1.channel_map) _ hid_keys hid_lt
        hid_nodup
    | exact tieBreak_of_sorted _ _ primMsgId_lawful _ hid_keys hid_lt hid_nodup
    | exact tieBreak_of_sorted _ _ primDlc_lawful _ hid_keys hid_lt hid_nodup
    | exact tieBreak_of_sorted _ _ primProtocol_lawful _ hid_keys hid_lt hid_nodup
    | exact tieBreak_of_sorted _ _ (primSenderNode_lawful lg1.channel_map) _ hid_keys
        hid_lt hid_nodup
    | exact tieBreak_of_sorted _ _ primData_lawful _ hid_keys hid_lt hid_nodup
    | exact tieBreak_of_sorted _ _ (primComment_lawful lg1.channel_map) _ hid_keys hid_lt
        hid_nodup

/-- C9: loading the same abstract file again into the store left by a
previous load (same `channel_map`, hence the same database bindings)
returns the same error and identical index vectors, key for key; and on a
successful load every sorted vector obeys the uniform file-order tie-break
discipline, giving a total, reproducible order. -/
theorem C9_claim (path : String) (file : Option (List ReadEvent)) (log0 : Log) :
    (from_asc_file path file (from_asc_file path file log0).1).2
        = (from_asc_file path file log0).2 ∧
    (from_asc_file path file (from_asc_file path file log0).1).1.indexVectors
        = (from_asc_file path file log0).1.indexVectors ∧
    ((from_asc_file path file log0).2 = none →
        allTieBreakSpec (from_asc_file path file log0).1) := by
  have hcm : (from_asc_file path file log0).1.channel_map = log0.channel_map :=
    from_asc_file_channel_map path file log0
  have hsim := from_asc_file_sim path file hcm
  refine ⟨hsim.2, hsim.1.iv, ?_⟩
  intro hok
  obtain ⟨hext, evs, hfile, hio, heq⟩ := load_ok_inv hok
  rw [heq]
  exact allTieBreakSpec_buildIndexes _
    (processLines_arena path evs false _ (clear_frames_arena log0))
